import Mathlib

/-!
The AEC3 echo remover (modules/audio_processing/aec3/echo_remover.cc).

A shallow embedding of `EchoRemoverImpl` and of the free functions of
`echo_remover.cc`.

Conventions of the embedding.

* `float` values have two embeddings. In the first, samples, energies and
  spectra are exact rationals (`ℚ`) and nothing rounds: it carries
  `ProcessCapture` and the statements about selection, state and the calls to
  the collaborators.
  The second (namespace `binary32`) gives `SignalTransition`, `LinearEchoPower`
  and `FormLinearFilterOutput` over binary32 values with IEEE 754 rounding; the
  statements about the values these functions compute are made there.
* `GetMetrics` is not embedded: what it reports is `std::log10` of a `float`, a
  library function whose rounding the language does not fix.
* `RTC_DCHECK*` is a check that aborts: a function that contains one returns
  `Except Fatal _`, and a failed check is `Fatal.dcheck line` with the line of
  the check in `echo_remover.cc`.
* `std::vector`/`std::array`/`rtc::ArrayView` are lists. `v[i]` is
  `v.getD i default`, so an index outside the container reads as the default
  (empty vector, zero sample).
* The collaborators of the remover (subtractor, AEC state, suppressor, ...)
  are defined in other files of the module. They are taken as the parameter
  `Aec3`: one state type and one pure state-passing function per method that
  `echo_remover.cc` calls.
* `data_dumper_` calls have no effect on the processing and are left out; the
  locals of `ProcessCapture` they would dump are returned in `BlockLocals`.
-/

namespace webrtc

/-- Outcome of a failed `RTC_DCHECK` (`dcheck`) or `RTC_CHECK` (`check`), with
the line of the check. -/
inductive Fatal where
  | dcheck (line : Nat)
  | check (line : Nat)
deriving DecidableEq, Repr

/-- Audio block: band index, then channel index, then sample index
(`std::vector<std::vector<std::vector<float>>>`). -/
abbrev Block := List (List (List ℚ))

/-- Complex spectrum `FftData`: the arrays `re` and `im`. -/
structure FftData where
  re : List ℚ
  im : List ℚ
deriving DecidableEq, Repr

/-- Modelled from the spec: `SubtractorOutput` is declared in
subtractor_output.h, which is not among the sources. Per channel it holds the
time-domain candidates of the main and the shadow filter and the scalar
energies; the fields are those that `echo_remover.cc` reads. -/
structure SubtractorOutput where
  s_main : List ℚ
  e_main : List ℚ
  e_shadow : List ℚ
  e2_main : ℚ
  e2_shadow : ℚ
  s2_main : ℚ
  s2_shadow : ℚ
  y2 : ℚ
deriving DecidableEq, Repr

/-- Modelled from the spec: `EchoPathVariability::DelayAdjustment` is declared
in echo_path_variability.h, which is not among the sources. The spec describes a
delay-change tri-state (none / new delay / gain-and-delay); `echo_remover.cc`
only compares against `kNone`. -/
inductive DelayAdjustment where
  | kNone
  | kNewDetectedDelay
  | kGainAndDelay
deriving DecidableEq, Repr

/-- Modelled from the spec: `EchoPathVariability` (echo_path_variability.h, not
among the sources) is a gain-change flag and a delay-change value. -/
structure EchoPathVariability where
  gain_change : Bool
  delay_change : DelayAdjustment
deriving DecidableEq, Repr

/-- Modelled from the spec: `EchoPathVariability::AudioPathChanged()` is defined
in echo_path_variability.h, which is not among the sources. The event signals a
change when the gain changed or the delay changed. -/
def EchoPathVariability.AudioPathChanged (v : EchoPathVariability) : Bool :=
  v.gain_change || decide (v.delay_change ≠ DelayAdjustment.kNone)

/-- The parts of AEC3 that `echo_remover.cc` uses and that are not among the
sources: the constants of aec3_common.h and, for every collaborator class, its
state type and the methods the remover calls, as state-passing functions. -/
structure Aec3 where
  kBlockSize : Nat
  kFftLengthBy2 : Nat
  kFftLengthBy2Plus1 : Nat
  NumBandsForRate : Int → Nat
  ValidFullBandRate : Int → Bool
  EchoCanceller3Config : Type
  enable_shadow_filter_output_usage : EchoCanceller3Config → Bool
  DelayEstimate : Type
  RenderBuffer : Type
  RenderBuffer_Block : RenderBuffer → Int → Block
  Subtractor : Type
  Subtractor_new : EchoCanceller3Config → Nat → Nat → Subtractor
  Subtractor_HandleEchoPathChange : Subtractor → EchoPathVariability → Subtractor
  Subtractor_ExitInitialState : Subtractor → Subtractor
  SuppressionGain : Type
  SuppressionGain_new : EchoCanceller3Config → Int → SuppressionGain
  SuppressionGain_SetInitialState : SuppressionGain → Bool → SuppressionGain
  ComfortNoiseGenerator : Type
  ComfortNoiseGenerator_new : ComfortNoiseGenerator
  ComfortNoiseGenerator_NoiseSpectrum : ComfortNoiseGenerator → List ℚ
  SuppressionFilter : Type
  SuppressionFilter_new : Int → SuppressionFilter
  RenderSignalAnalyzer : Type
  RenderSignalAnalyzer_new : EchoCanceller3Config → RenderSignalAnalyzer
  ResidualEchoEstimator : Type
  ResidualEchoEstimator_new : EchoCanceller3Config → ResidualEchoEstimator
  AecState : Type
  AecState_new : EchoCanceller3Config → AecState
  AecState_UpdateCaptureSaturation : AecState → Bool → AecState
  AecState_HandleEchoPathChange : AecState → EchoPathVariability → AecState
  AecState_FilterDelayBlocks : AecState → Int
  AecState_TransitionTriggered : AecState → Bool
  AecState_UseLinearFilterOutput : AecState → Bool
  AecState_UsableLinearEstimate : AecState → Bool
  EchoRemoverMetrics : Type
  EchoRemoverMetrics_new : EchoRemoverMetrics
  RenderSignalAnalyzer_Update :
    RenderSignalAnalyzer → RenderBuffer → Int → RenderSignalAnalyzer
  Subtractor_Process :
    Subtractor → RenderBuffer → List ℚ → RenderSignalAnalyzer → AecState →
      Subtractor × SubtractorOutput
  PaddedFft : List ℚ → List ℚ → FftData
  Spectrum : FftData → List ℚ
  AecState_Update :
    AecState → Option DelayEstimate → Subtractor → RenderBuffer → List ℚ → List ℚ →
      SubtractorOutput → List ℚ → AecState
  ResidualEchoEstimator_Estimate :
    ResidualEchoEstimator → AecState → RenderBuffer → List ℚ → List ℚ →
      ResidualEchoEstimator × List ℚ
  ComfortNoiseGenerator_Compute :
    ComfortNoiseGenerator → AecState → List ℚ →
      ComfortNoiseGenerator × FftData × FftData
  SuppressionGain_GetGain :
    SuppressionGain → List ℚ → List ℚ → List ℚ → List ℚ → RenderSignalAnalyzer →
      AecState → Block → SuppressionGain × ℚ × List ℚ
  SuppressionFilter_ApplyGain :
    SuppressionFilter → FftData → FftData → List ℚ → ℚ → FftData → Block →
      SuppressionFilter × Block
  EchoRemoverMetrics_Update :
    EchoRemoverMetrics → AecState → List ℚ → List ℚ → EchoRemoverMetrics

/-- The data members of `EchoRemoverImpl` (lines 137-160). The scratch vectors
`*_heap_` carry no value from one call to the next and are left out. -/
structure EchoRemoverImpl (C : Aec3) where
  config_ : C.EchoCanceller3Config
  sample_rate_hz_ : Int
  num_render_channels_ : Nat
  num_capture_channels_ : Nat
  use_shadow_filter_output_ : Bool
  subtractor_ : C.Subtractor
  suppression_gain_ : C.SuppressionGain
  cng_ : C.ComfortNoiseGenerator
  suppression_filter_ : C.SuppressionFilter
  render_signal_analyzer_ : C.RenderSignalAnalyzer
  residual_echo_estimator_ : C.ResidualEchoEstimator
  echo_leakage_detected_ : Bool
  aec_state_ : C.AecState
  metrics_ : C.EchoRemoverMetrics
  e_old_ : List ℚ
  x_old_ : List ℚ
  y_old_ : List ℚ
  block_counter_ : Nat
  gain_change_hangover_ : Int
  main_filter_output_last_selected_ : Bool
  linear_filter_output_last_selected_ : Bool

/-- The constructor `EchoRemoverImpl::EchoRemoverImpl` (lines 175-213), with the
default member initialisers of lines 151-160. -/
def EchoRemoverImpl.Create (C : Aec3) (config : C.EchoCanceller3Config)
    (sample_rate_hz : Int) (num_render_channels num_capture_channels : Nat) :
    Except Fatal (EchoRemoverImpl C) :=
  if C.ValidFullBandRate sample_rate_hz = false then .error (.dcheck 209)
  else .ok
    { config_ := config
      sample_rate_hz_ := sample_rate_hz
      num_render_channels_ := num_render_channels
      num_capture_channels_ := num_capture_channels
      use_shadow_filter_output_ := C.enable_shadow_filter_output_usage config
      subtractor_ := C.Subtractor_new config num_render_channels num_capture_channels
      suppression_gain_ := C.SuppressionGain_new config sample_rate_hz
      cng_ := C.ComfortNoiseGenerator_new
      suppression_filter_ := C.SuppressionFilter_new sample_rate_hz
      render_signal_analyzer_ := C.RenderSignalAnalyzer_new config
      residual_echo_estimator_ := C.ResidualEchoEstimator_new config
      echo_leakage_detected_ := false
      aec_state_ := C.AecState_new config
      metrics_ := C.EchoRemoverMetrics_new
      e_old_ := List.replicate C.kFftLengthBy2 0
      x_old_ := List.replicate C.kFftLengthBy2 0
      y_old_ := List.replicate C.kFftLengthBy2 0
      block_counter_ := 0
      gain_change_hangover_ := 0
      main_filter_output_last_selected_ := true
      linear_filter_output_last_selected_ := true }

/-- Line 74: `kTransitionSize`. -/
def kTransitionSize : Nat := 30

/-- Line 75: `kOneByTransitionSizePlusOne = 1.f / (kTransitionSize + 1)`, in
exact arithmetic (`binary32.kOneByTransitionSizePlusOne` is the rounded
value). -/
def kOneByTransitionSizePlusOne : ℚ := 1 / ((kTransitionSize : ℚ) + 1)

/-- Sample `k` of the ramp of `SignalTransition` (lines 82-83), in exact
arithmetic (`binary32.transitionSample` is the rounded computation). -/
def transitionSample (from_ to_ : List ℚ) (k : Nat) : ℚ :=
  let a : ℚ := ((k : ℚ) + 1) * kOneByTransitionSizePlusOne
  a * to_.getD k 0 + (1 - a) * from_.getD k 0

/-- What lines 81-87 of `SignalTransition` write: the first `kTransitionSize`
samples by the loop, the rest by `std::copy` from `to`. -/
def transitionOutput (from_ to_ : List ℚ) : List ℚ :=
  (List.range kTransitionSize).map (transitionSample from_ to_) ++ to_.drop kTransitionSize

/-- `SignalTransition` (lines 71-88): fades between two input signals using a
fix-sized transition. `out` is the buffer written to; as it has the size of
`to` it is overwritten in full, and its new content is returned. -/
def SignalTransition (from_ to_ out : List ℚ) : Except Fatal (List ℚ) :=
  if from_.length ≠ to_.length then .error (.dcheck 77)
  else if from_.length ≠ out.length then .error (.dcheck 78)
  else if ¬ kTransitionSize ≤ out.length then .error (.dcheck 79)
  else .ok (transitionOutput from_ to_)

/-- The choice `use_main_output` of `FormLinearFilterOutput` (lines 444-462),
with the margin and the thresholds in exact arithmetic
(`binary32.use_main_output` has the rounded products). -/
def use_main_output (C : Aec3) (use_shadow_filter_output_ : Bool)
    (subtractor_output : SubtractorOutput) : Bool :=
  if use_shadow_filter_output_ then
    if subtractor_output.e2_shadow < (9 / 10 : ℚ) * subtractor_output.e2_main ∧
        subtractor_output.y2 > 30 * 30 * (C.kBlockSize : ℚ) ∧
        (subtractor_output.s2_main > 60 * 60 * (C.kBlockSize : ℚ) ∨
          subtractor_output.s2_shadow > 60 * 60 * (C.kBlockSize : ℚ)) then
      false
    else if subtractor_output.e2_shadow < subtractor_output.e2_main ∧
        subtractor_output.y2 < subtractor_output.e2_main then
      false
    else
      true
  else
    true

/-- `std::copy(src.begin(), src.end(), dst.begin())`: the first `src.size()`
elements of `dst` are overwritten. -/
def std_copy (src dst : List ℚ) : List ℚ :=
  src ++ dst.drop src.length

/-- `EchoRemoverImpl::FormLinearFilterOutput` (lines 439-482): returns the
remover with the updated selection flag and the new content of `output`. -/
def FormLinearFilterOutput {C : Aec3} (st : EchoRemoverImpl C)
    (subtractor_output : SubtractorOutput) (output : List ℚ) :
    Except Fatal (EchoRemoverImpl C × List ℚ) :=
  if subtractor_output.e_main.length ≠ output.length then .error (.dcheck 442)
  else if subtractor_output.e_shadow.length ≠ output.length then .error (.dcheck 443)
  else
    let use_main := use_main_output C st.use_shadow_filter_output_ subtractor_output
    let formed : Except Fatal (List ℚ) :=
      if use_main then
        if ! st.main_filter_output_last_selected_ then
          SignalTransition subtractor_output.e_shadow subtractor_output.e_main output
        else
          .ok (std_copy subtractor_output.e_main output)
      else
        if st.main_filter_output_last_selected_ then
          SignalTransition subtractor_output.e_main subtractor_output.e_shadow output
        else
          .ok (std_copy subtractor_output.e_shadow output)
    match formed with
    | .error f => .error f
    | .ok out => .ok ({ st with main_filter_output_last_selected_ := use_main }, out)

/-- `LinearEchoPower` (lines 61-68): the new content of `S2`, bin by bin over
the bins of `E`, in exact arithmetic (`binary32.LinearEchoPower` is the rounded
computation). -/
def LinearEchoPower (E Y : FftData) : List ℚ :=
  (List.range E.re.length).map fun k =>
    (Y.re.getD k 0 - E.re.getD k 0) * (Y.re.getD k 0 - E.re.getD k 0) +
      (Y.im.getD k 0 - E.im.getD k 0) * (Y.im.getD k 0 - E.im.getD k 0)

/-- `WindowedPaddedFft` (lines 92-98): returns the spectrum `V` and the new
content of `v_old`. -/
def WindowedPaddedFft (C : Aec3) (v v_old : List ℚ) : FftData × List ℚ :=
  (C.PaddedFft v v_old, std_copy v v_old)

/-- Line 311: `kMaxBlocksPerFrame`. -/
def kMaxBlocksPerFrame : Int := 3

/-- Lines 309-317 of `ProcessCapture`: ensures that the gain change is only
acted on once per frame. Returns the new `gain_change_hangover_` and the event
with its possibly cleared `gain_change`. -/
def gainChangeOncePerFrame (gain_change_hangover_ : Int)
    (echo_path_variability : EchoPathVariability) : Int × EchoPathVariability :=
  if echo_path_variability.gain_change then
    if gain_change_hangover_ = 0 then
      (kMaxBlocksPerFrame, echo_path_variability)
    else
      (gain_change_hangover_, { echo_path_variability with gain_change := false })
  else
    (gain_change_hangover_, echo_path_variability)

/-- Lines 362-374 of `ProcessCapture`, "Choose the linear output": the new
content of `y0`, given `aec_state_.UseLinearFilterOutput()`, the flag
`linear_filter_output_last_selected_`, `y0` and `e`. -/
def chooseLinearOutput (use_linear last_selected : Bool) (y0 e : List ℚ) :
    Except Fatal (List ℚ) :=
  if use_linear then
    if ! last_selected then
      SignalTransition y0 e y0
    else
      .ok (std_copy e y0)
  else
    if last_selected then
      SignalTransition e y0 y0
    else
      .ok y0

/-- The block `*y` after a write of `v` through the reference
`y0 = (*y)[0][0]` (line 296). -/
def write_y0 (y : Block) (v : List ℚ) : Block :=
  y.set 0 ((y.getD 0 []).set 0 v)

/-- The spectra that lines 351-355 of `ProcessCapture` compute for channel
index 0. -/
structure Spectra where
  Y : FftData
  E : FftData
  S2_linear : List ℚ
  Y2 : List ℚ
  E2 : List ℚ

/-- The locals that lines 376-408 of `ProcessCapture` compute for channel
index 0. -/
structure Suppression where
  Y_fft : FftData
  R2 : List ℚ
  echo_spectrum : List ℚ
  nearend_spectrum : List ℚ
  high_bands_gain : ℚ
  G : List ℚ

/-- Values of the locals of one `ProcessCapture` call, for channel index 0 as
in the source, and the arguments of the collaborator calls that depend on the
path-variability event. -/
structure BlockLocals where
  -- The event passed to `subtractor_.HandleEchoPathChange` and to
  -- `aec_state_.HandleEchoPathChange` (lines 319-320), `none` when the two are
  -- not called.
  forwarded : Option EchoPathVariability
  -- Arguments of the `suppression_gain_.SetInitialState` calls (lines 324 and
  -- 341), in call order.
  set_initial_state : List Bool
  -- Whether `subtractor_.ExitInitialState()` was called (line 340).
  exit_initial_state : Bool
  -- The caller's `(*y)[0][0]` (dumped at line 302).
  capture_input : List ℚ
  subtractor_output : SubtractorOutput
  -- The array `e` after `FormLinearFilterOutput` (dumped at line 363).
  e : List ℚ
  spectra : Spectra
  -- The value of `aec_state_.UseLinearFilterOutput()` at lines 364-376.
  use_linear_filter_output : Bool
  -- The vector `y0` after lines 364-374 (dumped at line 378).
  output_linear : List ℚ
  -- The block `*y` handed to `suppression_filter_.ApplyGain` (line 408).
  y_before_gain : Block
  suppression : Suppression

/-- What one `ProcessCapture` call leaves behind: the remover, the capture
block `*capture` and the locals of the call. -/
structure Processed (C : Aec3) where
  remover : EchoRemoverImpl C
  capture : Block
  locals : BlockLocals

/-- Lines 305-329 of `ProcessCapture`: capture saturation, the handling of the
echo path change and the hangover countdown. Returns the remover, the event
forwarded by lines 319-320 (`none` when they are not reached) and the arguments
of the `SetInitialState` calls made. -/
def handleEchoPathChange {C : Aec3} (st : EchoRemoverImpl C)
    (echo_path_variability : EchoPathVariability) (capture_signal_saturation : Bool) :
    EchoRemoverImpl C × Option EchoPathVariability × List Bool :=
  let st1 : EchoRemoverImpl C :=
    { st with aec_state_ :=
        C.AecState_UpdateCaptureSaturation st.aec_state_ capture_signal_saturation }
  let changed : EchoRemoverImpl C × Option EchoPathVariability × List Bool :=
    if echo_path_variability.AudioPathChanged then
      let hv := gainChangeOncePerFrame st1.gain_change_hangover_ echo_path_variability
      let st2 : EchoRemoverImpl C :=
        { st1 with
          gain_change_hangover_ := hv.1
          subtractor_ := C.Subtractor_HandleEchoPathChange st1.subtractor_ hv.2
          aec_state_ := C.AecState_HandleEchoPathChange st1.aec_state_ hv.2 }
      if hv.2.delay_change ≠ DelayAdjustment.kNone then
        ({ st2 with suppression_gain_ :=
              C.SuppressionGain_SetInitialState st2.suppression_gain_ true },
          some hv.2, [true])
      else
        (st2, some hv.2, [])
    else
      (st1, none, [])
  ({ changed.1 with gain_change_hangover_ :=
        if changed.1.gain_change_hangover_ > 0 then changed.1.gain_change_hangover_ - 1
        else changed.1.gain_change_hangover_ },
    changed.2.1, changed.2.2)

/-- Lines 335-346 of `ProcessCapture`: render analysis, the exit from the
initial state and the linear echo cancellation of `y0`. Returns the remover,
`subtractor_output[0]` and whether `aec_state_.TransitionTriggered()` held. -/
def analyzeAndSubtract {C : Aec3} (st : EchoRemoverImpl C) (render_buffer : C.RenderBuffer)
    (y0 : List ℚ) : EchoRemoverImpl C × SubtractorOutput × Bool :=
  let st1 : EchoRemoverImpl C :=
    { st with
      render_signal_analyzer_ := C.RenderSignalAnalyzer_Update st.render_signal_analyzer_
        render_buffer (C.AecState_FilterDelayBlocks st.aec_state_) }
  let transition := C.AecState_TransitionTriggered st1.aec_state_
  let st2 : EchoRemoverImpl C :=
    if transition then
      { st1 with
        subtractor_ := C.Subtractor_ExitInitialState st1.subtractor_
        suppression_gain_ := C.SuppressionGain_SetInitialState st1.suppression_gain_ false }
    else st1
  let processed := C.Subtractor_Process st2.subtractor_ render_buffer y0
    st2.render_signal_analyzer_ st2.aec_state_
  ({ st2 with subtractor_ := processed.1 }, processed.2, transition)

/-- Lines 351-360 of `ProcessCapture`: the spectra of `y0` and `e`, the linear
echo power and the update of the AEC state (which reads the subtractor's filter
responses). -/
def computeSpectra {C : Aec3} (st : EchoRemoverImpl C)
    (external_delay : Option C.DelayEstimate) (render_buffer : C.RenderBuffer)
    (y0 e : List ℚ) (subtractor_output : SubtractorOutput) :
    EchoRemoverImpl C × Spectra :=
  let Yf := WindowedPaddedFft C y0 st.y_old_
  let Ef := WindowedPaddedFft C e st.e_old_
  let S2_linear := LinearEchoPower Ef.1 Yf.1
  let Y2 := C.Spectrum Yf.1
  let E2 := C.Spectrum Ef.1
  ({ st with
      y_old_ := Yf.2
      e_old_ := Ef.2
      aec_state_ := C.AecState_Update st.aec_state_ external_delay st.subtractor_
        render_buffer E2 Y2 subtractor_output y0 },
    { Y := Yf.1, E := Ef.1, S2_linear := S2_linear, Y2 := Y2, E2 := E2 })

/-- Lines 376-411 of `ProcessCapture`: residual echo, comfort noise, the inputs
of the suppressor, the gain, its application to `*y` and the metrics. `x` is
the render block and `y` the block `*y` as lines 364-374 left it. -/
def suppress {C : Aec3} (st : EchoRemoverImpl C) (render_buffer : C.RenderBuffer)
    (x : Block) (sp : Spectra) (y : Block) : EchoRemoverImpl C × Block × Suppression :=
  let Y_fft := if C.AecState_UseLinearFilterOutput st.aec_state_ then sp.E else sp.Y
  let estimated := C.ResidualEchoEstimator_Estimate st.residual_echo_estimator_
    st.aec_state_ render_buffer sp.S2_linear sp.Y2
  let R2 := estimated.2
  let computed := C.ComfortNoiseGenerator_Compute st.cng_ st.aec_state_ sp.Y2
  let usable := C.AecState_UsableLinearEstimate st.aec_state_
  let echo_spectrum := if usable then sp.S2_linear else R2
  let nearend_spectrum := if usable then List.zipWith min sp.E2 sp.Y2 else sp.Y2
  let noise := C.ComfortNoiseGenerator_NoiseSpectrum computed.1
  let gained := C.SuppressionGain_GetGain st.suppression_gain_ nearend_spectrum
    echo_spectrum R2 noise st.render_signal_analyzer_ st.aec_state_ x
  let applied := C.SuppressionFilter_ApplyGain st.suppression_filter_ computed.2.1
    computed.2.2 gained.2.2 gained.2.1 Y_fft y
  ({ st with
      residual_echo_estimator_ := estimated.1
      cng_ := computed.1
      suppression_gain_ := gained.1
      suppression_filter_ := applied.1
      metrics_ := C.EchoRemoverMetrics_Update st.metrics_ st.aec_state_ noise gained.2.2 },
    applied.2,
    { Y_fft := Y_fft, R2 := R2, echo_spectrum := echo_spectrum,
      nearend_spectrum := nearend_spectrum, high_bands_gain := gained.2.1, G := gained.2.2 })

/-- Lines 243-437 of `ProcessCapture`, after the checks of lines 234-241. The
local array `e` (line 347) is not initialised in the source; it is written in
full before it is read, and starts here as zeros. -/
def processChecked {C : Aec3} (st : EchoRemoverImpl C)
    (echo_path_variability : EchoPathVariability) (capture_signal_saturation : Bool)
    (external_delay : Option C.DelayEstimate) (render_buffer : C.RenderBuffer)
    (x y : Block) : Except Fatal (Processed C) :=
  let y0 : List ℚ := (y.getD 0 []).getD 0 []
  let changed := handleEchoPathChange st echo_path_variability capture_signal_saturation
  let subtracted := analyzeAndSubtract changed.1 render_buffer y0
  match FormLinearFilterOutput subtracted.1 subtracted.2.1
      (List.replicate C.kBlockSize 0) with
  | .error f => .error f
  | .ok formed =>
    let analyzed := computeSpectra formed.1 external_delay render_buffer y0 formed.2
      subtracted.2.1
    let use_linear := C.AecState_UseLinearFilterOutput analyzed.1.aec_state_
    match chooseLinearOutput use_linear analyzed.1.linear_filter_output_last_selected_
        y0 formed.2 with
    | .error f => .error f
    | .ok y0_linear =>
      let suppressed := suppress
        { analyzed.1 with linear_filter_output_last_selected_ := use_linear }
        render_buffer x analyzed.2 (write_y0 y y0_linear)
      .ok
        { remover := suppressed.1
          capture := suppressed.2.1
          locals :=
            { forwarded := changed.2.1
              set_initial_state :=
                changed.2.2 ++ (if subtracted.2.2 then [false] else [])
              exit_initial_state := subtracted.2.2
              capture_input := y0
              subtractor_output := subtracted.2.1
              e := formed.2
              spectra := analyzed.2
              use_linear_filter_output := use_linear
              output_linear := y0_linear
              y_before_gain := write_y0 y y0_linear
              suppression := suppressed.2.2 } }

/-- `EchoRemoverImpl::ProcessCapture` (lines 224-437). -/
def ProcessCapture {C : Aec3} (st : EchoRemoverImpl C)
    (echo_path_variability : EchoPathVariability) (capture_signal_saturation : Bool)
    (external_delay : Option C.DelayEstimate) (render_buffer : C.RenderBuffer)
    (capture : Block) : Except Fatal (Processed C) :=
  let x : Block := C.RenderBuffer_Block render_buffer 0
  let y : Block := capture
  if x.length ≠ C.NumBandsForRate st.sample_rate_hz_ then .error (.dcheck 236)
  else if y.length ≠ C.NumBandsForRate st.sample_rate_hz_ then .error (.dcheck 237)
  else if (x.getD 0 []).length ≠ st.num_render_channels_ then .error (.dcheck 238)
  else if (y.getD 0 []).length ≠ st.num_capture_channels_ then .error (.dcheck 239)
  else if ((x.getD 0 []).getD 0 []).length ≠ C.kBlockSize then .error (.dcheck 240)
  else if ((y.getD 0 []).getD 0 []).length ≠ C.kBlockSize then .error (.dcheck 241)
  else
    processChecked { st with block_counter_ := st.block_counter_ + 1 }
      echo_path_variability capture_signal_saturation external_delay render_buffer x y

/-- `EchoRemoverImpl::UpdateEchoLeakageStatus` (lines 125-127). -/
def UpdateEchoLeakageStatus {C : Aec3} (st : EchoRemoverImpl C) (leakage_detected : Bool) :
    EchoRemoverImpl C :=
  { st with echo_leakage_detected_ := leakage_detected }

/-- The struct `PeerConnectionE2EQualityTestFixture::VideoSimulcastConfig`
(peerconnection_quality_test_fixture.h, lines 132-155). -/
structure VideoSimulcastConfig where
  simulcast_streams_count : Int
  target_spatial_index : Int
deriving DecidableEq, Repr

/-- The constructor of `VideoSimulcastConfig` (lines 133-139): the two members
are initialised from the arguments, then the three `RTC_CHECK`s run. -/
def VideoSimulcastConfig.Create (simulcast_streams_count target_spatial_index : Int) :
    Except Fatal VideoSimulcastConfig :=
  if ¬ simulcast_streams_count > 1 then .error (.check 136)
  else if ¬ target_spatial_index ≥ 0 then .error (.check 137)
  else if ¬ target_spatial_index < simulcast_streams_count then .error (.check 138)
  else .ok { simulcast_streams_count := simulcast_streams_count
             target_spatial_index := target_spatial_index }

/-- The arguments of one `ProcessCapture` call. -/
structure CaptureCall (C : Aec3) where
  echo_path_variability : EchoPathVariability
  capture_signal_saturation : Bool
  external_delay : Option C.DelayEstimate
  render_buffer : C.RenderBuffer
  capture : Block

/-- Consecutive `ProcessCapture` calls on one remover, one per block, each on
the remover the previous call left behind; the results in call order. -/
def ProcessCaptureCalls {C : Aec3} (st : EchoRemoverImpl C) :
    List (CaptureCall C) → Except Fatal (List (Processed C))
  | [] => .ok []
  | c :: cs =>
    match ProcessCapture st c.echo_path_variability c.capture_signal_saturation
        c.external_delay c.render_buffer c.capture with
    | .error f => .error f
    | .ok r =>
      match ProcessCaptureCalls r.remover cs with
      | .error f => .error f
      | .ok rs => .ok (r :: rs)

/-- The six geometry checks of `ProcessCapture` (lines 236-241) all pass. -/
def CheckedGeometry {C : Aec3} (st : EchoRemoverImpl C) (render_buffer : C.RenderBuffer)
    (capture : Block) : Prop :=
  (C.RenderBuffer_Block render_buffer 0).length = C.NumBandsForRate st.sample_rate_hz_ ∧
  capture.length = C.NumBandsForRate st.sample_rate_hz_ ∧
  ((C.RenderBuffer_Block render_buffer 0).getD 0 []).length = st.num_render_channels_ ∧
  (capture.getD 0 []).length = st.num_capture_channels_ ∧
  (((C.RenderBuffer_Block render_buffer 0).getD 0 []).getD 0 []).length = C.kBlockSize ∧
  ((capture.getD 0 []).getD 0 []).length = C.kBlockSize

/-- The full geometry of a block: `bands` bands, `channels` channels in every
band and `samples` samples in every channel of every band. -/
def FullGeometry (b : Block) (bands channels samples : Nat) : Prop :=
  b.length = bands ∧ ∀ band ∈ b, band.length = channels ∧ ∀ ch ∈ band, ch.length = samples

/-- What the types of the absent headers fix: `SubtractorOutput::e_main` and
`e_shadow` are arrays of `kBlockSize` samples, like the local `e` of
`ProcessCapture` (line 347), and a block holds at least `kTransitionSize`
samples. -/
def Aec3.ArraySizes (C : Aec3) : Prop :=
  kTransitionSize ≤ C.kBlockSize ∧
  ∀ (s : C.Subtractor) (rb : C.RenderBuffer) (y0 : List ℚ) (a : C.RenderSignalAnalyzer)
    (st : C.AecState),
    (C.Subtractor_Process s rb y0 a st).2.e_main.length = C.kBlockSize ∧
    (C.Subtractor_Process s rb y0 a st).2.e_shadow.length = C.kBlockSize

/-- A concrete set of collaborators for evaluating the remover on blocks: 64
samples per block, one band per 16 kHz, a subtractor whose two filters cancel
the capture signal completely, an AEC state that always reports the linear
filter output as usable, and a suppressor with unit gain that leaves the capture
block as it is. The configuration is the shadow-output switch. -/
def unitGain : Aec3 where
  kBlockSize := 64
  kFftLengthBy2 := 64
  kFftLengthBy2Plus1 := 65
  NumBandsForRate := fun r => (r / 16000).toNat
  ValidFullBandRate := fun r => r == 16000 || r == 32000 || r == 48000
  EchoCanceller3Config := Bool
  enable_shadow_filter_output_usage := fun c => c
  DelayEstimate := Nat
  RenderBuffer := Block
  RenderBuffer_Block := fun rb _ => rb
  Subtractor := Unit
  Subtractor_new := fun _ _ _ => ()
  Subtractor_HandleEchoPathChange := fun _ _ => ()
  Subtractor_ExitInitialState := fun _ => ()
  SuppressionGain := Unit
  SuppressionGain_new := fun _ _ => ()
  SuppressionGain_SetInitialState := fun _ _ => ()
  ComfortNoiseGenerator := Unit
  ComfortNoiseGenerator_new := ()
  ComfortNoiseGenerator_NoiseSpectrum := fun _ => List.replicate 65 0
  SuppressionFilter := Unit
  SuppressionFilter_new := fun _ => ()
  RenderSignalAnalyzer := Unit
  RenderSignalAnalyzer_new := fun _ => ()
  ResidualEchoEstimator := Unit
  ResidualEchoEstimator_new := fun _ => ()
  AecState := Unit
  AecState_new := fun _ => ()
  AecState_UpdateCaptureSaturation := fun _ _ => ()
  AecState_HandleEchoPathChange := fun _ _ => ()
  AecState_FilterDelayBlocks := fun _ => 0
  AecState_TransitionTriggered := fun _ => false
  AecState_UseLinearFilterOutput := fun _ => true
  AecState_UsableLinearEstimate := fun _ => true
  EchoRemoverMetrics := Unit
  EchoRemoverMetrics_new := ()
  RenderSignalAnalyzer_Update := fun _ _ _ => ()
  Subtractor_Process := fun _ _ y0 _ _ =>
    ((), { s_main := y0
           e_main := List.replicate 64 0
           e_shadow := List.replicate 64 0
           e2_main := 0
           e2_shadow := 0
           s2_main := 0
           s2_shadow := 0
           y2 := 0 })
  PaddedFft := fun _ _ => { re := List.replicate 65 0, im := List.replicate 65 0 }
  Spectrum := fun _ => List.replicate 65 0
  AecState_Update := fun _ _ _ _ _ _ _ _ => ()
  ResidualEchoEstimator_Estimate := fun _ _ _ _ _ => ((), List.replicate 65 0)
  ComfortNoiseGenerator_Compute := fun _ _ _ =>
    ((), { re := List.replicate 65 0, im := List.replicate 65 0 },
      { re := List.replicate 65 0, im := List.replicate 65 0 })
  SuppressionGain_GetGain := fun _ _ _ _ _ _ _ _ => ((), 1, List.replicate 65 1)
  SuppressionFilter_ApplyGain := fun _ _ _ _ _ _ y => ((), y)
  EchoRemoverMetrics_Update := fun _ _ _ _ => ()

/-- A remover over `unitGain` as its constructor leaves it, for the given
shadow-output switch, sample rate and channel counts. -/
def unitGainRemover (use_shadow : Bool) (sample_rate_hz : Int)
    (num_render_channels num_capture_channels : Nat) : EchoRemoverImpl unitGain :=
  { config_ := use_shadow
    sample_rate_hz_ := sample_rate_hz
    num_render_channels_ := num_render_channels
    num_capture_channels_ := num_capture_channels
    use_shadow_filter_output_ := use_shadow
    subtractor_ := ()
    suppression_gain_ := ()
    cng_ := ()
    suppression_filter_ := ()
    render_signal_analyzer_ := ()
    residual_echo_estimator_ := ()
    echo_leakage_detected_ := false
    aec_state_ := ()
    metrics_ := ()
    e_old_ := List.replicate 64 0
    x_old_ := List.replicate 64 0
    y_old_ := List.replicate 64 0
    block_counter_ := 0
    gain_change_hangover_ := 0
    main_filter_output_last_selected_ := true
    linear_filter_output_last_selected_ := true }

/-- A subtractor output whose main filter has diverged: the main error energy
exceeds both the shadow error energy and the energy of the capture signal. -/
def divergedMain : SubtractorOutput :=
  { s_main := List.replicate 64 0
    e_main := List.replicate 64 10
    e_shadow := List.replicate 64 1
    e2_main := 6400
    e2_shadow := 64
    s2_main := 0
    s2_shadow := 0
    y2 := 256 }

/-- A block of `n` samples of value `v`. -/
def constantSignal (n : Nat) (v : ℚ) : List ℚ := List.replicate n v

/-- One band, one channel, `kBlockSize` samples of value `v`: a block of a
mono remover at 16 kHz over `unitGain`. -/
def monoBlock (v : ℚ) : Block := [[constantSignal 64 v]]

/-- A capture block for two bands whose second band has two channels, the last
of them with three samples only. -/
def raggedBlock : Block :=
  [[constantSignal 64 0], [constantSignal 64 0, constantSignal 3 0]]

/-- Two bands of one channel of `kBlockSize` silent samples. -/
def twoBandBlock : Block := [[constantSignal 64 0], [constantSignal 64 0]]

/-- One band with two channels of `kBlockSize` samples of value `v`. -/
def stereoBlock (v : ℚ) : Block := [[constantSignal 64 v, constantSignal 64 v]]

/-- An event that reports no change of the echo path. -/
def noChange : EchoPathVariability :=
  { gain_change := false, delay_change := DelayAdjustment.kNone }

/-- Whether a `ProcessCapture` call acted on a gain change: lines 319-320
forwarded an event whose `gain_change` is still set. -/
def Processed.gain_change_acted_on {C : Aec3} (r : Processed C) : Bool :=
  r.locals.forwarded.any (fun e => e.gain_change)

/-- The collaborator calls that the locals of a `ProcessCapture` call record are
the calls that produced the remover the call leaves. With `st` the remover on
entry: the AEC state that the block works with is `st.aec_state_` after
`UpdateCaptureSaturation` (line 305) and, when `forwarded` is `some ev`, after
`HandleEchoPathChange(ev)` (line 320); the subtractor that line 345 runs is
`st.subtractor_` after `HandleEchoPathChange(ev)` (line 319) when `forwarded` is
`some ev`, and after `ExitInitialState()` (line 340) when `exit_initial_state`
is set, which is when that AEC state reports a transition; the remover keeps
the subtractor that `Process` returns and the AEC state that `Update` (line
358) returns; and the gain calculator it keeps is the one `GetGain` (line 403)
returns for `st.suppression_gain_` after the `SetInitialState` calls listed in
`set_initial_state`, in call order. -/
def CallsReachCollaborators {C : Aec3} (st : EchoRemoverImpl C)
    (capture_signal_saturation : Bool) (external_delay : Option C.DelayEstimate)
    (render_buffer : C.RenderBuffer) (capture : Block) (r : Processed C) : Prop :=
  let y0 : List ℚ := (capture.getD 0 []).getD 0 []
  let saturated := C.AecState_UpdateCaptureSaturation st.aec_state_ capture_signal_saturation
  let aec := match r.locals.forwarded with
    | some ev => C.AecState_HandleEchoPathChange saturated ev
    | none => saturated
  let handled := match r.locals.forwarded with
    | some ev => C.Subtractor_HandleEchoPathChange st.subtractor_ ev
    | none => st.subtractor_
  let sub := if r.locals.exit_initial_state then C.Subtractor_ExitInitialState handled
    else handled
  let rsa := C.RenderSignalAnalyzer_Update st.render_signal_analyzer_ render_buffer
    (C.AecState_FilterDelayBlocks aec)
  r.locals.exit_initial_state = C.AecState_TransitionTriggered aec ∧
  (r.remover.subtractor_, r.locals.subtractor_output)
    = C.Subtractor_Process sub render_buffer y0 rsa aec ∧
  r.remover.render_signal_analyzer_ = rsa ∧
  r.remover.aec_state_ = C.AecState_Update aec external_delay r.remover.subtractor_
    render_buffer r.locals.spectra.E2 r.locals.spectra.Y2 r.locals.subtractor_output y0 ∧
  r.remover.suppression_gain_ =
    (C.SuppressionGain_GetGain
      (r.locals.set_initial_state.foldl C.SuppressionGain_SetInitialState
        st.suppression_gain_)
      r.locals.suppression.nearend_spectrum r.locals.suppression.echo_spectrum
      r.locals.suppression.R2 (C.ComfortNoiseGenerator_NoiseSpectrum r.remover.cng_)
      rsa r.remover.aec_state_ (C.RenderBuffer_Block render_buffer 0)).1

/-- A set of collaborators that record the calls they receive, for evaluating
the remover on blocks: the subtractor and the AEC state keep the events handed
to their `HandleEchoPathChange`, newest first, and the gain calculator keeps the
arguments of its `SetInitialState` calls, newest first. The subtractor reports
a diverged main filter on every block (`divergedMain`). The AEC state reports
the linear filter output as usable exactly when its last `Update` came with an
external delay estimate. Everything else is as in `unitGain`. -/
def recording : Aec3 where
  kBlockSize := 64
  kFftLengthBy2 := 64
  kFftLengthBy2Plus1 := 65
  NumBandsForRate := fun r => (r / 16000).toNat
  ValidFullBandRate := fun r => r == 16000 || r == 32000 || r == 48000
  EchoCanceller3Config := Bool
  enable_shadow_filter_output_usage := fun c => c
  DelayEstimate := Nat
  RenderBuffer := Block
  RenderBuffer_Block := fun rb _ => rb
  Subtractor := List EchoPathVariability
  Subtractor_new := fun _ _ _ => []
  Subtractor_HandleEchoPathChange := fun s ev => ev :: s
  Subtractor_ExitInitialState := fun s => s
  SuppressionGain := List Bool
  SuppressionGain_new := fun _ _ => []
  SuppressionGain_SetInitialState := fun g b => b :: g
  ComfortNoiseGenerator := Unit
  ComfortNoiseGenerator_new := ()
  ComfortNoiseGenerator_NoiseSpectrum := fun _ => List.replicate 65 0
  SuppressionFilter := Unit
  SuppressionFilter_new := fun _ => ()
  RenderSignalAnalyzer := Unit
  RenderSignalAnalyzer_new := fun _ => ()
  ResidualEchoEstimator := Unit
  ResidualEchoEstimator_new := fun _ => ()
  AecState := List EchoPathVariability × Bool
  AecState_new := fun _ => ([], true)
  AecState_UpdateCaptureSaturation := fun a _ => a
  AecState_HandleEchoPathChange := fun a ev => (ev :: a.1, a.2)
  AecState_FilterDelayBlocks := fun _ => 0
  AecState_TransitionTriggered := fun _ => false
  AecState_UseLinearFilterOutput := fun a => a.2
  AecState_UsableLinearEstimate := fun _ => true
  EchoRemoverMetrics := Unit
  EchoRemoverMetrics_new := ()
  RenderSignalAnalyzer_Update := fun _ _ _ => ()
  Subtractor_Process := fun s _ _ _ _ => (s, divergedMain)
  PaddedFft := fun _ _ => { re := List.replicate 65 0, im := List.replicate 65 0 }
  Spectrum := fun _ => List.replicate 65 0
  AecState_Update := fun a d _ _ _ _ _ _ => (a.1, d.isSome)
  ResidualEchoEstimator_Estimate := fun _ _ _ _ _ => ((), List.replicate 65 0)
  ComfortNoiseGenerator_Compute := fun _ _ _ =>
    ((), { re := List.replicate 65 0, im := List.replicate 65 0 },
      { re := List.replicate 65 0, im := List.replicate 65 0 })
  SuppressionGain_GetGain := fun g _ _ _ _ _ _ _ => (g, 1, List.replicate 65 1)
  SuppressionFilter_ApplyGain := fun _ _ _ _ _ _ y => ((), y)
  EchoRemoverMetrics_Update := fun _ _ _ _ => ()

/-- A mono remover at 16 kHz over `recording` as its constructor leaves it, for
the given shadow-output switch. -/
def recordingRemover (use_shadow : Bool) : EchoRemoverImpl recording :=
  { config_ := use_shadow
    sample_rate_hz_ := 16000
    num_render_channels_ := 1
    num_capture_channels_ := 1
    use_shadow_filter_output_ := use_shadow
    subtractor_ := []
    suppression_gain_ := []
    cng_ := ()
    suppression_filter_ := ()
    render_signal_analyzer_ := ()
    residual_echo_estimator_ := ()
    echo_leakage_detected_ := false
    aec_state_ := ([], true)
    metrics_ := ()
    e_old_ := List.replicate 64 0
    x_old_ := List.replicate 64 0
    y_old_ := List.replicate 64 0
    block_counter_ := 0
    gain_change_hangover_ := 0
    main_filter_output_last_selected_ := true
    linear_filter_output_last_selected_ := true }

/-- A call on silent render and capture blocks that reports the event `v`, with
an external delay estimate. -/
def recordedCall (v : EchoPathVariability) : CaptureCall recording :=
  { echo_path_variability := v
    capture_signal_saturation := false
    external_delay := some (0 : Nat)
    render_buffer := monoBlock 0
    capture := monoBlock 0 }

/-- The event that reports a gain change and no delay change. -/
def gainChange : EchoPathVariability :=
  { gain_change := true, delay_change := DelayAdjustment.kNone }

/-! ## Binary32 arithmetic

The claims about `SignalTransition`, `LinearEchoPower` and the margins of
`FormLinearFilterOutput` depend on how `float` arithmetic rounds. For them the
three functions are given a second embedding, over binary32 values with IEEE 754
arithmetic: every `*`, `+`, `-` and `/` of the source is one operation that
rounds its exact result to the nearest binary32 value, ties to even (no fused
multiply-add and no excess precision), comparisons are exact and false on NaN.
The two zeros of binary32 compare equal and are one value here. -/

namespace binary32

/-- A binary32 (`float`) value: NaN, an infinity with its sign, or a finite
value `units * 2^-149`. The finite binary32 values are the multiples of the
smallest subnormal `2^-149` with at most 24 significant bits, below `2^128`. -/
inductive F32 where
  | nan
  | inf (negative : Bool)
  | finite (units : Int)
deriving DecidableEq, Repr

/-- The exponent `k` of the grid `2^k` on which a non-negative rational
`num / den` is rounded to 24 significant bits: the least `k`, counting up from
the start value, with `num / den < 2^(k + 24)`. -/
def gridExponent (num den : Nat) : Nat → Nat → Nat
  | 0, k => k
  | fuel + 1, k =>
    if num < den * 2 ^ k * 2 ^ 24 then k else gridExponent num den fuel (k + 1)

/-- The integer nearest to `num / den`, the even one of the two when `num / den`
lies halfway between them. -/
def roundHalfEven (num den : Nat) : Nat :=
  if 2 * (num % den) < den then num / den
  else if 2 * (num % den) = den then (if (num / den) % 2 = 0 then num / den else num / den + 1)
  else num / den + 1

/-- The binary32 value nearest to the rational `num / den` (in units of
`2^-149`, `den` positive), ties to even: the magnitude is rounded to an integer
multiple of `2^k` units, `k` the grid exponent (0 in the subnormal range); a
result of `2^128` or more is an infinity. -/
def roundUnits (num : Int) (den : Nat) : F32 :=
  let k := gridExponent num.natAbs den 254 0
  let m := roundHalfEven num.natAbs (den * 2 ^ k) * 2 ^ k
  if 2 ^ 149 * 2 ^ 128 ≤ m then .inf (decide (num < 0))
  else .finite (if num < 0 then -(m : Int) else (m : Int))

/-- The binary32 value nearest to the rational `num / den`: a decimal literal
such as `0.9f`. -/
def F32.ofRatio (num : Int) (den : Nat) : F32 := roundUnits (num * 2 ^ 149) den

/-- Conversion of an unsigned integer to `float`. -/
def F32.ofNat (n : Nat) : F32 := roundUnits ((n : Int) * 2 ^ 149) 1

/-- Unary minus. -/
def F32.neg : F32 → F32
  | .nan => .nan
  | .inf s => .inf (!s)
  | .finite u => .finite (-u)

/-- The binary32 product `a * b`. -/
def F32.mul : F32 → F32 → F32
  | .nan, _ => .nan
  | _, .nan => .nan
  | .inf s, .inf t => .inf (s != t)
  | .inf s, .finite v => if v = 0 then .nan else .inf (s != decide (v < 0))
  | .finite u, .inf t => if u = 0 then .nan else .inf (decide (u < 0) != t)
  | .finite u, .finite v => roundUnits (u * v) (2 ^ 149)

/-- The binary32 sum `a + b`. -/
def F32.add : F32 → F32 → F32
  | .nan, _ => .nan
  | _, .nan => .nan
  | .inf s, .inf t => if s = t then .inf s else .nan
  | .inf s, .finite _ => .inf s
  | .finite _, .inf t => .inf t
  | .finite u, .finite v => roundUnits (u + v) 1

/-- The binary32 difference `a - b`. -/
def F32.sub (a b : F32) : F32 := F32.add a (F32.neg b)

/-- The binary32 quotient `a / b`. A zero divisor counts as `+0`. -/
def F32.div : F32 → F32 → F32
  | .nan, _ => .nan
  | _, .nan => .nan
  | .inf _, .inf _ => .nan
  | .inf s, .finite v => .inf (s != decide (v < 0))
  | .finite _, .inf _ => .finite 0
  | .finite u, .finite v =>
    if v = 0 then (if u = 0 then .nan else .inf (decide (u < 0)))
    else roundUnits (if v < 0 then -(u * 2 ^ 149) else u * 2 ^ 149) v.natAbs

/-- The comparison `a < b`: false when either side is NaN. -/
def F32.lt : F32 → F32 → Bool
  | .nan, _ => false
  | _, .nan => false
  | .inf s, .inf t => s && !t
  | .inf s, .finite _ => s
  | .finite _, .inf t => !t
  | .finite u, .finite v => decide (u < v)

/-- The rational number that a finite binary32 value denotes. -/
def F32.toRat : F32 → Option ℚ
  | .finite u => some ((u : ℚ) / 2 ^ 149)
  | _ => none

/-- The float `0.f`. -/
def F32.zero : F32 := .finite 0

/-- The float `1.f`. -/
def F32.one : F32 := F32.ofNat 1

/-- Complex spectrum `FftData` over binary32 values: the arrays `re` and `im`. -/
structure FftData where
  re : List F32
  im : List F32
deriving DecidableEq, Repr

/-- Modelled from the spec: `SubtractorOutput` (subtractor_output.h, not among
the sources) over binary32 values; the fields are those that
`FormLinearFilterOutput` reads. -/
structure SubtractorOutput where
  e_main : List F32
  e_shadow : List F32
  e2_main : F32
  e2_shadow : F32
  s2_main : F32
  s2_shadow : F32
  y2 : F32
deriving DecidableEq, Repr

/-- Line 75: `kOneByTransitionSizePlusOne = 1.f / (kTransitionSize + 1)`. -/
def kOneByTransitionSizePlusOne : F32 :=
  F32.div F32.one (F32.ofNat (kTransitionSize + 1))

/-- Line 82: the weight `a = (k + 1) * kOneByTransitionSizePlusOne` of sample
`k`. -/
def transitionWeight (k : Nat) : F32 :=
  F32.mul (F32.ofNat (k + 1)) kOneByTransitionSizePlusOne

/-- Sample `k` of the ramp of `SignalTransition` (lines 82-83):
`a * to[k] + (1.f - a) * from[k]`. -/
def transitionSample (from_ to_ : List F32) (k : Nat) : F32 :=
  F32.add (F32.mul (transitionWeight k) (to_.getD k F32.zero))
    (F32.mul (F32.sub F32.one (transitionWeight k)) (from_.getD k F32.zero))

/-- What lines 81-87 of `SignalTransition` write: the first `kTransitionSize`
samples by the loop, the rest by `std::copy` from `to`. -/
def transitionOutput (from_ to_ : List F32) : List F32 :=
  (List.range kTransitionSize).map (transitionSample from_ to_) ++ to_.drop kTransitionSize

/-- `SignalTransition` (lines 71-88) over binary32 values. `out` is the buffer
written to; as it has the size of `to` it is overwritten in full, and its new
content is returned. -/
def SignalTransition (from_ to_ out : List F32) : Except Fatal (List F32) :=
  if from_.length ≠ to_.length then .error (.dcheck 77)
  else if from_.length ≠ out.length then .error (.dcheck 78)
  else if ¬ kTransitionSize ≤ out.length then .error (.dcheck 79)
  else .ok (transitionOutput from_ to_)

/-- The choice `use_main_output` of `FormLinearFilterOutput` (lines 444-462)
over binary32 values; `x > y` is `y < x`. -/
def use_main_output (C : Aec3) (use_shadow_filter_output_ : Bool)
    (subtractor_output : SubtractorOutput) : Bool :=
  if use_shadow_filter_output_ then
    if F32.lt subtractor_output.e2_shadow
          (F32.mul (F32.ofRatio 9 10) subtractor_output.e2_main) &&
        F32.lt (F32.mul (F32.mul (F32.ofNat 30) (F32.ofNat 30)) (F32.ofNat C.kBlockSize))
          subtractor_output.y2 &&
        (F32.lt (F32.mul (F32.mul (F32.ofNat 60) (F32.ofNat 60)) (F32.ofNat C.kBlockSize))
            subtractor_output.s2_main ||
          F32.lt (F32.mul (F32.mul (F32.ofNat 60) (F32.ofNat 60)) (F32.ofNat C.kBlockSize))
            subtractor_output.s2_shadow) then
      false
    else if F32.lt subtractor_output.e2_shadow subtractor_output.e2_main &&
        F32.lt subtractor_output.y2 subtractor_output.e2_main then
      false
    else
      true
  else
    true

/-- `std::copy(src.begin(), src.end(), dst.begin())` on binary32 arrays. -/
def std_copy (src dst : List F32) : List F32 :=
  src ++ dst.drop src.length

/-- `EchoRemoverImpl::FormLinearFilterOutput` (lines 439-482) over binary32
values: returns the remover with the updated selection flag and the new content
of `output`. -/
def FormLinearFilterOutput {C : Aec3} (st : EchoRemoverImpl C)
    (subtractor_output : SubtractorOutput) (output : List F32) :
    Except Fatal (EchoRemoverImpl C × List F32) :=
  if subtractor_output.e_main.length ≠ output.length then .error (.dcheck 442)
  else if subtractor_output.e_shadow.length ≠ output.length then .error (.dcheck 443)
  else
    let use_main := use_main_output C st.use_shadow_filter_output_ subtractor_output
    let formed : Except Fatal (List F32) :=
      if use_main then
        if ! st.main_filter_output_last_selected_ then
          SignalTransition subtractor_output.e_shadow subtractor_output.e_main output
        else
          .ok (std_copy subtractor_output.e_main output)
      else
        if st.main_filter_output_last_selected_ then
          SignalTransition subtractor_output.e_main subtractor_output.e_shadow output
        else
          .ok (std_copy subtractor_output.e_shadow output)
    match formed with
    | .error f => .error f
    | .ok out => .ok ({ st with main_filter_output_last_selected_ := use_main }, out)

/-- `LinearEchoPower` (lines 61-68) over binary32 values: the new content of
`S2`, bin by bin over the bins of `E`. -/
def LinearEchoPower (E Y : FftData) : List F32 :=
  (List.range E.re.length).map fun k =>
    F32.add
      (F32.mul (F32.sub (Y.re.getD k F32.zero) (E.re.getD k F32.zero))
        (F32.sub (Y.re.getD k F32.zero) (E.re.getD k F32.zero)))
      (F32.mul (F32.sub (Y.im.getD k F32.zero) (E.im.getD k F32.zero))
        (F32.sub (Y.im.getD k F32.zero) (E.im.getD k F32.zero)))

/-- A block of `n` samples of the binary32 value `v`. -/
def constantBlock (n : Nat) (v : F32) : List F32 := List.replicate n v

/-- The binary32 value next above `1.f`: `1 + 2^-23`. -/
def nextAboveOne : F32 := .finite (2 ^ 149 + 2 ^ 126)

/-- A subtractor output at the margin of the first shadow condition: the shadow
error energy is the float `0.9f`, the main error energy is `1.f`, and the
capture and echo-estimate energies are above their thresholds. -/
def marginOutput : SubtractorOutput :=
  { e_main := constantBlock 64 F32.zero
    e_shadow := constantBlock 64 F32.zero
    e2_main := F32.one
    e2_shadow := F32.ofRatio 9 10
    s2_main := F32.ofNat 300000
    s2_shadow := F32.zero
    y2 := F32.ofNat 60000 }

/-- A subtractor output whose shadow filter has the clearly smaller error
energy, with the capture and echo-estimate energies above their thresholds. -/
def shadowWins : SubtractorOutput :=
  { e_main := constantBlock 64 F32.zero
    e_shadow := constantBlock 64 F32.zero
    e2_main := F32.ofNat 100
    e2_shadow := F32.one
    s2_main := F32.ofNat 300000
    s2_shadow := F32.zero
    y2 := F32.ofNat 60000 }

/-- A spectrum of 65 bins whose real parts are `re` and whose imaginary parts
are zero. -/
def realSpectrum (re : F32) : FftData :=
  { re := constantBlock 65 re, im := constantBlock 65 F32.zero }

end binary32

/-! ## Theorems -/

theorem unitGain_arraySizes : unitGain.ArraySizes := by
  refine ⟨by decide, ?_⟩
  intro s rb y0 a st
  simp [unitGain]

theorem SignalTransition_ok (from_ to_ out : List ℚ) (h1 : from_.length = to_.length)
    (h2 : from_.length = out.length) (h3 : kTransitionSize ≤ out.length) :
    SignalTransition from_ to_ out = .ok (transitionOutput from_ to_) := by
  have h4 : to_.length = out.length := h1.symm.trans h2
  simp [SignalTransition, h1, h4, h3]

theorem transition_getD_lt (from_ to_ : List ℚ) (k : Nat) (hk : k < kTransitionSize) :
    (transitionOutput from_ to_).getD k 0 = transitionSample from_ to_ k := by
  have hlen : k < ((List.range kTransitionSize).map (transitionSample from_ to_)).length := by
    simpa using hk
  unfold transitionOutput
  rw [List.getD_append _ _ _ _ hlen]
  simp [List.getD_eq_getElem?_getD, hk]

theorem transition_getD_ge (from_ to_ : List ℚ) (k : Nat) (hk : kTransitionSize ≤ k) :
    (transitionOutput from_ to_).getD k 0 = to_.getD k 0 := by
  have hlen : ((List.range kTransitionSize).map (transitionSample from_ to_)).length ≤ k := by
    simpa using hk
  unfold transitionOutput
  rw [List.getD_append_right _ _ _ _ hlen]
  simp only [List.length_map, List.length_range, List.getD_eq_getElem?_getD, List.getElem?_drop]
  congr 2
  omega

theorem transition_length (from_ to_ : List ℚ) (h : kTransitionSize ≤ to_.length) :
    (transitionOutput from_ to_).length = to_.length := by
  simp [transitionOutput]
  omega

theorem std_copy_same_length (src dst : List ℚ) (h : src.length = dst.length) :
    std_copy src dst = src := by
  simp [std_copy, h]

/-- The result of `FormLinearFilterOutput` when its checks pass. -/
theorem FormLinearFilterOutput_ok {C : Aec3} (st : EchoRemoverImpl C) (o : SubtractorOutput)
    (output : List ℚ) (hm : o.e_main.length = output.length)
    (hs : o.e_shadow.length = output.length) (h30 : kTransitionSize ≤ output.length) :
    FormLinearFilterOutput st o output =
      .ok ({ st with main_filter_output_last_selected_ :=
                use_main_output C st.use_shadow_filter_output_ o },
        if use_main_output C st.use_shadow_filter_output_ o then
          (if st.main_filter_output_last_selected_ then o.e_main
            else transitionOutput o.e_shadow o.e_main)
        else
          (if st.main_filter_output_last_selected_ then transitionOutput o.e_main o.e_shadow
            else o.e_shadow)) := by
  have hsm : o.e_shadow.length = o.e_main.length := hs.trans hm.symm
  unfold FormLinearFilterOutput
  rw [if_neg (by simp [hm]), if_neg (by simp [hs])]
  cases hu : use_main_output C st.use_shadow_filter_output_ o <;>
    cases hl : st.main_filter_output_last_selected_ <;>
    simp [SignalTransition_ok, std_copy_same_length, hm, hs, hsm, hsm.symm, h30]

/-- C2. `FormLinearFilterOutput` returns; the flag it persists is this block's
selection; when this selection differs from the one of the previous block the
output is `SignalTransition` from this block's output of the previously selected
filter to this block's output of the newly selected filter; when it is the same
the output is the selected filter's output, sample for sample. -/
theorem FormLinearFilterOutput_crossfade_or_copy {C : Aec3} (st : EchoRemoverImpl C)
    (o : SubtractorOutput) (output : List ℚ)
    (hm : o.e_main.length = output.length) (hs : o.e_shadow.length = output.length)
    (h30 : kTransitionSize ≤ output.length) :
    ∃ st' out, FormLinearFilterOutput st o output = .ok (st', out) ∧
      st'.main_filter_output_last_selected_ =
        use_main_output C st.use_shadow_filter_output_ o ∧
      (st'.main_filter_output_last_selected_ ≠ st.main_filter_output_last_selected_ →
        SignalTransition
          (if st.main_filter_output_last_selected_ then o.e_main else o.e_shadow)
          (if st'.main_filter_output_last_selected_ then o.e_main else o.e_shadow)
          output = .ok out) ∧
      (st'.main_filter_output_last_selected_ = st.main_filter_output_last_selected_ →
        out = if st'.main_filter_output_last_selected_ then o.e_main else o.e_shadow) := by
  have hsm : o.e_shadow.length = o.e_main.length := hs.trans hm.symm
  refine ⟨_, _, FormLinearFilterOutput_ok st o output hm hs h30, rfl, ?_, ?_⟩
  · cases hu : use_main_output C st.use_shadow_filter_output_ o <;>
      cases hl : st.main_filter_output_last_selected_ <;>
      simp [SignalTransition_ok, hm, hs, hsm, hsm.symm, h30]
  · cases hu : use_main_output C st.use_shadow_filter_output_ o <;>
      cases hl : st.main_filter_output_last_selected_ <;> simp

/-- Witness of C2: a remover that selected the main filter before, on a block
where the main filter has diverged. -/
theorem FormLinearFilterOutput_crossfade_or_copy_witness :
    ∃ st' out, FormLinearFilterOutput (unitGainRemover true 16000 1 1) divergedMain
        (constantSignal 64 0) = .ok (st', out) ∧
      SignalTransition divergedMain.e_main divergedMain.e_shadow (constantSignal 64 0)
        = .ok out := by
  obtain ⟨st', out, h, hsel, hx, _⟩ :=
    FormLinearFilterOutput_crossfade_or_copy (unitGainRemover true 16000 1 1) divergedMain
      (constantSignal 64 0) (by simp [divergedMain, constantSignal])
      (by simp [divergedMain, constantSignal]) (by simp [constantSignal, kTransitionSize])
  have hfalse : st'.main_filter_output_last_selected_ = false := by
    rw [hsel]
    simp [use_main_output, unitGainRemover, divergedMain, unitGain]
    norm_num
  have := hx (by rw [hfalse]; simp [unitGainRemover])
  rw [hfalse] at this
  exact ⟨st', out, h, by simpa [unitGainRemover] using this⟩

/-! ### The stages of `ProcessCapture` -/

theorem gainChangeOncePerFrame_delay (hang : Int) (v : EchoPathVariability) :
    (gainChangeOncePerFrame hang v).2.delay_change = v.delay_change := by
  unfold gainChangeOncePerFrame
  split_ifs <;> rfl

theorem handleEchoPathChange_frame {C : Aec3} (st : EchoRemoverImpl C)
    (v : EchoPathVariability) (sat : Bool) :
    (handleEchoPathChange st v sat).1.sample_rate_hz_ = st.sample_rate_hz_ ∧
    (handleEchoPathChange st v sat).1.num_render_channels_ = st.num_render_channels_ ∧
    (handleEchoPathChange st v sat).1.num_capture_channels_ = st.num_capture_channels_ ∧
    (handleEchoPathChange st v sat).1.use_shadow_filter_output_
      = st.use_shadow_filter_output_ ∧
    (handleEchoPathChange st v sat).1.main_filter_output_last_selected_
      = st.main_filter_output_last_selected_ ∧
    (handleEchoPathChange st v sat).1.linear_filter_output_last_selected_
      = st.linear_filter_output_last_selected_ := by
  unfold handleEchoPathChange
  simp only
  split_ifs <;> simp

theorem handleEchoPathChange_forwarded {C : Aec3} (st : EchoRemoverImpl C)
    (v : EchoPathVariability) (sat : Bool) :
    (handleEchoPathChange st v sat).2.1 =
      if v.AudioPathChanged then some (gainChangeOncePerFrame st.gain_change_hangover_ v).2
      else none := by
  unfold handleEchoPathChange
  simp only
  split_ifs <;> rfl

theorem handleEchoPathChange_hangover {C : Aec3} (st : EchoRemoverImpl C)
    (v : EchoPathVariability) (sat : Bool) :
    (handleEchoPathChange st v sat).1.gain_change_hangover_ =
      if 0 < (if v.AudioPathChanged then (gainChangeOncePerFrame st.gain_change_hangover_ v).1
              else st.gain_change_hangover_)
      then (if v.AudioPathChanged then (gainChangeOncePerFrame st.gain_change_hangover_ v).1
              else st.gain_change_hangover_) - 1
      else (if v.AudioPathChanged then (gainChangeOncePerFrame st.gain_change_hangover_ v).1
              else st.gain_change_hangover_) := by
  unfold handleEchoPathChange
  simp only
  split_ifs <;> simp_all

theorem analyzeAndSubtract_frame {C : Aec3} (st : EchoRemoverImpl C) (rb : C.RenderBuffer)
    (y0 : List ℚ) :
    (analyzeAndSubtract st rb y0).1.sample_rate_hz_ = st.sample_rate_hz_ ∧
    (analyzeAndSubtract st rb y0).1.num_render_channels_ = st.num_render_channels_ ∧
    (analyzeAndSubtract st rb y0).1.num_capture_channels_ = st.num_capture_channels_ ∧
    (analyzeAndSubtract st rb y0).1.use_shadow_filter_output_
      = st.use_shadow_filter_output_ ∧
    (analyzeAndSubtract st rb y0).1.main_filter_output_last_selected_
      = st.main_filter_output_last_selected_ ∧
    (analyzeAndSubtract st rb y0).1.linear_filter_output_last_selected_
      = st.linear_filter_output_last_selected_ ∧
    (analyzeAndSubtract st rb y0).1.gain_change_hangover_ = st.gain_change_hangover_ := by
  unfold analyzeAndSubtract
  simp only
  split_ifs <;> simp

theorem analyzeAndSubtract_sizes {C : Aec3} (hC : C.ArraySizes) (st : EchoRemoverImpl C)
    (rb : C.RenderBuffer) (y0 : List ℚ) :
    (analyzeAndSubtract st rb y0).2.1.e_main.length = C.kBlockSize ∧
    (analyzeAndSubtract st rb y0).2.1.e_shadow.length = C.kBlockSize := by
  unfold analyzeAndSubtract
  exact hC.2 _ _ _ _ _

theorem chooseLinearOutput_ok (u p : Bool) (y0 e : List ℚ) (h : e.length = y0.length)
    (h30 : kTransitionSize ≤ y0.length) :
    chooseLinearOutput u p y0 e =
      .ok (if u then (if p then e else transitionOutput y0 e)
            else (if p then transitionOutput e y0 else y0)) := by
  unfold chooseLinearOutput
  cases u <;> cases p
  · simp
  · simp [SignalTransition_ok e y0 y0 h h h30]
  · simp [SignalTransition_ok y0 e y0 h.symm rfl h30]
  · simp [std_copy_same_length e y0 h]

theorem formed_length {C : Aec3} (st : EchoRemoverImpl C) (o : SubtractorOutput)
    (output : List ℚ) (hm : o.e_main.length = output.length)
    (hs : o.e_shadow.length = output.length) (h30 : kTransitionSize ≤ output.length)
    (formed : EchoRemoverImpl C × List ℚ)
    (h : FormLinearFilterOutput st o output = .ok formed) :
    formed.2.length = output.length ∧
      formed.1 = { st with main_filter_output_last_selected_ :=
                      use_main_output C st.use_shadow_filter_output_ o } := by
  rw [FormLinearFilterOutput_ok st o output hm hs h30] at h
  cases h
  refine ⟨?_, rfl⟩
  simp only
  split_ifs <;> simp [transition_length, hm, hs, h30]

theorem ProcessCapture_eq_ok_iff {C : Aec3} (st : EchoRemoverImpl C) (v : EchoPathVariability)
    (sat : Bool) (d : Option C.DelayEstimate) (rb : C.RenderBuffer) (capture : Block)
    (r : Processed C) :
    ProcessCapture st v sat d rb capture = .ok r ↔
      CheckedGeometry st rb capture ∧
        processChecked { st with block_counter_ := st.block_counter_ + 1 } v sat d rb
          (C.RenderBuffer_Block rb 0) capture = .ok r := by
  unfold ProcessCapture CheckedGeometry
  simp only
  split_ifs with g1 g2 g3 g4 g5 g6 <;> simp_all

theorem computeSpectra_frame {C : Aec3} (st : EchoRemoverImpl C)
    (d : Option C.DelayEstimate) (rb : C.RenderBuffer) (y0 e : List ℚ)
    (o : SubtractorOutput) :
    (computeSpectra st d rb y0 e o).1.sample_rate_hz_ = st.sample_rate_hz_ ∧
    (computeSpectra st d rb y0 e o).1.num_render_channels_ = st.num_render_channels_ ∧
    (computeSpectra st d rb y0 e o).1.num_capture_channels_ = st.num_capture_channels_ ∧
    (computeSpectra st d rb y0 e o).1.use_shadow_filter_output_
      = st.use_shadow_filter_output_ ∧
    (computeSpectra st d rb y0 e o).1.main_filter_output_last_selected_
      = st.main_filter_output_last_selected_ ∧
    (computeSpectra st d rb y0 e o).1.linear_filter_output_last_selected_
      = st.linear_filter_output_last_selected_ ∧
    (computeSpectra st d rb y0 e o).1.gain_change_hangover_ = st.gain_change_hangover_ := by
  simp [computeSpectra]

theorem suppress_frame {C : Aec3} (st : EchoRemoverImpl C) (rb : C.RenderBuffer)
    (x : Block) (sp : Spectra) (y : Block) :
    (suppress st rb x sp y).1.sample_rate_hz_ = st.sample_rate_hz_ ∧
    (suppress st rb x sp y).1.num_render_channels_ = st.num_render_channels_ ∧
    (suppress st rb x sp y).1.num_capture_channels_ = st.num_capture_channels_ ∧
    (suppress st rb x sp y).1.use_shadow_filter_output_ = st.use_shadow_filter_output_ ∧
    (suppress st rb x sp y).1.main_filter_output_last_selected_
      = st.main_filter_output_last_selected_ ∧
    (suppress st rb x sp y).1.linear_filter_output_last_selected_
      = st.linear_filter_output_last_selected_ ∧
    (suppress st rb x sp y).1.gain_change_hangover_ = st.gain_change_hangover_ ∧
    (suppress st rb x sp y).1.aec_state_ = st.aec_state_ := by
  simp [suppress]

/-- What a returning `processChecked` went through, stage by stage. -/
theorem processChecked_inv {C : Aec3} (st : EchoRemoverImpl C) (v : EchoPathVariability)
    (sat : Bool) (d : Option C.DelayEstimate) (rb : C.RenderBuffer) (x y : Block)
    (r : Processed C) (h : processChecked st v sat d rb x y = .ok r) :
    ∃ changed subtracted formed analyzed y0_linear,
      changed = handleEchoPathChange st v sat ∧
      subtracted = analyzeAndSubtract changed.1 rb ((y.getD 0 []).getD 0 []) ∧
      FormLinearFilterOutput subtracted.1 subtracted.2.1 (List.replicate C.kBlockSize 0)
        = .ok formed ∧
      analyzed = computeSpectra formed.1 d rb ((y.getD 0 []).getD 0 []) formed.2
        subtracted.2.1 ∧
      chooseLinearOutput (C.AecState_UseLinearFilterOutput analyzed.1.aec_state_)
        analyzed.1.linear_filter_output_last_selected_ ((y.getD 0 []).getD 0 []) formed.2
        = .ok y0_linear ∧
      r.remover = (suppress
        { analyzed.1 with linear_filter_output_last_selected_ :=
            C.AecState_UseLinearFilterOutput analyzed.1.aec_state_ }
        rb x analyzed.2 (write_y0 y y0_linear)).1 ∧
      r.capture = (suppress
        { analyzed.1 with linear_filter_output_last_selected_ :=
            C.AecState_UseLinearFilterOutput analyzed.1.aec_state_ }
        rb x analyzed.2 (write_y0 y y0_linear)).2.1 ∧
      r.locals.suppression = (suppress
        { analyzed.1 with linear_filter_output_last_selected_ :=
            C.AecState_UseLinearFilterOutput analyzed.1.aec_state_ }
        rb x analyzed.2 (write_y0 y y0_linear)).2.2 ∧
      r.locals.forwarded = changed.2.1 ∧
      r.locals.set_initial_state
        = changed.2.2 ++ (if subtracted.2.2 then [false] else []) ∧
      r.locals.exit_initial_state = subtracted.2.2 ∧
      r.locals.capture_input = (y.getD 0 []).getD 0 [] ∧
      r.locals.subtractor_output = subtracted.2.1 ∧
      r.locals.e = formed.2 ∧
      r.locals.spectra = analyzed.2 ∧
      r.locals.use_linear_filter_output
        = C.AecState_UseLinearFilterOutput analyzed.1.aec_state_ ∧
      r.locals.output_linear = y0_linear ∧
      r.locals.y_before_gain = write_y0 y y0_linear := by
  unfold processChecked at h
  simp only at h
  split at h
  · cases h
  · rename_i formed hf
    split at h
    · cases h
    · rename_i y0_linear hc
      cases h
      exact ⟨_, _, formed, _, y0_linear, rfl, rfl, hf, rfl, hc, rfl, rfl, rfl, rfl, rfl, rfl,
        rfl, rfl, rfl, rfl, rfl, rfl, rfl⟩

/-- With the array sizes of the headers, `processChecked` returns on every
block whose channel 0 of band 0 holds `kBlockSize` samples. -/
theorem processChecked_returns {C : Aec3} (hC : C.ArraySizes) (st : EchoRemoverImpl C)
    (v : EchoPathVariability) (sat : Bool) (d : Option C.DelayEstimate)
    (rb : C.RenderBuffer) (x y : Block)
    (hy : ((y.getD 0 []).getD 0 []).length = C.kBlockSize) :
    ∃ r, processChecked st v sat d rb x y = .ok r := by
  have hsz := analyzeAndSubtract_sizes hC (handleEchoPathChange st v sat).1 rb
    ((y.getD 0 []).getD 0 [])
  have h30 : kTransitionSize ≤ (List.replicate C.kBlockSize (0 : ℚ)).length := by
    simpa using hC.1
  have hf := FormLinearFilterOutput_ok
    (analyzeAndSubtract (handleEchoPathChange st v sat).1 rb ((y.getD 0 []).getD 0 [])).1
    (analyzeAndSubtract (handleEchoPathChange st v sat).1 rb ((y.getD 0 []).getD 0 [])).2.1
    (List.replicate C.kBlockSize 0) (by simpa using hsz.1) (by simpa using hsz.2) h30
  have hlen := (formed_length _ _ _ (by simpa using hsz.1) (by simpa using hsz.2) h30 _ hf).1
  unfold processChecked
  simp only
  rw [hf]
  simp only
  rw [chooseLinearOutput_ok _ _ _ _ (by rw [hlen, hy]; simp) (by rw [hy]; exact hC.1)]
  exact ⟨_, rfl⟩

theorem FormLinearFilterOutput_state {C : Aec3} (st : EchoRemoverImpl C)
    (o : SubtractorOutput) (output : List ℚ) (formed : EchoRemoverImpl C × List ℚ)
    (h : FormLinearFilterOutput st o output = .ok formed) :
    formed.1 = { st with main_filter_output_last_selected_ :=
                    use_main_output C st.use_shadow_filter_output_ o } := by
  unfold FormLinearFilterOutput at h
  simp only at h
  split_ifs at h
  all_goals
    first
    | (cases h; rfl)
    | (split at h
       · cases h
       · cases h; rfl)

/-- The checks of lines 236-241 read the remover's sample rate and channel
counts only. -/
theorem CheckedGeometry_congr {C : Aec3} (st st' : EchoRemoverImpl C)
    (h1 : st'.sample_rate_hz_ = st.sample_rate_hz_)
    (h2 : st'.num_render_channels_ = st.num_render_channels_)
    (h3 : st'.num_capture_channels_ = st.num_capture_channels_)
    (rb : C.RenderBuffer) (capture : Block) :
    CheckedGeometry st' rb capture ↔ CheckedGeometry st rb capture := by
  unfold CheckedGeometry
  rw [h1, h2, h3]

/-- `ProcessCapture` returns exactly on the blocks that pass its six checks. -/
theorem ProcessCapture_returns {C : Aec3} (hC : C.ArraySizes) (st : EchoRemoverImpl C)
    (v : EchoPathVariability) (sat : Bool) (d : Option C.DelayEstimate)
    (rb : C.RenderBuffer) (capture : Block) (hg : CheckedGeometry st rb capture) :
    ∃ r, ProcessCapture st v sat d rb capture = .ok r := by
  obtain ⟨r, hr⟩ := processChecked_returns hC
    { st with block_counter_ := st.block_counter_ + 1 } v sat d rb
    (C.RenderBuffer_Block rb 0) capture hg.2.2.2.2.2
  exact ⟨r, (ProcessCapture_eq_ok_iff st v sat d rb capture r).2 ⟨hg, hr⟩⟩

/-- A returning `ProcessCapture` leaves the construction-time constants of the
remover as they were. -/
theorem ProcessCapture_frame {C : Aec3} (st : EchoRemoverImpl C) (v : EchoPathVariability)
    (sat : Bool) (d : Option C.DelayEstimate) (rb : C.RenderBuffer) (capture : Block)
    (r : Processed C) (h : ProcessCapture st v sat d rb capture = .ok r) :
    r.remover.sample_rate_hz_ = st.sample_rate_hz_ ∧
    r.remover.num_render_channels_ = st.num_render_channels_ ∧
    r.remover.num_capture_channels_ = st.num_capture_channels_ ∧
    r.remover.use_shadow_filter_output_ = st.use_shadow_filter_output_ := by
  obtain ⟨_, h⟩ := (ProcessCapture_eq_ok_iff st v sat d rb capture r).1 h
  obtain ⟨changed, subtracted, formed, analyzed, y0_linear, rfl, rfl, hf, rfl, _, hr, _⟩ :=
    processChecked_inv _ v sat d rb _ capture r h
  have hs := FormLinearFilterOutput_state _ _ _ _ hf
  rw [hr]
  simp only [suppress_frame, computeSpectra_frame, hs, analyzeAndSubtract_frame,
    handleEchoPathChange_frame, and_self]

/-- The event that a returning `ProcessCapture` forwarded to the subtractor and
to the AEC state, and the hangover counter it leaves. -/
theorem ProcessCapture_event {C : Aec3} (st : EchoRemoverImpl C) (v : EchoPathVariability)
    (sat : Bool) (d : Option C.DelayEstimate) (rb : C.RenderBuffer) (capture : Block)
    (r : Processed C) (h : ProcessCapture st v sat d rb capture = .ok r) :
    r.locals.forwarded =
      (if v.AudioPathChanged then some (gainChangeOncePerFrame st.gain_change_hangover_ v).2
        else none) ∧
    r.remover.gain_change_hangover_ =
      (if 0 < (if v.AudioPathChanged then (gainChangeOncePerFrame st.gain_change_hangover_ v).1
              else st.gain_change_hangover_)
      then (if v.AudioPathChanged then (gainChangeOncePerFrame st.gain_change_hangover_ v).1
              else st.gain_change_hangover_) - 1
      else (if v.AudioPathChanged then (gainChangeOncePerFrame st.gain_change_hangover_ v).1
              else st.gain_change_hangover_)) := by
  obtain ⟨_, h⟩ := (ProcessCapture_eq_ok_iff st v sat d rb capture r).1 h
  obtain ⟨changed, subtracted, formed, analyzed, y0_linear, rfl, rfl, hf, rfl, _, hr, _, _,
    hfw, _⟩ := processChecked_inv _ v sat d rb _ capture r h
  have hs := FormLinearFilterOutput_state _ _ _ _ hf
  refine ⟨?_, ?_⟩
  · rw [hfw, handleEchoPathChange_forwarded]
  · rw [hr]
    simp only [suppress_frame, computeSpectra_frame, hs, analyzeAndSubtract_frame]
    rw [handleEchoPathChange_hangover]

/-- The filter-output selection of a returning `ProcessCapture`: the local `e`
is what `FormLinearFilterOutput` forms from `subtractor_output[0]`, and the
remover keeps the selection flag of that call. -/
theorem ProcessCapture_formed {C : Aec3} (hC : C.ArraySizes) (st : EchoRemoverImpl C)
    (v : EchoPathVariability) (sat : Bool) (d : Option C.DelayEstimate)
    (rb : C.RenderBuffer) (capture : Block)
    (r : Processed C) (h : ProcessCapture st v sat d rb capture = .ok r) :
    r.locals.subtractor_output.e_main.length = C.kBlockSize ∧
    r.locals.subtractor_output.e_shadow.length = C.kBlockSize ∧
    r.locals.e.length = C.kBlockSize ∧
    FormLinearFilterOutput st r.locals.subtractor_output (List.replicate C.kBlockSize 0)
      = .ok ({ st with main_filter_output_last_selected_ :=
                  r.remover.main_filter_output_last_selected_ }, r.locals.e) ∧
    r.remover.main_filter_output_last_selected_ =
      use_main_output C st.use_shadow_filter_output_ r.locals.subtractor_output := by
  obtain ⟨_, h⟩ := (ProcessCapture_eq_ok_iff st v sat d rb capture r).1 h
  obtain ⟨changed, subtracted, formed, analyzed, y0_linear, rfl, rfl, hf, rfl, _, hr, _, _,
    _, _, _, _, hso, he, _⟩ := processChecked_inv _ v sat d rb _ capture r h
  have hsz := analyzeAndSubtract_sizes hC
    (handleEchoPathChange { st with block_counter_ := st.block_counter_ + 1 } v sat).1 rb
    ((capture.getD 0 []).getD 0 [])
  have h30 : kTransitionSize ≤ (List.replicate C.kBlockSize (0 : ℚ)).length := by
    simpa using hC.1
  have hm : r.locals.subtractor_output.e_main.length
      = (List.replicate C.kBlockSize (0 : ℚ)).length := by rw [hso]; simpa using hsz.1
  have hsh : r.locals.subtractor_output.e_shadow.length
      = (List.replicate C.kBlockSize (0 : ℚ)).length := by rw [hso]; simpa using hsz.2
  have hs := FormLinearFilterOutput_state _ _ _ _ hf
  have hflag : r.remover.main_filter_output_last_selected_ =
      use_main_output C st.use_shadow_filter_output_ r.locals.subtractor_output := by
    rw [hr, hso]
    simp only [suppress_frame, computeSpectra_frame, hs, analyzeAndSubtract_frame,
      handleEchoPathChange_frame]
  have hlen := (formed_length _ _ _ (by rw [← hso]; exact hm) (by rw [← hso]; exact hsh)
    h30 _ hf).1
  refine ⟨by simpa using hm, by simpa using hsh, by rw [he, hlen]; simp, ?_, hflag⟩
  rw [FormLinearFilterOutput_ok st _ _ hm hsh h30, hflag, he]
  rw [FormLinearFilterOutput_ok _ _ _ (by rw [← hso]; exact hm) (by rw [← hso]; exact hsh)
    h30] at hf
  cases hf
  simp only [analyzeAndSubtract_frame, handleEchoPathChange_frame, hso]

/-- The overall path selection of a returning `ProcessCapture`. -/
theorem ProcessCapture_selection {C : Aec3} (st : EchoRemoverImpl C)
    (v : EchoPathVariability) (sat : Bool) (d : Option C.DelayEstimate)
    (rb : C.RenderBuffer) (capture : Block)
    (r : Processed C) (h : ProcessCapture st v sat d rb capture = .ok r) :
    r.locals.capture_input = (capture.getD 0 []).getD 0 [] ∧
    r.locals.use_linear_filter_output
      = C.AecState_UseLinearFilterOutput r.remover.aec_state_ ∧
    r.remover.linear_filter_output_last_selected_ = r.locals.use_linear_filter_output ∧
    chooseLinearOutput r.locals.use_linear_filter_output
      st.linear_filter_output_last_selected_ ((capture.getD 0 []).getD 0 []) r.locals.e
      = .ok r.locals.output_linear ∧
    r.locals.y_before_gain = write_y0 capture r.locals.output_linear := by
  obtain ⟨_, h⟩ := (ProcessCapture_eq_ok_iff st v sat d rb capture r).1 h
  obtain ⟨changed, subtracted, formed, analyzed, y0_linear, rfl, rfl, hf, rfl, hc, hr, _, _,
    _, _, _, hci, hso, he, _, hu, hol, hyb⟩ := processChecked_inv _ v sat d rb _ capture r h
  have hs := FormLinearFilterOutput_state _ _ _ _ hf
  refine ⟨hci, ?_, ?_, ?_, ?_⟩
  · rw [hu, hr]
    simp only [suppress_frame]
  · rw [hu, hr]
    simp only [suppress_frame]
  · rw [hu, he, hol]
    simpa only [computeSpectra_frame, hs, analyzeAndSubtract_frame,
      handleEchoPathChange_frame] using hc
  · rw [hyb, hol]


theorem ProcessCaptureCalls_three {C : Aec3} (st : EchoRemoverImpl C)
    (c1 c2 c3 : CaptureCall C) (r1 r2 r3 : Processed C)
    (h1 : ProcessCapture st c1.echo_path_variability c1.capture_signal_saturation
      c1.external_delay c1.render_buffer c1.capture = .ok r1)
    (h2 : ProcessCapture r1.remover c2.echo_path_variability c2.capture_signal_saturation
      c2.external_delay c2.render_buffer c2.capture = .ok r2)
    (h3 : ProcessCapture r2.remover c3.echo_path_variability c3.capture_signal_saturation
      c3.external_delay c3.render_buffer c3.capture = .ok r3) :
    ProcessCaptureCalls st [c1, c2, c3] = .ok [r1, r2, r3] := by
  simp [ProcessCaptureCalls, h1, h2, h3]

/-- Three consecutive blocks that each report a gain change, from a hangover
counter of 0: all three return, the event is forwarded on each, and only the
first forwarded event keeps its gain-change flag. -/
theorem three_gain_changes {C : Aec3} (hC : C.ArraySizes) (st : EchoRemoverImpl C)
    (h0 : st.gain_change_hangover_ = 0) (c1 c2 c3 : CaptureCall C)
    (hc1 : c1.echo_path_variability.gain_change = true)
    (hc2 : c2.echo_path_variability.gain_change = true)
    (hc3 : c3.echo_path_variability.gain_change = true)
    (hg1 : CheckedGeometry st c1.render_buffer c1.capture)
    (hg2 : CheckedGeometry st c2.render_buffer c2.capture)
    (hg3 : CheckedGeometry st c3.render_buffer c3.capture) :
    ∃ r1 r2 r3, ProcessCaptureCalls st [c1, c2, c3] = .ok [r1, r2, r3] ∧
      r1.locals.forwarded = some c1.echo_path_variability ∧
      r2.locals.forwarded = some { c2.echo_path_variability with gain_change := false } ∧
      r3.locals.forwarded = some { c3.echo_path_variability with gain_change := false } := by
  obtain ⟨r1, hr1⟩ := ProcessCapture_returns hC st c1.echo_path_variability
    c1.capture_signal_saturation c1.external_delay c1.render_buffer c1.capture hg1
  obtain ⟨f1a, f1b, f1c, _⟩ := ProcessCapture_frame _ _ _ _ _ _ _ hr1
  obtain ⟨e1, k1⟩ := ProcessCapture_event _ _ _ _ _ _ _ hr1
  obtain ⟨r2, hr2⟩ := ProcessCapture_returns hC r1.remover c2.echo_path_variability
    c2.capture_signal_saturation c2.external_delay c2.render_buffer c2.capture
    ((CheckedGeometry_congr st r1.remover f1a f1b f1c _ _).2 hg2)
  obtain ⟨f2a, f2b, f2c, _⟩ := ProcessCapture_frame _ _ _ _ _ _ _ hr2
  obtain ⟨e2, k2⟩ := ProcessCapture_event _ _ _ _ _ _ _ hr2
  obtain ⟨r3, hr3⟩ := ProcessCapture_returns hC r2.remover c3.echo_path_variability
    c3.capture_signal_saturation c3.external_delay c3.render_buffer c3.capture
    ((CheckedGeometry_congr st r2.remover (f2a.trans f1a) (f2b.trans f1b) (f2c.trans f1c)
      _ _).2 hg3)
  obtain ⟨e3, _⟩ := ProcessCapture_event _ _ _ _ _ _ _ hr3
  have a1 : c1.echo_path_variability.AudioPathChanged = true := by
    simp [EchoPathVariability.AudioPathChanged, hc1]
  have a2 : c2.echo_path_variability.AudioPathChanged = true := by
    simp [EchoPathVariability.AudioPathChanged, hc2]
  have a3 : c3.echo_path_variability.AudioPathChanged = true := by
    simp [EchoPathVariability.AudioPathChanged, hc3]
  have k1' : r1.remover.gain_change_hangover_ = 2 := by
    rw [k1]
    simp [a1, gainChangeOncePerFrame, hc1, h0, kMaxBlocksPerFrame]
  have k2' : r2.remover.gain_change_hangover_ = 1 := by
    rw [k2]
    simp [a2, gainChangeOncePerFrame, hc2, k1']
  refine ⟨r1, r2, r3, ProcessCaptureCalls_three st c1 c2 c3 r1 r2 r3 hr1 hr2 hr3, ?_, ?_, ?_⟩
  · rw [e1]
    simp [a1, gainChangeOncePerFrame, hc1, h0]
  · rw [e2]
    simp [a2, gainChangeOncePerFrame, hc2, k1']
  · rw [e3]
    simp [a3, gainChangeOncePerFrame, hc3, k2']

theorem use_main_output_congr (C : Aec3) (b : Bool) (o1 o2 : SubtractorOutput)
    (h1 : o1.e2_main = o2.e2_main) (h2 : o1.e2_shadow = o2.e2_shadow)
    (h3 : o1.s2_main = o2.s2_main) (h4 : o1.s2_shadow = o2.s2_shadow)
    (h5 : o1.y2 = o2.y2) :
    use_main_output C b o1 = use_main_output C b o2 := by
  unfold use_main_output
  rw [h1, h2, h3, h4, h5]

/-- C7. The filter-output selection does not depend on the previous selection:
for every remover state, two consecutive `FormLinearFilterOutput` calls on
subtractor outputs with the same energies both return and select the same
filter, and the output of the second call is the output of the selected filter,
sample for sample, with no cross-fade. -/
theorem FormLinearFilterOutput_same_energies {C : Aec3} (st : EchoRemoverImpl C)
    (o1 o2 : SubtractorOutput) (out1 out2 : List ℚ)
    (h1 : o1.e2_main = o2.e2_main) (h2 : o1.e2_shadow = o2.e2_shadow)
    (h3 : o1.s2_main = o2.s2_main) (h4 : o1.s2_shadow = o2.s2_shadow)
    (h5 : o1.y2 = o2.y2)
    (hm1 : o1.e_main.length = out1.length) (hs1 : o1.e_shadow.length = out1.length)
    (hk1 : kTransitionSize ≤ out1.length)
    (hm2 : o2.e_main.length = out2.length) (hs2 : o2.e_shadow.length = out2.length)
    (hk2 : kTransitionSize ≤ out2.length) :
    ∃ st1 e1 st2 e2, FormLinearFilterOutput st o1 out1 = .ok (st1, e1) ∧
      FormLinearFilterOutput st1 o2 out2 = .ok (st2, e2) ∧
      st1.main_filter_output_last_selected_ = st2.main_filter_output_last_selected_ ∧
      st1.main_filter_output_last_selected_
        = use_main_output C st.use_shadow_filter_output_ o1 ∧
      e2 = (if st2.main_filter_output_last_selected_ then o2.e_main else o2.e_shadow) := by
  have hc := use_main_output_congr C st.use_shadow_filter_output_ o1 o2 h1 h2 h3 h4 h5
  refine ⟨_, _, _, _, FormLinearFilterOutput_ok st o1 out1 hm1 hs1 hk1,
    FormLinearFilterOutput_ok _ o2 out2 hm2 hs2 hk2, ?_, rfl, ?_⟩
  · simp only [hc]
  · simp only [hc]
    cases use_main_output C st.use_shadow_filter_output_ o2 <;> simp

/-- Witness of C7: the diverged main filter on two consecutive blocks. -/
theorem FormLinearFilterOutput_same_energies_witness :
    ∃ st1 e1 st2 e2,
      FormLinearFilterOutput (unitGainRemover true 16000 1 1) divergedMain
        (constantSignal 64 0) = .ok (st1, e1) ∧
      FormLinearFilterOutput st1 divergedMain (constantSignal 64 0) = .ok (st2, e2) ∧
      st1.main_filter_output_last_selected_ = st2.main_filter_output_last_selected_ ∧
      e2 = (if st2.main_filter_output_last_selected_ then divergedMain.e_main
            else divergedMain.e_shadow) := by
  obtain ⟨st1, e1, st2, e2, ha, hb, hsame, _, hcopy⟩ :=
    FormLinearFilterOutput_same_energies (unitGainRemover true 16000 1 1) divergedMain
      divergedMain (constantSignal 64 0) (constantSignal 64 0) rfl rfl rfl rfl rfl
      (by simp [divergedMain, constantSignal]) (by simp [divergedMain, constantSignal])
      (by simp [constantSignal, kTransitionSize])
      (by simp [divergedMain, constantSignal]) (by simp [divergedMain, constantSignal])
      (by simp [constantSignal, kTransitionSize])
  exact ⟨st1, e1, st2, e2, ha, hb, hsame, hcopy⟩


/-- With shadow-output usage disabled and the main filter selected before, any
run of blocks that pass the checks returns, keeps the main filter selected and
forms `e_main` on every block. -/
theorem main_output_on_every_block {C : Aec3} (hC : C.ArraySizes)
    (calls : List (CaptureCall C)) :
    ∀ st : EchoRemoverImpl C, st.use_shadow_filter_output_ = false →
      st.main_filter_output_last_selected_ = true →
      (∀ c ∈ calls, CheckedGeometry st c.render_buffer c.capture) →
      ∃ rs, ProcessCaptureCalls st calls = .ok rs ∧ rs.length = calls.length ∧
        ∀ r ∈ rs, r.remover.main_filter_output_last_selected_ = true ∧
          r.locals.e = r.locals.subtractor_output.e_main := by
  induction calls with
  | nil =>
    intro st _ _ _
    exact ⟨[], rfl, rfl, by simp⟩
  | cons c cs ih =>
    intro st hdis hmain hgeo
    obtain ⟨r, hr⟩ := ProcessCapture_returns hC st c.echo_path_variability
      c.capture_signal_saturation c.external_delay c.render_buffer c.capture
      (hgeo c (List.mem_cons_self c cs))
    obtain ⟨f1, f2, f3, f4⟩ := ProcessCapture_frame _ _ _ _ _ _ _ hr
    obtain ⟨hm, hs, _, hform, hflag⟩ := ProcessCapture_formed hC _ _ _ _ _ _ _ hr
    have hsel : r.remover.main_filter_output_last_selected_ = true := by
      rw [hflag, hdis]
      simp [use_main_output]
    have he : r.locals.e = r.locals.subtractor_output.e_main := by
      rw [FormLinearFilterOutput_ok st _ _ (by simpa using hm) (by simpa using hs)
        (by simpa using hC.1)] at hform
      have h2 := congrArg (fun t => t.2) (Except.ok.inj hform)
      simp only [hdis, hmain, use_main_output] at h2
      simpa using h2.symm
    obtain ⟨rs, hrs, hlen, hall⟩ := ih r.remover (f4.trans hdis) hsel (fun c' hc' =>
      (CheckedGeometry_congr st r.remover f1 f2 f3 _ _).2
        (hgeo c' (List.mem_cons_of_mem c hc')))
    refine ⟨r :: rs, ?_, by simp [hlen], ?_⟩
    · simp [ProcessCaptureCalls, hr, hrs]
    · intro r' hr'
      rcases List.mem_cons.1 hr' with h | h
      · rw [h]
        exact ⟨hsel, he⟩
      · exact hall r' h

/-- C9, the claim as stated fails: a capture block whose second band has a
channel too many, with three samples instead of `kBlockSize`, passes the checks
and is processed. -/
theorem ragged_block_is_processed :
    ¬ FullGeometry raggedBlock 2 1 64 ∧
      ∃ r, ProcessCapture (unitGainRemover false 32000 1 1) noChange false none
        twoBandBlock raggedBlock = .ok r := by
  constructor
  · intro h
    have h1 := (h.2 [constantSignal 64 0, constantSignal 3 0] (by simp [raggedBlock])).1
    simp at h1
  · exact ⟨_, rfl⟩

/-- C9, amended. `ProcessCapture` fails with a fatal check (one of lines
236-241) for every call in which the band count of the render or the capture
block differs from `NumBandsForRate(sample_rate_hz)`, or the channel count of
band 0 differs from the construction-time render or capture channel count, or
the sample count of channel 0 of band 0 differs from `kBlockSize`; every other
call is processed. The channel counts of the other bands and the sample counts
of the other channels are not checked. -/
theorem ProcessCapture_checks {C : Aec3} (hC : C.ArraySizes) (st : EchoRemoverImpl C)
    (v : EchoPathVariability) (sat : Bool) (d : Option C.DelayEstimate)
    (rb : C.RenderBuffer) (capture : Block) :
    (((C.RenderBuffer_Block rb 0).length ≠ C.NumBandsForRate st.sample_rate_hz_ ∨
        capture.length ≠ C.NumBandsForRate st.sample_rate_hz_ ∨
        ((C.RenderBuffer_Block rb 0).getD 0 []).length ≠ st.num_render_channels_ ∨
        (capture.getD 0 []).length ≠ st.num_capture_channels_ ∨
        (((C.RenderBuffer_Block rb 0).getD 0 []).getD 0 []).length ≠ C.kBlockSize ∨
        ((capture.getD 0 []).getD 0 []).length ≠ C.kBlockSize) →
      ∃ line, 236 ≤ line ∧ line ≤ 241 ∧
        ProcessCapture st v sat d rb capture = .error (.dcheck line)) ∧
    (¬ ((C.RenderBuffer_Block rb 0).length ≠ C.NumBandsForRate st.sample_rate_hz_ ∨
        capture.length ≠ C.NumBandsForRate st.sample_rate_hz_ ∨
        ((C.RenderBuffer_Block rb 0).getD 0 []).length ≠ st.num_render_channels_ ∨
        (capture.getD 0 []).length ≠ st.num_capture_channels_ ∨
        (((C.RenderBuffer_Block rb 0).getD 0 []).getD 0 []).length ≠ C.kBlockSize ∨
        ((capture.getD 0 []).getD 0 []).length ≠ C.kBlockSize) →
      ∃ r, ProcessCapture st v sat d rb capture = .ok r) := by
  constructor
  · intro h
    unfold ProcessCapture
    simp only
    split_ifs with g1 g2 g3 g4 g5 g6
    · exact ⟨236, by norm_num, by norm_num, rfl⟩
    · exact ⟨237, by norm_num, by norm_num, rfl⟩
    · exact ⟨238, by norm_num, by norm_num, rfl⟩
    · exact ⟨239, by norm_num, by norm_num, rfl⟩
    · exact ⟨240, by norm_num, by norm_num, rfl⟩
    · exact ⟨241, by norm_num, by norm_num, rfl⟩
    · exfalso
      rcases h with h | h | h | h | h | h
      · exact g1 h
      · exact g2 h
      · exact g3 h
      · exact g4 h
      · exact g5 h
      · exact g6 h
  · intro h
    simp only [not_or, not_not] at h
    exact ProcessCapture_returns hC st v sat d rb capture h

/-- Witness of C9: a stereo capture block handed to a mono remover fails the
check of line 239. -/
theorem ProcessCapture_checks_witness :
    ∃ line, 236 ≤ line ∧ line ≤ 241 ∧
      ProcessCapture (unitGainRemover false 16000 1 1) noChange false none
        (monoBlock 0) (stereoBlock 0) = .error (.dcheck line) :=
  (ProcessCapture_checks unitGain_arraySizes (unitGainRemover false 16000 1 1) noChange
    false none (monoBlock 0) (stereoBlock 0)).1
    (by simp [unitGain, unitGainRemover, monoBlock, stereoBlock, constantSignal])


theorem write_y0_other (y : Block) (v : List ℚ) (b c : Nat) (h : ¬ (b = 0 ∧ c = 0)) :
    ((write_y0 y v).getD b []).getD c [] = (y.getD b []).getD c [] := by
  unfold write_y0
  cases y with
  | nil => simp
  | cons band rest =>
    cases b with
    | zero =>
      cases band with
      | nil => simp
      | cons ch chs =>
        cases c with
        | zero => simp at h
        | succ c => simp
    | succ b => simp

theorem write_y0_zero (y : Block) (v : List ℚ) (h : (y.getD 0 []).getD 0 [] ≠ []) :
    ((write_y0 y v).getD 0 []).getD 0 [] = v := by
  unfold write_y0
  cases y with
  | nil => simp at h
  | cons band rest =>
    cases band with
    | nil => simp at h
    | cons ch chs => simp

/-- The subtractor of a returning `ProcessCapture` is run once, on the samples
of channel 0 of band 0. -/
theorem ProcessCapture_subtracted {C : Aec3} (st : EchoRemoverImpl C)
    (v : EchoPathVariability) (sat : Bool) (d : Option C.DelayEstimate)
    (rb : C.RenderBuffer) (capture : Block)
    (r : Processed C) (h : ProcessCapture st v sat d rb capture = .ok r) :
    ∃ s a q, r.locals.subtractor_output =
      (C.Subtractor_Process s rb ((capture.getD 0 []).getD 0 []) a q).2 := by
  obtain ⟨_, h⟩ := (ProcessCapture_eq_ok_iff st v sat d rb capture r).1 h
  obtain ⟨changed, subtracted, formed, analyzed, y0_linear, rfl, rfl, _, _, _, _, _, _,
    _, _, _, _, hso, _⟩ := processChecked_inv _ v sat d rb _ capture r h
  rw [hso]
  unfold analyzeAndSubtract
  exact ⟨_, _, _, rfl⟩

/-- C10, the claim as stated fails: on a stereo remover whose subtractor
cancels every capture signal completely and whose AEC state selects the linear
output, the band-0 samples of channel 0 are replaced by the linear output
(silence), while channel 1 still holds the caller's samples, although the
linear output for them would be silence as well. -/
theorem second_channel_not_replaced :
    ∃ r, ProcessCapture (unitGainRemover false 16000 1 2) noChange false none
        (monoBlock 0) (stereoBlock 1) = .ok r ∧
      r.locals.use_linear_filter_output = true ∧
      (r.locals.y_before_gain.getD 0 []).getD 0 [] = constantSignal 64 0 ∧
      (r.locals.y_before_gain.getD 0 []).getD 1 [] = constantSignal 64 1 ∧
      (unitGain.Subtractor_Process () (monoBlock 0) (((stereoBlock 1).getD 0 []).getD 1 [])
          () ()).2.e_main
        = constantSignal 64 0 ∧
      ¬ (r.locals.y_before_gain.getD 0 []).getD 1 [] = constantSignal 64 0 := by
  refine ⟨_, rfl, rfl, rfl, rfl, rfl, ?_⟩
  intro h
  have h0 := congrArg (fun l => l.getD 0 0) h
  simp [ProcessCapture, processChecked, write_y0, stereoBlock, constantSignal,
    chooseLinearOutput, unitGain, unitGainRemover, handleEchoPathChange, analyzeAndSubtract,
    computeSpectra, FormLinearFilterOutput, use_main_output, std_copy, noChange,
    EchoPathVariability.AudioPathChanged, monoBlock] at h0

/-- C10, amended. For a remover constructed with any number of capture
channels, `ProcessCapture` performs the per-channel work (linear subtraction,
filter-output selection, spectral analysis and overall path selection) for
capture channel index 0 only: the subtractor is run on the band-0 samples of
channel 0, these samples are replaced by the selected or cross-faded signal, and
the samples of every other channel and band reach the gain application as the
caller supplied them. -/
theorem ProcessCapture_channel_zero_only {C : Aec3} (hC : C.ArraySizes)
    (st : EchoRemoverImpl C) (v : EchoPathVariability) (sat : Bool)
    (d : Option C.DelayEstimate) (rb : C.RenderBuffer) (capture : Block)
    (hg : CheckedGeometry st rb capture) :
    ∃ r, ProcessCapture st v sat d rb capture = .ok r ∧
      (∃ s a q, r.locals.subtractor_output =
        (C.Subtractor_Process s rb ((capture.getD 0 []).getD 0 []) a q).2) ∧
      (∃ st', FormLinearFilterOutput st r.locals.subtractor_output
        (List.replicate C.kBlockSize 0) = .ok (st', r.locals.e)) ∧
      chooseLinearOutput r.locals.use_linear_filter_output
        st.linear_filter_output_last_selected_ ((capture.getD 0 []).getD 0 []) r.locals.e
        = .ok r.locals.output_linear ∧
      (r.locals.y_before_gain.getD 0 []).getD 0 [] = r.locals.output_linear ∧
      ∀ b c, ¬ (b = 0 ∧ c = 0) →
        (r.locals.y_before_gain.getD b []).getD c [] = (capture.getD b []).getD c [] := by
  obtain ⟨r, hr⟩ := ProcessCapture_returns hC st v sat d rb capture hg
  obtain ⟨_, _, _, hch, hyb⟩ := ProcessCapture_selection st v sat d rb capture r hr
  obtain ⟨_, _, _, hform, _⟩ := ProcessCapture_formed hC st v sat d rb capture r hr
  have hy0 : (capture.getD 0 []).getD 0 [] ≠ [] := by
    intro h
    have hlen : ((capture.getD 0 []).getD 0 []).length = C.kBlockSize := hg.2.2.2.2.2
    rw [h] at hlen
    have h30 : kTransitionSize ≤ C.kBlockSize := hC.1
    rw [← hlen] at h30
    simp [kTransitionSize] at h30
  refine ⟨r, hr, ProcessCapture_subtracted st v sat d rb capture r hr, ⟨_, hform⟩, hch, ?_, ?_⟩
  · rw [hyb]
    exact write_y0_zero capture _ hy0
  · intro b c hbc
    rw [hyb]
    exact write_y0_other capture _ b c hbc

/-- Witness of C10: a stereo block on a stereo remover. -/
theorem ProcessCapture_channel_zero_only_witness :
    ∃ r, ProcessCapture (unitGainRemover false 16000 1 2) noChange false none
        (monoBlock 0) (stereoBlock 1) = .ok r ∧
      (r.locals.y_before_gain.getD 0 []).getD 1 [] = ((stereoBlock 1).getD 0 []).getD 1 [] := by
  obtain ⟨r, hr, _, _, _, _, hrest⟩ :=
    ProcessCapture_channel_zero_only unitGain_arraySizes (unitGainRemover false 16000 1 2)
      noChange false none (monoBlock 0) (stereoBlock 1)
      (by simp [CheckedGeometry, unitGain, unitGainRemover, monoBlock, stereoBlock,
        constantSignal])
  exact ⟨r, hr, hrest 0 1 (by simp)⟩


/-- C14. Constructing a `VideoSimulcastConfig(simulcast_streams_count,
target_spatial_index)` succeeds if and only if `simulcast_streams_count > 1` and
`0 <= target_spatial_index < simulcast_streams_count`, and fails with an
`RTC_CHECK` of lines 136-138 otherwise; on success both fields hold the
arguments unchanged, so the target index of every constructed config names an
existing stream or layer. -/
theorem VideoSimulcastConfig_create_iff (count index : Int) :
    ((∃ c, VideoSimulcastConfig.Create count index = .ok c) ↔
      (count > 1 ∧ 0 ≤ index ∧ index < count)) ∧
    (¬ (count > 1 ∧ 0 ≤ index ∧ index < count) →
      ∃ line, 136 ≤ line ∧ line ≤ 138 ∧
        VideoSimulcastConfig.Create count index = .error (.check line)) ∧
    (∀ c, VideoSimulcastConfig.Create count index = .ok c →
      c.simulcast_streams_count = count ∧ c.target_spatial_index = index ∧
        0 ≤ c.target_spatial_index ∧ c.target_spatial_index < c.simulcast_streams_count) := by
  refine ⟨?_, ?_, ?_⟩
  · by_cases h1 : count > 1
    · by_cases h2 : index ≥ 0
      · by_cases h3 : index < count
        · exact ⟨fun _ => ⟨h1, h2, h3⟩,
            fun _ => ⟨{ simulcast_streams_count := count, target_spatial_index := index },
              by simp [VideoSimulcastConfig.Create, h1, h2, h3]⟩⟩
        · constructor
          · rintro ⟨c, hc⟩
            simp [VideoSimulcastConfig.Create, h1, h2, h3] at hc
          · intro h
            exact absurd h.2.2 h3
      · constructor
        · rintro ⟨c, hc⟩
          simp [VideoSimulcastConfig.Create, h1, h2] at hc
        · intro h
          exact absurd h.2.1 h2
    · constructor
      · rintro ⟨c, hc⟩
        simp [VideoSimulcastConfig.Create, h1] at hc
      · intro h
        exact absurd h.1 h1
  · intro h
    by_cases h1 : count > 1
    · by_cases h2 : index ≥ 0
      · by_cases h3 : index < count
        · exact absurd ⟨h1, h2, h3⟩ h
        · exact ⟨138, by norm_num, by norm_num,
            by simp [VideoSimulcastConfig.Create, h1, h2, h3]⟩
      · exact ⟨137, by norm_num, by norm_num, by simp [VideoSimulcastConfig.Create, h1, h2]⟩
    · exact ⟨136, by norm_num, by norm_num, by simp [VideoSimulcastConfig.Create, h1]⟩
  · intro c hc
    by_cases h1 : count > 1
    · by_cases h2 : index ≥ 0
      · by_cases h3 : index < count
        · simp [VideoSimulcastConfig.Create, h1, h2, h3] at hc
          rw [← hc]
          exact ⟨rfl, rfl, h2, h3⟩
        · simp [VideoSimulcastConfig.Create, h1, h2, h3] at hc
      · simp [VideoSimulcastConfig.Create, h1, h2] at hc
    · simp [VideoSimulcastConfig.Create, h1] at hc

theorem handleEchoPathChange_set_initial_state {C : Aec3} (st : EchoRemoverImpl C)
    (v : EchoPathVariability) (sat : Bool) :
    (handleEchoPathChange st v sat).2.2 =
      if v.delay_change ≠ DelayAdjustment.kNone then [true] else [] := by
  unfold handleEchoPathChange
  simp only [gainChangeOncePerFrame_delay]
  by_cases hd : v.delay_change = DelayAdjustment.kNone
  · simp only [hd, ne_eq, not_true_eq_false, if_false]
    split_ifs <;> rfl
  · have ha : v.AudioPathChanged = true := by
      simp [EchoPathVariability.AudioPathChanged, hd]
    simp [ha, hd]

/-- The hangover counter after one returning `ProcessCapture`, in closed form. -/
theorem ProcessCapture_hangover {C : Aec3} (st : EchoRemoverImpl C) (v : EchoPathVariability)
    (sat : Bool) (d : Option C.DelayEstimate) (rb : C.RenderBuffer) (capture : Block)
    (r : Processed C) (h : ProcessCapture st v sat d rb capture = .ok r) :
    r.remover.gain_change_hangover_ =
      if v.gain_change = true ∧ st.gain_change_hangover_ = 0 then 2
      else if 0 < st.gain_change_hangover_ then st.gain_change_hangover_ - 1
      else st.gain_change_hangover_ := by
  rw [(ProcessCapture_event st v sat d rb capture r h).2]
  by_cases hg : v.gain_change = true
  · have ha : v.AudioPathChanged = true := by
      simp [EchoPathVariability.AudioPathChanged, hg]
    by_cases h0 : st.gain_change_hangover_ = 0
    · simp [ha, gainChangeOncePerFrame, hg, h0, kMaxBlocksPerFrame]
    · simp [ha, gainChangeOncePerFrame, hg, h0]
  · have hsame : (gainChangeOncePerFrame st.gain_change_hangover_ v).1
        = st.gain_change_hangover_ := by
      simp [gainChangeOncePerFrame, hg]
    have hn : ¬ (v.gain_change = true ∧ st.gain_change_hangover_ = 0) := fun hc => hg hc.1
    simp only [hsame, ite_self, if_neg hn]

/-- C19, the claim as stated fails: a gain change that arrives with the
hangover counter at 0 leaves the counter at 2 at the end of that block, not at
3: the counter is decremented on that block as well. -/
theorem hangover_after_gain_change_is_two :
    ∃ r, ProcessCapture (unitGainRemover false 16000 1 1)
        { gain_change := true, delay_change := DelayAdjustment.kNone } false none
        (monoBlock 0) (monoBlock 0) = .ok r ∧
      (unitGainRemover false 16000 1 1).gain_change_hangover_ = 0 ∧
      r.remover.gain_change_hangover_ = 2 ∧
      ¬ r.remover.gain_change_hangover_ = 3 := by
  refine ⟨_, rfl, rfl, rfl, ?_⟩
  decide

/-- C19, amended. The gain-change hangover counter is decremented at the end of
every block on which it is positive, whether or not the path-variability event
of the block signals a change: every block that passes the checks returns; a
gain change arriving with the counter at 0 sets the counter to 3 and leaves it
at 2 at the end of that block, and on every other block a positive counter goes
down by one and a counter that is not positive stays as it is. -/
theorem hangover_decremented_every_block {C : Aec3} (hC : C.ArraySizes)
    (st : EchoRemoverImpl C) (v : EchoPathVariability) (sat : Bool)
    (d : Option C.DelayEstimate) (rb : C.RenderBuffer) (capture : Block)
    (hg : CheckedGeometry st rb capture) :
    ∃ r, ProcessCapture st v sat d rb capture = .ok r ∧
      (v.gain_change = true → st.gain_change_hangover_ = 0 →
        (gainChangeOncePerFrame st.gain_change_hangover_ v).1 = 3 ∧
          r.remover.gain_change_hangover_ = 2) ∧
      (¬ (v.gain_change = true ∧ st.gain_change_hangover_ = 0) →
        0 < st.gain_change_hangover_ →
        r.remover.gain_change_hangover_ = st.gain_change_hangover_ - 1) ∧
      (¬ (v.gain_change = true ∧ st.gain_change_hangover_ = 0) →
        ¬ 0 < st.gain_change_hangover_ →
        r.remover.gain_change_hangover_ = st.gain_change_hangover_) := by
  obtain ⟨r, hr⟩ := ProcessCapture_returns hC st v sat d rb capture hg
  have hk := ProcessCapture_hangover st v sat d rb capture r hr
  refine ⟨r, hr, ?_, ?_, ?_⟩
  · intro h1 h2
    refine ⟨by simp [gainChangeOncePerFrame, h1, h2, kMaxBlocksPerFrame], ?_⟩
    rw [hk, if_pos ⟨h1, h2⟩]
  · intro h1 h2
    rw [hk, if_neg h1, if_pos h2]
  · intro h1 h2
    rw [hk, if_neg h1, if_neg h2]

/-- Witness of C19: the first gain change on a fresh mono remover. -/
theorem hangover_decremented_every_block_witness :
    ∃ r, ProcessCapture (unitGainRemover false 16000 1 1)
        { gain_change := true, delay_change := DelayAdjustment.kNone } false none
        (monoBlock 0) (monoBlock 0) = .ok r ∧
      r.remover.gain_change_hangover_ = 2 := by
  obtain ⟨r, hr, h, _⟩ :=
    hangover_decremented_every_block unitGain_arraySizes (unitGainRemover false 16000 1 1)
      { gain_change := true, delay_change := DelayAdjustment.kNone } false none
      (monoBlock 0) (monoBlock 0)
      (by simp [CheckedGeometry, unitGain, unitGainRemover, monoBlock, constantSignal])
  exact ⟨r, hr, (h rfl rfl).2⟩

/-- The `SetInitialState` calls of a returning `ProcessCapture`, and the event
it forwards. -/
theorem ProcessCapture_initial_state {C : Aec3} (st : EchoRemoverImpl C)
    (v : EchoPathVariability) (sat : Bool) (d : Option C.DelayEstimate)
    (rb : C.RenderBuffer) (capture : Block)
    (r : Processed C) (h : ProcessCapture st v sat d rb capture = .ok r) :
    r.locals.set_initial_state =
      (if v.delay_change ≠ DelayAdjustment.kNone then [true] else []) ++
        (if r.locals.exit_initial_state then [false] else []) := by
  obtain ⟨_, h⟩ := (ProcessCapture_eq_ok_iff st v sat d rb capture r).1 h
  obtain ⟨changed, subtracted, formed, analyzed, y0_linear, rfl, rfl, _, _, _, _, _, _,
    _, hsi, hex, _⟩ := processChecked_inv _ v sat d rb _ capture r h
  rw [hsi, hex, handleEchoPathChange_set_initial_state]

theorem handleEchoPathChange_leakage {C : Aec3} (st : EchoRemoverImpl C) (b : Bool)
    (v : EchoPathVariability) (sat : Bool) :
    handleEchoPathChange (UpdateEchoLeakageStatus st b) v sat =
      (UpdateEchoLeakageStatus (handleEchoPathChange st v sat).1 b,
        (handleEchoPathChange st v sat).2) := by
  unfold handleEchoPathChange UpdateEchoLeakageStatus
  simp only
  split_ifs <;> rfl

theorem analyzeAndSubtract_leakage {C : Aec3} (st : EchoRemoverImpl C) (b : Bool)
    (rb : C.RenderBuffer) (y0 : List ℚ) :
    analyzeAndSubtract (UpdateEchoLeakageStatus st b) rb y0 =
      (UpdateEchoLeakageStatus (analyzeAndSubtract st rb y0).1 b,
        (analyzeAndSubtract st rb y0).2) := by
  unfold analyzeAndSubtract UpdateEchoLeakageStatus
  simp only
  split_ifs <;> rfl

theorem FormLinearFilterOutput_leakage {C : Aec3} (st : EchoRemoverImpl C) (b : Bool)
    (o : SubtractorOutput) (output : List ℚ) :
    FormLinearFilterOutput (UpdateEchoLeakageStatus st b) o output =
      match FormLinearFilterOutput st o output with
      | .error f => .error f
      | .ok formed => .ok (UpdateEchoLeakageStatus formed.1 b, formed.2) := by
  unfold FormLinearFilterOutput UpdateEchoLeakageStatus
  simp only
  split_ifs
  all_goals first
    | rfl
    | (cases SignalTransition o.e_shadow o.e_main output <;> rfl)
    | (cases SignalTransition o.e_main o.e_shadow output <;> rfl)

theorem computeSpectra_leakage {C : Aec3} (st : EchoRemoverImpl C) (b : Bool)
    (d : Option C.DelayEstimate) (rb : C.RenderBuffer) (y0 e : List ℚ)
    (o : SubtractorOutput) :
    computeSpectra (UpdateEchoLeakageStatus st b) d rb y0 e o =
      (UpdateEchoLeakageStatus (computeSpectra st d rb y0 e o).1 b,
        (computeSpectra st d rb y0 e o).2) := by
  rfl

theorem suppress_leakage {C : Aec3} (st : EchoRemoverImpl C) (b : Bool)
    (rb : C.RenderBuffer) (x : Block) (sp : Spectra) (y : Block) :
    suppress (UpdateEchoLeakageStatus st b) rb x sp y =
      (UpdateEchoLeakageStatus (suppress st rb x sp y).1 b, (suppress st rb x sp y).2) := by
  rfl

theorem processChecked_leakage {C : Aec3} (st : EchoRemoverImpl C) (b : Bool)
    (v : EchoPathVariability) (sat : Bool) (d : Option C.DelayEstimate)
    (rb : C.RenderBuffer) (x y : Block) :
    processChecked (UpdateEchoLeakageStatus st b) v sat d rb x y =
      match processChecked st v sat d rb x y with
      | .error f => .error f
      | .ok r => .ok { r with remover := UpdateEchoLeakageStatus r.remover b } := by
  unfold processChecked
  simp only [handleEchoPathChange_leakage, analyzeAndSubtract_leakage,
    FormLinearFilterOutput_leakage]
  generalize FormLinearFilterOutput _ _ (List.replicate C.kBlockSize 0) = formed
  cases formed with
  | error f => rfl
  | ok formed =>
    simp only [computeSpectra_leakage]
    have ha : ∀ s : EchoRemoverImpl C, (UpdateEchoLeakageStatus s b).aec_state_ = s.aec_state_ :=
      fun _ => rfl
    have hl : ∀ s : EchoRemoverImpl C,
        (UpdateEchoLeakageStatus s b).linear_filter_output_last_selected_
          = s.linear_filter_output_last_selected_ := fun _ => rfl
    simp only [ha, hl]
    generalize chooseLinearOutput _ _ _ formed.2 = chosen
    cases chosen with
    | error f => rfl
    | ok y0_linear => rfl

theorem ProcessCapture_leakage {C : Aec3} (st : EchoRemoverImpl C) (b : Bool)
    (v : EchoPathVariability) (sat : Bool) (d : Option C.DelayEstimate)
    (rb : C.RenderBuffer) (capture : Block) :
    ProcessCapture (UpdateEchoLeakageStatus st b) v sat d rb capture =
      match ProcessCapture st v sat d rb capture with
      | .error f => .error f
      | .ok r => .ok { r with remover := UpdateEchoLeakageStatus r.remover b } := by
  have hp := processChecked_leakage { st with block_counter_ := st.block_counter_ + 1 } b
    v sat d rb (C.RenderBuffer_Block rb 0) capture
  have h1 : (UpdateEchoLeakageStatus st b).sample_rate_hz_ = st.sample_rate_hz_ := rfl
  have h2 : (UpdateEchoLeakageStatus st b).num_render_channels_ = st.num_render_channels_ := rfl
  have h3 : (UpdateEchoLeakageStatus st b).num_capture_channels_
      = st.num_capture_channels_ := rfl
  unfold ProcessCapture
  simp only [h1, h2, h3]
  split_ifs
  · rfl
  · rfl
  · rfl
  · rfl
  · rfl
  · rfl
  · exact hp

theorem stages_keep_leakage {C : Aec3} (st : EchoRemoverImpl C) :
    (∀ v sat, (handleEchoPathChange st v sat).1.echo_leakage_detected_
      = st.echo_leakage_detected_) ∧
    (∀ rb y0, (analyzeAndSubtract st rb y0).1.echo_leakage_detected_
      = st.echo_leakage_detected_) ∧
    (∀ d rb y0 e o, (computeSpectra st d rb y0 e o).1.echo_leakage_detected_
      = st.echo_leakage_detected_) ∧
    (∀ rb x sp y, (suppress st rb x sp y).1.echo_leakage_detected_
      = st.echo_leakage_detected_) := by
  refine ⟨?_, ?_, fun _ _ _ _ _ => rfl, fun _ _ _ _ => rfl⟩
  · intro v sat
    unfold handleEchoPathChange
    simp only
    split_ifs <;> rfl
  · intro rb y0
    unfold analyzeAndSubtract
    simp only
    split_ifs <;> rfl

theorem ProcessCapture_keeps_leakage {C : Aec3} (st : EchoRemoverImpl C)
    (v : EchoPathVariability) (sat : Bool) (d : Option C.DelayEstimate)
    (rb : C.RenderBuffer) (capture : Block)
    (r : Processed C) (h : ProcessCapture st v sat d rb capture = .ok r) :
    r.remover.echo_leakage_detected_ = st.echo_leakage_detected_ := by
  obtain ⟨_, h⟩ := (ProcessCapture_eq_ok_iff st v sat d rb capture r).1 h
  obtain ⟨changed, subtracted, formed, analyzed, y0_linear, rfl, rfl, hf, rfl, _, hr, _⟩ :=
    processChecked_inv _ v sat d rb _ capture r h
  have hs := FormLinearFilterOutput_state _ _ _ _ hf
  rw [hr, (stages_keep_leakage _).2.2.2, (stages_keep_leakage formed.1).2.2.1, hs,
    (stages_keep_leakage _).2.1, (stages_keep_leakage _).1]

/-- C13. `UpdateEchoLeakageStatus(d)` sets the echo-leakage flag to `d` and
changes no other field of the remover; and `ProcessCapture` never reads the
flag: on two removers that differ only in the flag and on the same inputs it
fails alike or returns the same capture block, the same locals and the same
remover apart from the flag, which it leaves as it found it. -/
theorem echo_leakage_flag_not_read {C : Aec3} (st : EchoRemoverImpl C) (b : Bool)
    (v : EchoPathVariability) (sat : Bool) (d : Option C.DelayEstimate)
    (rb : C.RenderBuffer) (capture : Block) :
    (UpdateEchoLeakageStatus st b).echo_leakage_detected_ = b ∧
    UpdateEchoLeakageStatus st b = { st with echo_leakage_detected_ := b } ∧
    UpdateEchoLeakageStatus (UpdateEchoLeakageStatus st b) st.echo_leakage_detected_ = st ∧
    ProcessCapture (UpdateEchoLeakageStatus st b) v sat d rb capture =
      (match ProcessCapture st v sat d rb capture with
        | .error f => .error f
        | .ok r => .ok { remover := UpdateEchoLeakageStatus r.remover b
                         capture := r.capture
                         locals := r.locals }) ∧
    (∀ r, ProcessCapture st v sat d rb capture = .ok r →
      r.remover.echo_leakage_detected_ = st.echo_leakage_detected_) :=
  ⟨rfl, rfl, rfl, ProcessCapture_leakage st b v sat d rb capture,
    ProcessCapture_keeps_leakage st v sat d rb capture⟩


theorem stages_keep_olds {C : Aec3} (st : EchoRemoverImpl C) :
    (∀ v sat, (handleEchoPathChange st v sat).1.y_old_ = st.y_old_ ∧
      (handleEchoPathChange st v sat).1.e_old_ = st.e_old_) ∧
    (∀ rb y0, (analyzeAndSubtract st rb y0).1.y_old_ = st.y_old_ ∧
      (analyzeAndSubtract st rb y0).1.e_old_ = st.e_old_) := by
  refine ⟨?_, ?_⟩
  · intro v sat
    unfold handleEchoPathChange
    simp only
    split_ifs <;> exact ⟨rfl, rfl⟩
  · intro rb y0
    unfold analyzeAndSubtract
    simp only
    split_ifs <;> exact ⟨rfl, rfl⟩

/-- The spectra of a returning `ProcessCapture` and the overlap tails it
leaves. -/
theorem ProcessCapture_spectra {C : Aec3} (st : EchoRemoverImpl C)
    (v : EchoPathVariability) (sat : Bool) (d : Option C.DelayEstimate)
    (rb : C.RenderBuffer) (capture : Block)
    (r : Processed C) (h : ProcessCapture st v sat d rb capture = .ok r) :
    r.locals.spectra.Y = C.PaddedFft ((capture.getD 0 []).getD 0 []) st.y_old_ ∧
    r.locals.spectra.E = C.PaddedFft r.locals.e st.e_old_ ∧
    r.locals.spectra.S2_linear = LinearEchoPower r.locals.spectra.E r.locals.spectra.Y ∧
    r.locals.spectra.Y2 = C.Spectrum r.locals.spectra.Y ∧
    r.locals.spectra.E2 = C.Spectrum r.locals.spectra.E ∧
    r.remover.y_old_ = std_copy ((capture.getD 0 []).getD 0 []) st.y_old_ ∧
    r.remover.e_old_ = std_copy r.locals.e st.e_old_ := by
  obtain ⟨_, h⟩ := (ProcessCapture_eq_ok_iff st v sat d rb capture r).1 h
  obtain ⟨changed, subtracted, formed, analyzed, y0_linear, rfl, rfl, hf, rfl, _, hr, _, _,
    _, _, _, _, _, he, hsp, _⟩ := processChecked_inv _ v sat d rb _ capture r h
  have hs := FormLinearFilterOutput_state _ _ _ _ hf
  have hy : formed.1.y_old_ = st.y_old_ := by
    rw [hs]
    simp only [(stages_keep_olds _).2, (stages_keep_olds _).1]
  have hE : formed.1.e_old_ = st.e_old_ := by
    rw [hs]
    simp only [(stages_keep_olds _).2, (stages_keep_olds _).1]
  rw [hsp, hr, he]
  simp only [computeSpectra, suppress, WindowedPaddedFft, hy, hE, and_self]

/-- The inputs of the suppressor in a returning `ProcessCapture`: what it hands
to `GetGain` and to `ApplyGain`. -/
theorem ProcessCapture_suppression {C : Aec3} (st : EchoRemoverImpl C)
    (v : EchoPathVariability) (sat : Bool) (d : Option C.DelayEstimate)
    (rb : C.RenderBuffer) (capture : Block)
    (r : Processed C) (h : ProcessCapture st v sat d rb capture = .ok r) :
    r.locals.suppression.Y_fft =
      (if r.locals.use_linear_filter_output then r.locals.spectra.E
        else r.locals.spectra.Y) ∧
    r.locals.suppression.echo_spectrum =
      (if C.AecState_UsableLinearEstimate r.remover.aec_state_ then r.locals.spectra.S2_linear
        else r.locals.suppression.R2) ∧
    r.locals.suppression.nearend_spectrum =
      (if C.AecState_UsableLinearEstimate r.remover.aec_state_
        then List.zipWith min r.locals.spectra.E2 r.locals.spectra.Y2
        else r.locals.spectra.Y2) ∧
    (∃ ree, r.locals.suppression.R2 =
      (C.ResidualEchoEstimator_Estimate ree r.remover.aec_state_ rb
        r.locals.spectra.S2_linear r.locals.spectra.Y2).2) ∧
    (∃ sg noise rsa, (r.locals.suppression.high_bands_gain, r.locals.suppression.G) =
      (C.SuppressionGain_GetGain sg r.locals.suppression.nearend_spectrum
        r.locals.suppression.echo_spectrum r.locals.suppression.R2 noise rsa
        r.remover.aec_state_ (C.RenderBuffer_Block rb 0)).2) ∧
    (∃ sf cn hbcn, r.capture =
      (C.SuppressionFilter_ApplyGain sf cn hbcn r.locals.suppression.G
        r.locals.suppression.high_bands_gain r.locals.suppression.Y_fft
        r.locals.y_before_gain).2) := by
  obtain ⟨_, h⟩ := (ProcessCapture_eq_ok_iff st v sat d rb capture r).1 h
  obtain ⟨changed, subtracted, formed, analyzed, y0_linear, rfl, rfl, hf, rfl, _, hr, hcap,
    hsup, _, _, _, _, _, _, hsp, hu, _, hyb⟩ := processChecked_inv _ v sat d rb _ capture r h
  rw [hsup, hsp, hu, hr, hcap, hyb]
  unfold suppress
  exact ⟨rfl, rfl, rfl, ⟨_, rfl⟩, ⟨_, _, _, rfl⟩, ⟨_, _, _, rfl⟩⟩


theorem zipWith_min_getD (l1 l2 : List ℚ) (k : Nat) (h1 : k < l1.length)
    (h2 : k < l2.length) :
    (List.zipWith min l1 l2).getD k 0 = min (l1.getD k 0) (l2.getD k 0) := by
  simp [List.getD_eq_getElem?_getD, List.getElem?_zipWith, List.getElem?_eq_getElem, h1, h2]

theorem zipWith_min_le (l1 l2 : List ℚ) (k : Nat) (hk : k < (List.zipWith min l1 l2).length) :
    (List.zipWith min l1 l2).getD k 0 ≤ l2.getD k 0 := by
  have h : k < l1.length ∧ k < l2.length := by
    simpa using hk
  rw [zipWith_min_getD l1 l2 k h.1 h.2]
  exact min_le_right _ _

/-- C17. Every block that passes the checks returns, and the inputs that
`ProcessCapture` hands to `SuppressionGain::GetGain` are chosen by
`AecState::UsableLinearEstimate()`: when it is true the echo-power input is the
linear echo power `S2_linear` (the `LinearEchoPower` of `E` and `Y`) and the
near-end input is, in every bin, the minimum of `E2` and `Y2`; when it is false
the echo-power input is the residual estimate `R2` and the near-end input is the
capture power `Y2`. In both cases the near-end input does not exceed `Y2` in any
bin. -/
theorem GetGain_inputs {C : Aec3} (hC : C.ArraySizes)
    (st : EchoRemoverImpl C) (v : EchoPathVariability) (sat : Bool)
    (d : Option C.DelayEstimate) (rb : C.RenderBuffer) (capture : Block)
    (hg : CheckedGeometry st rb capture) :
    ∃ r, ProcessCapture st v sat d rb capture = .ok r ∧
      (∃ sg noise rsa, (r.locals.suppression.high_bands_gain, r.locals.suppression.G) =
        (C.SuppressionGain_GetGain sg r.locals.suppression.nearend_spectrum
          r.locals.suppression.echo_spectrum r.locals.suppression.R2 noise rsa
          r.remover.aec_state_ (C.RenderBuffer_Block rb 0)).2) ∧
      (∃ ree, r.locals.suppression.R2 =
        (C.ResidualEchoEstimator_Estimate ree r.remover.aec_state_ rb
          r.locals.spectra.S2_linear r.locals.spectra.Y2).2) ∧
      r.locals.spectra.S2_linear = LinearEchoPower r.locals.spectra.E r.locals.spectra.Y ∧
      (C.AecState_UsableLinearEstimate r.remover.aec_state_ = true →
        r.locals.suppression.echo_spectrum = r.locals.spectra.S2_linear ∧
        r.locals.suppression.nearend_spectrum
          = List.zipWith min r.locals.spectra.E2 r.locals.spectra.Y2 ∧
        ∀ k, k < r.locals.spectra.E2.length → k < r.locals.spectra.Y2.length →
          r.locals.suppression.nearend_spectrum.getD k 0
            = min (r.locals.spectra.E2.getD k 0) (r.locals.spectra.Y2.getD k 0)) ∧
      (C.AecState_UsableLinearEstimate r.remover.aec_state_ = false →
        r.locals.suppression.echo_spectrum = r.locals.suppression.R2 ∧
        r.locals.suppression.nearend_spectrum = r.locals.spectra.Y2) ∧
      (∀ k, k < r.locals.suppression.nearend_spectrum.length →
        r.locals.suppression.nearend_spectrum.getD k 0 ≤ r.locals.spectra.Y2.getD k 0) := by
  obtain ⟨r, hr⟩ := ProcessCapture_returns hC st v sat d rb capture hg
  obtain ⟨_, hecho, hnear, hR2, hgain, _⟩ := ProcessCapture_suppression st v sat d rb capture r hr
  obtain ⟨_, _, hS2, _⟩ := ProcessCapture_spectra st v sat d rb capture r hr
  refine ⟨r, hr, hgain, hR2, hS2, ?_, ?_, ?_⟩
  · intro hu
    rw [hu] at hecho hnear
    refine ⟨hecho, hnear, ?_⟩
    intro k h1 h2
    rw [hnear]
    exact zipWith_min_getD _ _ k h1 h2
  · intro hu
    rw [hu] at hecho hnear
    exact ⟨hecho, hnear⟩
  · intro k hk
    cases hu : C.AecState_UsableLinearEstimate r.remover.aec_state_
    · rw [hu] at hnear
      rw [show r.locals.suppression.nearend_spectrum = r.locals.spectra.Y2 from hnear]
    · rw [hu] at hnear
      have hnear' : r.locals.suppression.nearend_spectrum
          = List.zipWith min r.locals.spectra.E2 r.locals.spectra.Y2 := hnear
      rw [hnear'] at hk ⊢
      exact zipWith_min_le _ _ k hk

/-- Witness of C17: a block on a fresh mono remover whose AEC state reports a
usable linear estimate. -/
theorem GetGain_inputs_witness :
    ∃ r, ProcessCapture (unitGainRemover false 16000 1 1) noChange false none
        (monoBlock 0) (monoBlock 1) = .ok r ∧
      r.locals.suppression.echo_spectrum = r.locals.spectra.S2_linear ∧
      r.locals.suppression.nearend_spectrum
        = List.zipWith min r.locals.spectra.E2 r.locals.spectra.Y2 := by
  obtain ⟨r, hr, _, _, _, husable, _⟩ :=
    GetGain_inputs unitGain_arraySizes (unitGainRemover false 16000 1 1) noChange false none
      (monoBlock 0) (monoBlock 1)
      (by simp [CheckedGeometry, unitGain, unitGainRemover, monoBlock, constantSignal])
  have h := husable rfl
  exact ⟨r, hr, h.1, h.2.1⟩

/-- C18. Every block that passes the checks returns, and the spectrum that
`ProcessCapture` passes to `SuppressionFilter::ApplyGain` is the spectrum `E` of
this block's formed linear output exactly when the flag persisted by the path
selection of this block is true, and the spectrum `Y` of the caller's capture
samples otherwise. -/
theorem ApplyGain_spectrum {C : Aec3} (hC : C.ArraySizes)
    (st : EchoRemoverImpl C) (v : EchoPathVariability) (sat : Bool)
    (d : Option C.DelayEstimate) (rb : C.RenderBuffer) (capture : Block)
    (hg : CheckedGeometry st rb capture) :
    ∃ r, ProcessCapture st v sat d rb capture = .ok r ∧
      (∃ sf cn hbcn, r.capture =
        (C.SuppressionFilter_ApplyGain sf cn hbcn r.locals.suppression.G
          r.locals.suppression.high_bands_gain r.locals.suppression.Y_fft
          r.locals.y_before_gain).2) ∧
      r.locals.spectra.E = (WindowedPaddedFft C r.locals.e st.e_old_).1 ∧
      r.locals.spectra.Y
        = (WindowedPaddedFft C ((capture.getD 0 []).getD 0 []) st.y_old_).1 ∧
      (r.remover.linear_filter_output_last_selected_ = true →
        r.locals.suppression.Y_fft = r.locals.spectra.E) ∧
      (r.remover.linear_filter_output_last_selected_ = false →
        r.locals.suppression.Y_fft = r.locals.spectra.Y) := by
  obtain ⟨r, hr⟩ := ProcessCapture_returns hC st v sat d rb capture hg
  obtain ⟨hY, _, _, _, _, happly⟩ := ProcessCapture_suppression st v sat d rb capture r hr
  obtain ⟨hsY, hsE, _⟩ := ProcessCapture_spectra st v sat d rb capture r hr
  obtain ⟨_, _, hflag, _⟩ := ProcessCapture_selection st v sat d rb capture r hr
  refine ⟨r, hr, happly, hsE, hsY, ?_, ?_⟩
  · intro h
    rw [hflag] at h
    rw [hY, h]
    rfl
  · intro h
    rw [hflag] at h
    rw [hY, h]
    rfl

/-- Witness of C18: a block on a fresh mono remover whose AEC state selects the
linear output. -/
theorem ApplyGain_spectrum_witness :
    ∃ r, ProcessCapture (unitGainRemover false 16000 1 1) noChange false none
        (monoBlock 0) (monoBlock 1) = .ok r ∧
      r.locals.suppression.Y_fft = r.locals.spectra.E := by
  obtain ⟨r, hr, _, _, _, hE, _⟩ :=
    ApplyGain_spectrum unitGain_arraySizes (unitGainRemover false 16000 1 1) noChange false none
      (monoBlock 0) (monoBlock 1)
      (by simp [CheckedGeometry, unitGain, unitGainRemover, monoBlock, constantSignal])
  obtain ⟨_, hu, hflag, _⟩ := ProcessCapture_selection _ _ _ _ _ _ r hr
  exact ⟨r, hr, hE (hflag.trans hu)⟩

theorem ProcessCaptureCalls_cons_ok {C : Aec3} (st : EchoRemoverImpl C) (c : CaptureCall C)
    (cs : List (CaptureCall C)) (rs : List (Processed C)) :
    ProcessCaptureCalls st (c :: cs) = .ok rs ↔
      ∃ r rs', ProcessCapture st c.echo_path_variability c.capture_signal_saturation
          c.external_delay c.render_buffer c.capture = .ok r ∧
        ProcessCaptureCalls r.remover cs = .ok rs' ∧ rs = r :: rs' := by
  cases h1 : ProcessCapture st c.echo_path_variability c.capture_signal_saturation
      c.external_delay c.render_buffer c.capture with
  | error f => simp [ProcessCaptureCalls, h1]
  | ok r =>
    cases h2 : ProcessCaptureCalls r.remover cs with
    | error f =>
      constructor
      · intro h
        simp [ProcessCaptureCalls, h1, h2] at h
      · rintro ⟨r', rs', hr', hrs', _⟩
        cases hr'
        rw [h2] at hrs'
        cases hrs'
    | ok rs' =>
      constructor
      · intro h
        simp only [ProcessCaptureCalls, h1, h2, Except.ok.injEq] at h
        exact ⟨r, rs', rfl, h2, h.symm⟩
      · rintro ⟨r', rs'', hr', hrs'', rfl⟩
        cases hr'
        rw [h2] at hrs''
        cases hrs''
        simp [ProcessCaptureCalls, h1, h2]

/-- A run of blocks that all pass the checks returns, one result per block. -/
theorem ProcessCaptureCalls_returns {C : Aec3} (hC : C.ArraySizes)
    (calls : List (CaptureCall C)) :
    ∀ st : EchoRemoverImpl C,
      (∀ c ∈ calls, CheckedGeometry st c.render_buffer c.capture) →
      ∃ rs, ProcessCaptureCalls st calls = .ok rs ∧ rs.length = calls.length := by
  induction calls with
  | nil =>
    intro st _
    exact ⟨[], rfl, rfl⟩
  | cons c cs ih =>
    intro st hgeo
    obtain ⟨r, hr⟩ := ProcessCapture_returns hC st c.echo_path_variability
      c.capture_signal_saturation c.external_delay c.render_buffer c.capture
      (hgeo c (List.mem_cons_self c cs))
    obtain ⟨f1, f2, f3, _⟩ := ProcessCapture_frame _ _ _ _ _ _ _ hr
    obtain ⟨rs, hrs, hlen⟩ := ih r.remover (fun c' hc' =>
      (CheckedGeometry_congr st r.remover f1 f2 f3 _ _).2
        (hgeo c' (List.mem_cons_of_mem c hc')))
    exact ⟨r :: rs, (ProcessCaptureCalls_cons_ok st c cs _).2 ⟨r, rs, hr, hrs, rfl⟩,
      by simp [hlen]⟩

/-- A returning `ProcessCapture` acts on a gain change exactly when one is
reported and the hangover counter is 0 on entry. -/
theorem ProcessCapture_acted {C : Aec3} (st : EchoRemoverImpl C) (v : EchoPathVariability)
    (sat : Bool) (d : Option C.DelayEstimate) (rb : C.RenderBuffer) (capture : Block)
    (r : Processed C) (h : ProcessCapture st v sat d rb capture = .ok r) :
    r.gain_change_acted_on = true ↔
      (v.gain_change = true ∧ st.gain_change_hangover_ = 0) := by
  unfold Processed.gain_change_acted_on
  rw [(ProcessCapture_event st v sat d rb capture r h).1]
  by_cases hg : v.gain_change = true
  · have ha : v.AudioPathChanged = true := by
      simp [EchoPathVariability.AudioPathChanged, hg]
    by_cases h0 : st.gain_change_hangover_ = 0
    · simp [ha, gainChangeOncePerFrame, hg, h0]
    · simp [ha, gainChangeOncePerFrame, hg, h0]
  · by_cases ha : v.AudioPathChanged = true
    · simp [ha, gainChangeOncePerFrame, hg]
    · simp [ha, hg]


/-- Along a returning run that starts with the hangover counter in {0, 1, 2},
the counter is in {0, 1, 2} after every call. -/
theorem hangover_stays_bounded {C : Aec3} (calls : List (CaptureCall C)) :
    ∀ (st : EchoRemoverImpl C) (rs : List (Processed C)),
      ProcessCaptureCalls st calls = .ok rs →
      (0 ≤ st.gain_change_hangover_ ∧ st.gain_change_hangover_ ≤ 2) →
      ∀ r ∈ rs, 0 ≤ r.remover.gain_change_hangover_ ∧ r.remover.gain_change_hangover_ ≤ 2 := by
  induction calls with
  | nil =>
    intro st rs hrun _ r hr
    cases hrun
    simp at hr
  | cons c cs ih =>
    intro st rs hrun hinv r hr
    obtain ⟨r0, rs', h0, hrs', rfl⟩ := (ProcessCaptureCalls_cons_ok st c cs rs).1 hrun
    have hk := ProcessCapture_hangover _ _ _ _ _ _ _ h0
    have hinv0 : 0 ≤ r0.remover.gain_change_hangover_ ∧ r0.remover.gain_change_hangover_ ≤ 2 := by
      rw [hk]
      split_ifs <;> constructor <;> omega
    rcases List.mem_cons.1 hr with h | h
    · rw [h]
      exact hinv0
    · exact ih r0.remover rs' hrs' hinv0 r h

/-- Along a returning run, which call acts on a gain change: the first one when
it reports a gain change and the counter is 0 on entry, a later one when it
reports a gain change and the call before it left the counter at 0. -/
theorem acted_iff_counter_zero {C : Aec3} (calls : List (CaptureCall C)) :
    ∀ (st : EchoRemoverImpl C) (rs : List (Processed C)),
      ProcessCaptureCalls st calls = .ok rs →
      (∀ c r, calls[0]? = some c → rs[0]? = some r →
        (r.gain_change_acted_on = true ↔
          (c.echo_path_variability.gain_change = true ∧ st.gain_change_hangover_ = 0))) ∧
      (∀ i p c r, rs[i]? = some p → calls[i + 1]? = some c → rs[i + 1]? = some r →
        (r.gain_change_acted_on = true ↔
          (c.echo_path_variability.gain_change = true ∧
            p.remover.gain_change_hangover_ = 0))) := by
  induction calls with
  | nil =>
    intro st rs hrun
    cases hrun
    simp
  | cons c cs ih =>
    intro st rs hrun
    obtain ⟨r0, rs', h0, hrs', rfl⟩ := (ProcessCaptureCalls_cons_ok st c cs rs).1 hrun
    obtain ⟨ih0, ihs⟩ := ih r0.remover rs' hrs'
    constructor
    · intro c' r hc hr
      simp only [List.getElem?_cons_zero, Option.some.injEq] at hc hr
      rw [← hc, ← hr]
      exact ProcessCapture_acted _ _ _ _ _ _ _ h0
    · intro i p c' r hp hc hr
      simp only [List.getElem?_cons_succ] at hc hr
      cases i with
      | zero =>
        simp only [List.getElem?_cons_zero, Option.some.injEq] at hp
        rw [← hp]
        exact ih0 c' r hc hr
      | succ i =>
        simp only [List.getElem?_cons_succ] at hp
        exact ihs i p c' r hp hc hr

/-- Along a returning run, no call acts on a gain change before as many calls
have passed as the counter holds on entry. -/
theorem acted_after_countdown {C : Aec3} (calls : List (CaptureCall C)) :
    ∀ (st : EchoRemoverImpl C) (rs : List (Processed C)),
      ProcessCaptureCalls st calls = .ok rs →
      ∀ (j : Nat) (r : Processed C), rs[j]? = some r → r.gain_change_acted_on = true →
        st.gain_change_hangover_ ≤ (j : Int) := by
  induction calls with
  | nil =>
    intro st rs hrun j r hr
    cases hrun
    simp at hr
  | cons c cs ih =>
    intro st rs hrun j r hr hact
    obtain ⟨r0, rs', h0, hrs', rfl⟩ := (ProcessCaptureCalls_cons_ok st c cs rs).1 hrun
    cases j with
    | zero =>
      simp only [List.getElem?_cons_zero, Option.some.injEq] at hr
      rw [← hr] at hact
      have := ((ProcessCapture_acted _ _ _ _ _ _ _ h0).1 hact).2
      rw [this]
      simp
    | succ j =>
      simp only [List.getElem?_cons_succ] at hr
      have hj := ih r0.remover rs' hrs' j r hr hact
      have hk := ProcessCapture_hangover _ _ _ _ _ _ _ h0
      rw [hk] at hj
      push_cast
      split_ifs at hj <;> omega

/-- Along a returning run, two calls that act on a gain change are at least
three calls apart. -/
theorem acted_three_apart {C : Aec3} (calls : List (CaptureCall C)) :
    ∀ (st : EchoRemoverImpl C) (rs : List (Processed C)),
      ProcessCaptureCalls st calls = .ok rs →
      ∀ (i j : Nat) (ri rj : Processed C), i < j → rs[i]? = some ri → rs[j]? = some rj →
        ri.gain_change_acted_on = true → rj.gain_change_acted_on = true → i + 3 ≤ j := by
  induction calls with
  | nil =>
    intro st rs hrun i j ri rj _ hi
    cases hrun
    simp at hi
  | cons c cs ih =>
    intro st rs hrun i j ri rj hij hi hj hai haj
    obtain ⟨r0, rs', h0, hrs', rfl⟩ := (ProcessCaptureCalls_cons_ok st c cs rs).1 hrun
    cases j with
    | zero => omega
    | succ j =>
      simp only [List.getElem?_cons_succ] at hj
      cases i with
      | zero =>
        simp only [List.getElem?_cons_zero, Option.some.injEq] at hi
        rw [← hi] at hai
        have hz := (ProcessCapture_acted _ _ _ _ _ _ _ h0).1 hai
        have hk := ProcessCapture_hangover _ _ _ _ _ _ _ h0
        rw [if_pos hz] at hk
        have hle := acted_after_countdown cs r0.remover rs' hrs' j rj hj haj
        rw [hk] at hle
        omega
      | succ i =>
        simp only [List.getElem?_cons_succ] at hi
        have := ih r0.remover rs' hrs' i j ri rj (by omega) hi hj hai haj
        omega

/-- Along a returning run in which every call reports a gain change and which
starts with the counter in {0, 1, 2}, call `i` acts on the gain change exactly
when `i` is the entry counter modulo 3. -/
theorem acted_every_third {C : Aec3} (calls : List (CaptureCall C)) :
    ∀ (st : EchoRemoverImpl C) (rs : List (Processed C)),
      ProcessCaptureCalls st calls = .ok rs →
      (0 ≤ st.gain_change_hangover_ ∧ st.gain_change_hangover_ ≤ 2) →
      (∀ c ∈ calls, c.echo_path_variability.gain_change = true) →
      ∀ (i : Nat) (r : Processed C), rs[i]? = some r →
        (r.gain_change_acted_on = true ↔ ((i % 3 : Nat) : Int) = st.gain_change_hangover_) := by
  induction calls with
  | nil =>
    intro st rs hrun _ _ i r hr
    cases hrun
    simp at hr
  | cons c cs ih =>
    intro st rs hrun hinv hall i r hr
    obtain ⟨r0, rs', h0, hrs', rfl⟩ := (ProcessCaptureCalls_cons_ok st c cs rs).1 hrun
    have hc : c.echo_path_variability.gain_change = true := hall c (List.mem_cons_self c cs)
    have hk := ProcessCapture_hangover _ _ _ _ _ _ _ h0
    cases i with
    | zero =>
      simp only [List.getElem?_cons_zero, Option.some.injEq] at hr
      rw [← hr, ProcessCapture_acted _ _ _ _ _ _ _ h0]
      simp only [hc, true_and, Nat.zero_mod, Nat.cast_zero]
      exact eq_comm
    | succ i =>
      simp only [List.getElem?_cons_succ] at hr
      have hinv0 : 0 ≤ r0.remover.gain_change_hangover_ ∧
          r0.remover.gain_change_hangover_ ≤ 2 := by
        rw [hk]
        split_ifs <;> constructor <;> omega
      have h := ih r0.remover rs' hrs' hinv0
        (fun c' hc' => hall c' (List.mem_cons_of_mem c hc')) i r hr
      rw [h, hk]
      simp only [hc, true_and]
      split_ifs <;> omega


theorem handleEchoPathChange_collaborators {C : Aec3} (st : EchoRemoverImpl C)
    (v : EchoPathVariability) (sat : Bool) :
    (handleEchoPathChange st v sat).1.aec_state_ =
      (match (handleEchoPathChange st v sat).2.1 with
        | some ev => C.AecState_HandleEchoPathChange
            (C.AecState_UpdateCaptureSaturation st.aec_state_ sat) ev
        | none => C.AecState_UpdateCaptureSaturation st.aec_state_ sat) ∧
    (handleEchoPathChange st v sat).1.subtractor_ =
      (match (handleEchoPathChange st v sat).2.1 with
        | some ev => C.Subtractor_HandleEchoPathChange st.subtractor_ ev
        | none => st.subtractor_) ∧
    (handleEchoPathChange st v sat).1.suppression_gain_ =
      (handleEchoPathChange st v sat).2.2.foldl C.SuppressionGain_SetInitialState
        st.suppression_gain_ ∧
    (handleEchoPathChange st v sat).1.render_signal_analyzer_
      = st.render_signal_analyzer_ := by
  unfold handleEchoPathChange
  simp only
  split_ifs <;> simp

theorem analyzeAndSubtract_collaborators {C : Aec3} (st : EchoRemoverImpl C)
    (rb : C.RenderBuffer) (y0 : List ℚ) :
    (analyzeAndSubtract st rb y0).2.2 = C.AecState_TransitionTriggered st.aec_state_ ∧
    ((analyzeAndSubtract st rb y0).1.subtractor_, (analyzeAndSubtract st rb y0).2.1) =
      C.Subtractor_Process
        (if C.AecState_TransitionTriggered st.aec_state_
          then C.Subtractor_ExitInitialState st.subtractor_ else st.subtractor_)
        rb y0
        (C.RenderSignalAnalyzer_Update st.render_signal_analyzer_ rb
          (C.AecState_FilterDelayBlocks st.aec_state_)) st.aec_state_ ∧
    (analyzeAndSubtract st rb y0).1.aec_state_ = st.aec_state_ ∧
    (analyzeAndSubtract st rb y0).1.render_signal_analyzer_ =
      C.RenderSignalAnalyzer_Update st.render_signal_analyzer_ rb
        (C.AecState_FilterDelayBlocks st.aec_state_) ∧
    (analyzeAndSubtract st rb y0).1.suppression_gain_ =
      (if C.AecState_TransitionTriggered st.aec_state_ then [false] else []).foldl
        C.SuppressionGain_SetInitialState st.suppression_gain_ := by
  unfold analyzeAndSubtract
  simp only
  split_ifs <;> simp

/-- The collaborator calls recorded in the locals of a returning
`ProcessCapture` are the calls that produced the remover it leaves. -/
theorem ProcessCapture_reaches_collaborators {C : Aec3} (st : EchoRemoverImpl C)
    (v : EchoPathVariability) (sat : Bool) (d : Option C.DelayEstimate)
    (rb : C.RenderBuffer) (capture : Block)
    (r : Processed C) (h : ProcessCapture st v sat d rb capture = .ok r) :
    CallsReachCollaborators st sat d rb capture r := by
  obtain ⟨_, h⟩ := (ProcessCapture_eq_ok_iff st v sat d rb capture r).1 h
  obtain ⟨changed, subtracted, formed, analyzed, y0_linear, rfl, rfl, hf, rfl, _, hr, _,
    hsup, hfw, hsi, hex, _, hso, _, hsp, _⟩ := processChecked_inv _ v sat d rb _ capture r h
  have hs := FormLinearFilterOutput_state _ _ _ _ hf
  obtain ⟨ha1, ha2, ha3, ha4⟩ := handleEchoPathChange_collaborators
    { st with block_counter_ := st.block_counter_ + 1 } v sat
  obtain ⟨hb1, hb2, hb3, hb4, hb5⟩ := analyzeAndSubtract_collaborators
    (handleEchoPathChange { st with block_counter_ := st.block_counter_ + 1 } v sat).1 rb
    ((capture.getD 0 []).getD 0 [])
  have hsub : r.remover.subtractor_ =
      (analyzeAndSubtract
        (handleEchoPathChange { st with block_counter_ := st.block_counter_ + 1 } v sat).1 rb
        ((capture.getD 0 []).getD 0 [])).1.subtractor_ := by
    rw [hr, hs]
    rfl
  have hrsa : r.remover.render_signal_analyzer_ =
      (analyzeAndSubtract
        (handleEchoPathChange { st with block_counter_ := st.block_counter_ + 1 } v sat).1 rb
        ((capture.getD 0 []).getD 0 [])).1.render_signal_analyzer_ := by
    rw [hr, hs]
    rfl
  have haec : r.remover.aec_state_ =
      C.AecState_Update
        (analyzeAndSubtract
          (handleEchoPathChange { st with block_counter_ := st.block_counter_ + 1 } v sat).1 rb
          ((capture.getD 0 []).getD 0 [])).1.aec_state_ d r.remover.subtractor_ rb
        r.locals.spectra.E2 r.locals.spectra.Y2 r.locals.subtractor_output
        ((capture.getD 0 []).getD 0 []) := by
    rw [hsub, hsp, hso, hr, hs]
    rfl
  have hsg : r.remover.suppression_gain_ =
      (C.SuppressionGain_GetGain
        (analyzeAndSubtract
          (handleEchoPathChange { st with block_counter_ := st.block_counter_ + 1 } v sat).1 rb
          ((capture.getD 0 []).getD 0 [])).1.suppression_gain_
        r.locals.suppression.nearend_spectrum r.locals.suppression.echo_spectrum
        r.locals.suppression.R2 (C.ComfortNoiseGenerator_NoiseSpectrum r.remover.cng_)
        r.remover.render_signal_analyzer_ r.remover.aec_state_
        (C.RenderBuffer_Block rb 0)).1 := by
    rw [hsup, hr, hs]
    rfl
  unfold CallsReachCollaborators
  simp only
  rw [hfw, hex, hb1, ha1]
  refine ⟨rfl, ?_, ?_, ?_, ?_⟩
  · rw [hsub, hso, hb2, ha1, ha2, ha4]
  · rw [hrsa, hb4, ha1, ha4]
  · rw [haec, hb3, ha1]
  · rw [hsg, hb5, ha3, hsi, hb1, ha1, List.foldl_append, hrsa, hb4, ha1, ha4]

/-- Along a returning run every call reaches the collaborators as its locals
record: the first call from the remover the run starts with, each later call
from the remover its predecessor left. -/
theorem run_reaches_collaborators {C : Aec3} (calls : List (CaptureCall C)) :
    ∀ (st : EchoRemoverImpl C) (rs : List (Processed C)),
      ProcessCaptureCalls st calls = .ok rs →
      (∀ (c : CaptureCall C) (r : Processed C), calls[0]? = some c → rs[0]? = some r →
        CallsReachCollaborators st c.capture_signal_saturation c.external_delay
          c.render_buffer c.capture r) ∧
      (∀ (i : Nat) (p : Processed C) (c : CaptureCall C) (r : Processed C),
        rs[i]? = some p → calls[i + 1]? = some c → rs[i + 1]? = some r →
        CallsReachCollaborators p.remover c.capture_signal_saturation c.external_delay
          c.render_buffer c.capture r) := by
  induction calls with
  | nil =>
    intro st rs hrun
    cases hrun
    simp
  | cons c cs ih =>
    intro st rs hrun
    obtain ⟨r0, rs', h0, hrs', rfl⟩ := (ProcessCaptureCalls_cons_ok st c cs rs).1 hrun
    obtain ⟨ih0, ihs⟩ := ih r0.remover rs' hrs'
    constructor
    · intro c' r hc hr
      simp only [List.getElem?_cons_zero, Option.some.injEq] at hc hr
      rw [← hc, ← hr]
      exact ProcessCapture_reaches_collaborators _ _ _ _ _ _ _ h0
    · intro i p c' r hp hc hr
      simp only [List.getElem?_cons_succ] at hc hr
      cases i with
      | zero =>
        simp only [List.getElem?_cons_zero, Option.some.injEq] at hp
        rw [← hp]
        exact ih0 c' r hc hr
      | succ i =>
        simp only [List.getElem?_cons_succ] at hp
        exact ihs i p c' r hp hc hr

theorem recording_arraySizes : recording.ArraySizes := by
  refine ⟨by decide, ?_⟩
  intro s rb y0 a st
  simp [recording, divergedMain]

theorem recordingRemover_eq_create (b : Bool) :
    EchoRemoverImpl.Create recording b 16000 1 1 = .ok (recordingRemover b) := by
  rfl

theorem recordedCall_geometry (b : Bool) (v : EchoPathVariability) :
    CheckedGeometry (recordingRemover b) (recordedCall v).render_buffer
      (recordedCall v).capture := by
  simp [CheckedGeometry, recording, recordingRemover, recordedCall, monoBlock, constantSignal]

/-- C4. On every block that passes the checks `ProcessCapture` returns, and its
overall path selection is as follows. With `u` the value of
`AecState::UseLinearFilterOutput()` on the AEC state that the state update of
the block returns and the remover keeps, `p` the path flag left by the previous
block, `y0` the caller's band-0 capture samples of channel 0 and `e` the linear
output formed by `FormLinearFilterOutput` from the output of the subtractor run
of the block: the selected signal is `e` if `u` and `p`,
`SignalTransition(y0, e)` if `u` and not `p`, `SignalTransition(e, y0)` if `p`
and not `u`, and `y0` otherwise. The selected signal is what channel 0 of band
0 of the capture block holds after the selection step, the rest of the block
being as the caller supplied it, and this block is the one that
`SuppressionFilter::ApplyGain` turns into the capture block returned to the
caller. The flag kept by the remover is `u`. A remover starts with the flag
set. -/
theorem ProcessCapture_path_selection {C : Aec3} (hC : C.ArraySizes)
    (st : EchoRemoverImpl C) (v : EchoPathVariability) (sat : Bool)
    (d : Option C.DelayEstimate) (rb : C.RenderBuffer) (capture : Block)
    (hg : CheckedGeometry st rb capture) :
    (∀ config rate nr nc st0, EchoRemoverImpl.Create C config rate nr nc = .ok st0 →
      st0.linear_filter_output_last_selected_ = true) ∧
    ∃ r, ProcessCapture st v sat d rb capture = .ok r ∧
      CallsReachCollaborators st sat d rb capture r ∧
      r.locals.use_linear_filter_output
        = C.AecState_UseLinearFilterOutput r.remover.aec_state_ ∧
      (∃ st', FormLinearFilterOutput st r.locals.subtractor_output
        (List.replicate C.kBlockSize 0) = .ok (st', r.locals.e)) ∧
      (r.locals.use_linear_filter_output = true →
        st.linear_filter_output_last_selected_ = true →
        r.locals.output_linear = r.locals.e) ∧
      (r.locals.use_linear_filter_output = true →
        st.linear_filter_output_last_selected_ = false →
        SignalTransition ((capture.getD 0 []).getD 0 []) r.locals.e
          ((capture.getD 0 []).getD 0 []) = .ok r.locals.output_linear) ∧
      (r.locals.use_linear_filter_output = false →
        st.linear_filter_output_last_selected_ = true →
        SignalTransition r.locals.e ((capture.getD 0 []).getD 0 [])
          ((capture.getD 0 []).getD 0 []) = .ok r.locals.output_linear) ∧
      (r.locals.use_linear_filter_output = false →
        st.linear_filter_output_last_selected_ = false →
        r.locals.output_linear = (capture.getD 0 []).getD 0 []) ∧
      (r.locals.y_before_gain.getD 0 []).getD 0 [] = r.locals.output_linear ∧
      (∀ b c, ¬ (b = 0 ∧ c = 0) →
        (r.locals.y_before_gain.getD b []).getD c [] = (capture.getD b []).getD c []) ∧
      (∃ sf cn hbcn, r.capture =
        (C.SuppressionFilter_ApplyGain sf cn hbcn r.locals.suppression.G
          r.locals.suppression.high_bands_gain r.locals.suppression.Y_fft
          r.locals.y_before_gain).2) ∧
      r.remover.linear_filter_output_last_selected_ = r.locals.use_linear_filter_output := by
  constructor
  · intro config rate nr nc st0 h
    unfold EchoRemoverImpl.Create at h
    split_ifs at h
    cases h
    rfl
  · obtain ⟨r, hr⟩ := ProcessCapture_returns hC st v sat d rb capture hg
    obtain ⟨_, hu, hflag, hch, hyb⟩ := ProcessCapture_selection st v sat d rb capture r hr
    obtain ⟨_, _, helen, hform, _⟩ := ProcessCapture_formed hC st v sat d rb capture r hr
    obtain ⟨_, _, _, _, _, happly⟩ := ProcessCapture_suppression st v sat d rb capture r hr
    have hy0 : ((capture.getD 0 []).getD 0 []).length = C.kBlockSize := hg.2.2.2.2.2
    have hlen : r.locals.e.length = ((capture.getD 0 []).getD 0 []).length := by
      rw [helen, hy0]
    have hne : (capture.getD 0 []).getD 0 [] ≠ [] := by
      intro h
      rw [h] at hy0
      have h30 : kTransitionSize ≤ C.kBlockSize := hC.1
      rw [← hy0] at h30
      simp [kTransitionSize] at h30
    refine ⟨r, hr, ProcessCapture_reaches_collaborators st v sat d rb capture r hr, hu,
      ⟨_, hform⟩, ?_, ?_, ?_, ?_, ?_, ?_, happly, hflag⟩
    · intro h1 h2
      rw [chooseLinearOutput_ok _ _ _ _ hlen (by rw [hy0]; exact hC.1), h1, h2] at hch
      simpa using hch.symm
    · intro h1 h2
      rw [h1, h2] at hch
      simpa [chooseLinearOutput] using hch
    · intro h1 h2
      rw [h1, h2] at hch
      simpa [chooseLinearOutput] using hch
    · intro h1 h2
      rw [h1, h2] at hch
      simpa [chooseLinearOutput] using hch.symm
    · rw [hyb]
      exact write_y0_zero capture _ hne
    · intro b c hbc
      rw [hyb]
      exact write_y0_other capture _ b c hbc

/-- Witness of C4: a first block on a fresh mono remover whose AEC state does
not report the linear output as usable (no external delay estimate): the
selection flag was set and `u` is false, so the capture samples of channel 0
are faded from the formed linear output `e` (10 in every sample) to the
caller's samples (silence), over the first 30 samples. -/
theorem ProcessCapture_path_selection_witness :
    ∃ r, ProcessCapture (recordingRemover false) noChange false none
        (monoBlock 0) (monoBlock 0) = .ok r ∧
      r.locals.e = constantSignal 64 10 ∧
      SignalTransition (constantSignal 64 10) (constantSignal 64 0) (constantSignal 64 0)
        = .ok ((r.locals.y_before_gain.getD 0 []).getD 0 []) ∧
      ((r.locals.y_before_gain.getD 0 []).getD 0 []).getD 0 0 = 300 / 31 ∧
      ((r.locals.y_before_gain.getD 0 []).getD 0 []).getD 29 0 = 10 / 31 ∧
      ((r.locals.y_before_gain.getD 0 []).getD 0 []).getD 30 0 = 0 ∧
      r.remover.linear_filter_output_last_selected_ = false := by
  obtain ⟨_, r, hr, hcalls, hu, ⟨st', hform⟩, _, _, hfade, _, hy, _, _, hflag⟩ :=
    ProcessCapture_path_selection recording_arraySizes (recordingRemover false)
      noChange false none (monoBlock 0) (monoBlock 0)
      (by simp [CheckedGeometry, recording, recordingRemover, monoBlock, constantSignal])
  have hu' : r.locals.use_linear_filter_output = false := by
    rw [hu, hcalls.2.2.2.1]
    rfl
  have hso : r.locals.subtractor_output = divergedMain :=
    (congrArg Prod.snd hcalls.2.1).trans rfl
  have he : r.locals.e = constantSignal 64 10 := by
    rw [hso] at hform
    have h2 := congrArg (fun t => t.2) (Except.ok.inj (hform.symm.trans
      (FormLinearFilterOutput_ok (recordingRemover false) divergedMain
        (List.replicate recording.kBlockSize 0) rfl rfl (by decide))))
    simpa [use_main_output, recordingRemover, divergedMain, constantSignal, std_copy,
      recording] using h2
  have hst := hfade hu' rfl
  have hy0 : ((monoBlock 0).getD 0 []).getD 0 [] = constantSignal 64 0 := rfl
  rw [he, hy0] at hst
  have hout := hst
  rw [SignalTransition_ok (constantSignal 64 10) (constantSignal 64 0) (constantSignal 64 0)
    rfl rfl (by decide)] at hout
  have hval := (Except.ok.inj hout).symm
  refine ⟨r, hr, he, ?_, ?_, ?_, ?_, hflag.trans hu'⟩
  · rw [hy]
    exact hst
  · rw [hy, hval, transition_getD_lt _ _ 0 (by decide)]
    simp [transitionSample, kOneByTransitionSizePlusOne, kTransitionSize, constantSignal]
    norm_num
  · rw [hy, hval, transition_getD_lt _ _ 29 (by decide)]
    simp [transitionSample, kOneByTransitionSizePlusOne, kTransitionSize, constantSignal]
    norm_num
  · rw [hy, hval, transition_getD_ge _ _ 30 (by decide)]
    simp [constantSignal]

/-- Over the recording collaborators the logs after a call are the logs on
entry with the forwarded event and the `SetInitialState` arguments added. -/
theorem recording_logs (st : EchoRemoverImpl recording) (sat : Bool)
    (d : Option recording.DelayEstimate) (rb : recording.RenderBuffer) (capture : Block)
    (r : Processed recording) (t : CallsReachCollaborators st sat d rb capture r) :
    r.remover.subtractor_ =
      (match r.locals.forwarded with
        | some ev => ev :: st.subtractor_
        | none => st.subtractor_) ∧
    r.remover.aec_state_.1 =
      (match r.locals.forwarded with
        | some ev => ev :: st.aec_state_.1
        | none => st.aec_state_.1) ∧
    r.locals.subtractor_output = divergedMain ∧
    r.remover.suppression_gain_ =
      r.locals.set_initial_state.foldl (fun g b => b :: g) st.suppression_gain_ := by
  obtain ⟨hx, hp, _, ha, hg⟩ := t
  have hx' : r.locals.exit_initial_state = false := hx
  rw [hx'] at hp
  refine ⟨?_, ?_, congrArg Prod.snd hp, hg⟩
  · cases hfw : r.locals.forwarded with
    | none =>
      rw [hfw] at hp
      exact congrArg Prod.fst hp
    | some ev =>
      rw [hfw] at hp
      exact congrArg Prod.fst hp
  · cases hfw : r.locals.forwarded with
    | none =>
      rw [hfw] at ha
      rw [ha]
      rfl
    | some ev =>
      rw [hfw] at ha
      rw [ha]
      rfl

/-- C5. Starting from a hangover counter of 0, when a gain change is reported
on three consecutive `ProcessCapture` calls, the three calls return and the
event forwarded to the subtractor and to the AEC state carries `gain_change =
true` on the first block only; on the other two the flag is cleared before
forwarding (the delay change is forwarded as reported). Forwarded means: the
subtractor and the AEC state that each call leaves in the remover are the ones
of the remover on entry after `HandleEchoPathChange` with that event
(`CallsReachCollaborators`). -/
theorem gain_change_forwarded_once {C : Aec3} (hC : C.ArraySizes) (st : EchoRemoverImpl C)
    (h0 : st.gain_change_hangover_ = 0) (c1 c2 c3 : CaptureCall C)
    (hc1 : c1.echo_path_variability.gain_change = true)
    (hc2 : c2.echo_path_variability.gain_change = true)
    (hc3 : c3.echo_path_variability.gain_change = true)
    (hg1 : CheckedGeometry st c1.render_buffer c1.capture)
    (hg2 : CheckedGeometry st c2.render_buffer c2.capture)
    (hg3 : CheckedGeometry st c3.render_buffer c3.capture) :
    ∃ r1 r2 r3, ProcessCaptureCalls st [c1, c2, c3] = .ok [r1, r2, r3] ∧
      r1.locals.forwarded = some { gain_change := true,
                                   delay_change := c1.echo_path_variability.delay_change } ∧
      r2.locals.forwarded = some { gain_change := false,
                                   delay_change := c2.echo_path_variability.delay_change } ∧
      r3.locals.forwarded = some { gain_change := false,
                                   delay_change := c3.echo_path_variability.delay_change } ∧
      CallsReachCollaborators st c1.capture_signal_saturation c1.external_delay
        c1.render_buffer c1.capture r1 ∧
      CallsReachCollaborators r1.remover c2.capture_signal_saturation c2.external_delay
        c2.render_buffer c2.capture r2 ∧
      CallsReachCollaborators r2.remover c3.capture_signal_saturation c3.external_delay
        c3.render_buffer c3.capture r3 ∧
      ([r1, r2, r3].filter
        (fun r => r.locals.forwarded.any (fun e => e.gain_change))).length = 1 := by
  obtain ⟨r1, r2, r3, hrun, e1, e2, e3⟩ :=
    three_gain_changes hC st h0 c1 c2 c3 hc1 hc2 hc3 hg1 hg2 hg3
  obtain ⟨t1, tn⟩ := run_reaches_collaborators [c1, c2, c3] st [r1, r2, r3] hrun
  refine ⟨r1, r2, r3, hrun, ?_, e2, e3, t1 c1 r1 rfl rfl, tn 0 r1 c2 r2 rfl rfl rfl,
    tn 1 r2 c3 r3 rfl rfl rfl, ?_⟩
  · rw [e1, ← hc1]
  · simp [List.filter, e1, e2, e3, hc1]

/-- Witness of C5: three gain-change reports on a fresh mono remover whose
subtractor and AEC state record the events they are handed (newest first). -/
theorem gain_change_forwarded_once_witness :
    ∃ r1 r2 r3, ProcessCaptureCalls (recordingRemover false)
        [recordedCall gainChange, recordedCall gainChange, recordedCall gainChange]
          = .ok [r1, r2, r3] ∧
      r3.remover.subtractor_ = [noChange, noChange, gainChange] ∧
      r3.remover.aec_state_.1 = [noChange, noChange, gainChange] := by
  obtain ⟨r1, r2, r3, hrun, e1, e2, e3, t1, t2, t3, _⟩ :=
    gain_change_forwarded_once recording_arraySizes (recordingRemover false) rfl
      (recordedCall gainChange) (recordedCall gainChange) (recordedCall gainChange)
      rfl rfl rfl (recordedCall_geometry _ _) (recordedCall_geometry _ _)
      (recordedCall_geometry _ _)
  obtain ⟨s1, a1, _⟩ := recording_logs _ _ _ _ _ _ t1
  obtain ⟨s2, a2, _⟩ := recording_logs _ _ _ _ _ _ t2
  obtain ⟨s3, a3, _⟩ := recording_logs _ _ _ _ _ _ t3
  rw [e1] at s1 a1
  rw [e2, s1] at s2
  rw [e2, a1] at a2
  rw [e3, s2] at s3
  rw [e3, a2] at a3
  exact ⟨r1, r2, r3, hrun, s3, a3⟩

/-- C6, the claim as stated fails: on three consecutive gain-change-only
reports from a hangover counter of 0 the subtractor's `HandleEchoPathChange` is
invoked on each of the three blocks, not once: a subtractor that records the
events it is handed holds three of them after the third block. -/
theorem HandleEchoPathChange_invoked_on_every_block :
    ∃ r1 r2 r3, ProcessCaptureCalls (recordingRemover false)
        [recordedCall gainChange, recordedCall gainChange, recordedCall gainChange]
          = .ok [r1, r2, r3] ∧
      (recordingRemover false).gain_change_hangover_ = 0 ∧
      (recordingRemover false).subtractor_ = [] ∧
      r1.remover.subtractor_ = [gainChange] ∧
      r2.remover.subtractor_ = [noChange, gainChange] ∧
      r3.remover.subtractor_ = [noChange, noChange, gainChange] ∧
      ([r1, r2, r3].filter (fun r => r.locals.forwarded.isSome)).length = 3 ∧
      ¬ ([r1, r2, r3].filter (fun r => r.locals.forwarded.isSome)).length = 1 := by
  refine ⟨_, _, _, rfl, rfl, rfl, rfl, rfl, rfl, ?_, ?_⟩ <;> decide

/-- C6, amended. When a gain-change-only event (no delay change) is reported on
three consecutive `ProcessCapture` calls starting from a hangover counter of 0,
the three calls return and `HandleEchoPathChange` is invoked on each of the
three blocks; the event it receives carries the gain change on the first block
only, and on the other two it signals no change at all. Invoked means: the
subtractor and the AEC state that each call leaves in the remover are the ones
of the remover on entry after `HandleEchoPathChange` with that event
(`CallsReachCollaborators`). -/
theorem gain_change_only_forwarded {C : Aec3} (hC : C.ArraySizes) (st : EchoRemoverImpl C)
    (h0 : st.gain_change_hangover_ = 0) (c1 c2 c3 : CaptureCall C)
    (hc1 : c1.echo_path_variability = gainChange)
    (hc2 : c2.echo_path_variability = gainChange)
    (hc3 : c3.echo_path_variability = gainChange)
    (hg1 : CheckedGeometry st c1.render_buffer c1.capture)
    (hg2 : CheckedGeometry st c2.render_buffer c2.capture)
    (hg3 : CheckedGeometry st c3.render_buffer c3.capture) :
    ∃ r1 r2 r3, ProcessCaptureCalls st [c1, c2, c3] = .ok [r1, r2, r3] ∧
      r1.locals.forwarded = some gainChange ∧
      r2.locals.forwarded = some noChange ∧
      r3.locals.forwarded = some noChange ∧
      CallsReachCollaborators st c1.capture_signal_saturation c1.external_delay
        c1.render_buffer c1.capture r1 ∧
      CallsReachCollaborators r1.remover c2.capture_signal_saturation c2.external_delay
        c2.render_buffer c2.capture r2 ∧
      CallsReachCollaborators r2.remover c3.capture_signal_saturation c3.external_delay
        c3.render_buffer c3.capture r3 ∧
      gainChange.AudioPathChanged = true ∧ noChange.AudioPathChanged = false := by
  obtain ⟨r1, r2, r3, hrun, e1, e2, e3⟩ :=
    three_gain_changes hC st h0 c1 c2 c3 (by rw [hc1]; rfl) (by rw [hc2]; rfl)
      (by rw [hc3]; rfl) hg1 hg2 hg3
  rw [hc1] at e1
  rw [hc2] at e2
  rw [hc3] at e3
  obtain ⟨t1, tn⟩ := run_reaches_collaborators [c1, c2, c3] st [r1, r2, r3] hrun
  exact ⟨r1, r2, r3, hrun, e1, e2, e3, t1 c1 r1 rfl rfl, tn 0 r1 c2 r2 rfl rfl rfl,
    tn 1 r2 c3 r3 rfl rfl rfl, rfl, rfl⟩

/-- Witness of C6: three gain-change-only reports on a fresh mono remover whose
subtractor records the events it is handed (newest first). -/
theorem gain_change_only_forwarded_witness :
    ∃ r1 r2 r3, ProcessCaptureCalls (recordingRemover false)
        [recordedCall gainChange, recordedCall gainChange, recordedCall gainChange]
          = .ok [r1, r2, r3] ∧
      r1.remover.subtractor_ = [gainChange] ∧
      r2.remover.subtractor_ = noChange :: r1.remover.subtractor_ ∧
      r3.remover.subtractor_ = noChange :: r2.remover.subtractor_ := by
  obtain ⟨r1, r2, r3, hrun, e1, e2, e3, t1, t2, t3, _⟩ :=
    gain_change_only_forwarded recording_arraySizes (recordingRemover false) rfl
      (recordedCall gainChange) (recordedCall gainChange) (recordedCall gainChange)
      rfl rfl rfl (recordedCall_geometry _ _) (recordedCall_geometry _ _)
      (recordedCall_geometry _ _)
  obtain ⟨s1, _⟩ := recording_logs _ _ _ _ _ _ t1
  obtain ⟨s2, _⟩ := recording_logs _ _ _ _ _ _ t2
  obtain ⟨s3, _⟩ := recording_logs _ _ _ _ _ _ t3
  rw [e1] at s1
  rw [e2] at s2
  rw [e3] at s3
  exact ⟨r1, r2, r3, hrun, s1, s2, s3⟩

/-- Along a returning run, every call runs the subtractor on the band-0 samples
of channel 0 of its capture block, forms a linear output `e` of `kBlockSize`
samples, and builds the spectrum `E` and the overlap tail `e_old_` that the
remover keeps from `e`. -/
theorem run_subtracted {C : Aec3} (hC : C.ArraySizes) (calls : List (CaptureCall C)) :
    ∀ (st : EchoRemoverImpl C) (rs : List (Processed C)),
      ProcessCaptureCalls st calls = .ok rs →
      ∀ (i : Nat) (c : CaptureCall C) (r : Processed C),
        calls[i]? = some c → rs[i]? = some r →
        (∃ s a q, (r.remover.subtractor_, r.locals.subtractor_output) =
          C.Subtractor_Process s c.render_buffer ((c.capture.getD 0 []).getD 0 []) a q) ∧
        r.locals.e.length = C.kBlockSize ∧
        (∃ e_old, r.locals.spectra.E = C.PaddedFft r.locals.e e_old ∧
          r.remover.e_old_ = std_copy r.locals.e e_old) := by
  induction calls with
  | nil =>
    intro st rs hrun i c r hc
    simp at hc
  | cons c0 cs ih =>
    intro st rs hrun i c r hc hr
    obtain ⟨r0, rs', h0, hrs', rfl⟩ := (ProcessCaptureCalls_cons_ok st c0 cs rs).1 hrun
    cases i with
    | zero =>
      simp only [List.getElem?_cons_zero, Option.some.injEq] at hc hr
      rw [← hc, ← hr]
      obtain ⟨_, hp, _⟩ := ProcessCapture_reaches_collaborators _ _ _ _ _ _ _ h0
      obtain ⟨_, hE, _, _, _, _, hold⟩ := ProcessCapture_spectra _ _ _ _ _ _ _ h0
      obtain ⟨_, _, hlen, _⟩ := ProcessCapture_formed hC _ _ _ _ _ _ _ h0
      exact ⟨⟨_, _, _, hp⟩, hlen, ⟨_, hE, hold⟩⟩
    | succ i =>
      simp only [List.getElem?_cons_succ] at hc hr
      exact ih r0.remover rs' hrs' i c r hc hr

/-- C8. When shadow-output usage is disabled by the configuration, every run of
blocks on a freshly constructed remover (blocks that pass the checks of
`ProcessCapture`) returns, and on every block, whatever the energies of the
subtractor output, the main filter is selected and the formed linear output is
`e_main` sample for sample: the selection flag starts true and stays true.
Here the subtractor output is what `Subtractor::Process` returns for the band-0
samples of channel 0 of the block, the formed linear output `e` holds
`kBlockSize` samples, and it is the signal whose spectrum `E` the block
computes and whose samples the remover keeps as the overlap tail `e_old_`. -/
theorem shadow_disabled_main_selected {C : Aec3} (hC : C.ArraySizes)
    (config : C.EchoCanceller3Config) (rate : Int) (nr nc : Nat) (st0 : EchoRemoverImpl C)
    (hcreate : EchoRemoverImpl.Create C config rate nr nc = .ok st0)
    (hdis : C.enable_shadow_filter_output_usage config = false)
    (calls : List (CaptureCall C))
    (hgeo : ∀ c ∈ calls, CheckedGeometry st0 c.render_buffer c.capture) :
    st0.main_filter_output_last_selected_ = true ∧
    ∃ rs, ProcessCaptureCalls st0 calls = .ok rs ∧ rs.length = calls.length ∧
      (∀ r ∈ rs, r.remover.main_filter_output_last_selected_ = true ∧
        r.locals.e = r.locals.subtractor_output.e_main) ∧
      (∀ (i : Nat) (c : CaptureCall C) (r : Processed C),
        calls[i]? = some c → rs[i]? = some r →
        (∃ s a q, (r.remover.subtractor_, r.locals.subtractor_output) =
          C.Subtractor_Process s c.render_buffer ((c.capture.getD 0 []).getD 0 []) a q) ∧
        r.locals.e.length = C.kBlockSize ∧
        (∃ e_old, r.locals.spectra.E = C.PaddedFft r.locals.e e_old ∧
          r.remover.e_old_ = std_copy r.locals.e e_old)) := by
  unfold EchoRemoverImpl.Create at hcreate
  split_ifs at hcreate
  cases hcreate
  obtain ⟨rs, hrun, hlen, hall⟩ := main_output_on_every_block hC calls _ hdis rfl hgeo
  exact ⟨rfl, rs, hrun, hlen, hall, run_subtracted hC calls _ rs hrun⟩

/-- Witness of C8: three blocks on a fresh mono remover without shadow-output
usage, over a subtractor whose main filter has diverged on every block: the
formed output is `e_main` (10 in every sample), although with shadow-output
usage enabled the energies of every block would select the shadow filter. -/
theorem shadow_disabled_main_selected_witness :
    ∃ rs, ProcessCaptureCalls (recordingRemover false)
        [recordedCall noChange, recordedCall noChange, recordedCall noChange] = .ok rs ∧
      rs.length = 3 ∧
      ∀ r ∈ rs, r.remover.main_filter_output_last_selected_ = true ∧
        r.locals.e = constantSignal 64 10 ∧
        use_main_output recording true r.locals.subtractor_output = false := by
  obtain ⟨_, rs, hrun, hlen, hall, htie⟩ :=
    shadow_disabled_main_selected recording_arraySizes false 16000 1 1
      (recordingRemover false) (recordingRemover_eq_create false) rfl
      [recordedCall noChange, recordedCall noChange, recordedCall noChange]
      (by
        intro c hc
        simp only [List.mem_cons, List.mem_singleton, List.not_mem_nil, or_false,
          or_self] at hc
        rw [hc]
        exact recordedCall_geometry _ _)
  refine ⟨rs, hrun, hlen, ?_⟩
  intro r hr
  obtain ⟨i, hi⟩ := List.mem_iff_getElem?.1 hr
  have hilt : i < [recordedCall noChange, recordedCall noChange,
      recordedCall noChange].length := by
    have := (List.getElem?_eq_some_iff.1 hi).1
    rw [hlen] at this
    exact this
  obtain ⟨⟨s, a, q, hp⟩, _, _⟩ := htie i _ r (List.getElem?_eq_getElem hilt) hi
  have hso : r.locals.subtractor_output = divergedMain := congrArg Prod.snd hp
  obtain ⟨hflag, he⟩ := hall r hr
  refine ⟨hflag, ?_, ?_⟩
  · rw [he, hso]
    rfl
  · rw [hso]
    simp [use_main_output, divergedMain, recording]
    norm_num

/-- C20. Every block that passes the checks returns, and: when its
path-variability event carries a delay change (`delay_change` is not `kNone`),
the event is forwarded to the subtractor and to the AEC state with its
`delay_change` unchanged and `SuppressionGain::SetInitialState(true)` is called,
whatever the gain-change flag and the hangover counter are; when the event
carries no delay change (a gain change only, or no change), no
`SetInitialState(true)` call is made. Forwarded and called mean: the
subtractor and the AEC state that the call leaves in the remover are the ones of
the remover on entry after `HandleEchoPathChange` with that event, and the gain
calculator it leaves is the one that `GetGain` returns for the gain calculator
on entry after the listed `SetInitialState` calls (`CallsReachCollaborators`);
the only other `SetInitialState` call of a block is the `SetInitialState(false)`
that goes with `ExitInitialState()`. -/
theorem delay_change_resets_initial_state {C : Aec3} (hC : C.ArraySizes)
    (st : EchoRemoverImpl C) (v : EchoPathVariability) (sat : Bool)
    (d : Option C.DelayEstimate) (rb : C.RenderBuffer) (capture : Block)
    (hg : CheckedGeometry st rb capture) :
    ∃ r, ProcessCapture st v sat d rb capture = .ok r ∧
      CallsReachCollaborators st sat d rb capture r ∧
      (v.delay_change ≠ DelayAdjustment.kNone →
        (∃ ev, r.locals.forwarded = some ev ∧ ev.delay_change = v.delay_change) ∧
          r.locals.set_initial_state =
            true :: (if r.locals.exit_initial_state then [false] else [])) ∧
      (v.delay_change = DelayAdjustment.kNone →
        r.locals.set_initial_state = (if r.locals.exit_initial_state then [false] else [])) := by
  obtain ⟨r, hr⟩ := ProcessCapture_returns hC st v sat d rb capture hg
  have hsi := ProcessCapture_initial_state st v sat d rb capture r hr
  have hfw := (ProcessCapture_event st v sat d rb capture r hr).1
  refine ⟨r, hr, ProcessCapture_reaches_collaborators st v sat d rb capture r hr, ?_, ?_⟩
  · intro hd
    have ha : v.AudioPathChanged = true := by
      simp [EchoPathVariability.AudioPathChanged, hd]
    refine ⟨⟨_, by rw [hfw, if_pos ha], gainChangeOncePerFrame_delay _ _⟩, ?_⟩
    rw [hsi, if_pos hd]
    rfl
  · intro hd
    rw [hsi]
    simp only [hd, ne_eq, not_true_eq_false, if_false, List.nil_append]

/-- Witness of C20: a delay change reported together with a gain change on a
fresh mono remover whose collaborators record the calls they receive: the event
reaches the subtractor and the AEC state, and `SetInitialState(true)` the gain
calculator. -/
theorem delay_change_resets_initial_state_witness :
    ∃ r, ProcessCapture (recordingRemover false)
        { gain_change := true, delay_change := DelayAdjustment.kNewDetectedDelay } false none
        (monoBlock 0) (monoBlock 0) = .ok r ∧
      (∃ ev, ev.delay_change = DelayAdjustment.kNewDetectedDelay ∧
        r.remover.subtractor_ = [ev] ∧ r.remover.aec_state_.1 = [ev]) ∧
      r.remover.suppression_gain_ = [true] := by
  obtain ⟨r, hr, t, h, _⟩ :=
    delay_change_resets_initial_state recording_arraySizes (recordingRemover false)
      { gain_change := true, delay_change := DelayAdjustment.kNewDetectedDelay } false none
      (monoBlock 0) (monoBlock 0)
      (by simp [CheckedGeometry, recording, recordingRemover, monoBlock, constantSignal])
  obtain ⟨⟨ev, hev, hdel⟩, hset⟩ := h (by decide)
  obtain ⟨s1, a1, _, g1⟩ := recording_logs _ _ _ _ _ _ t
  have hx : r.locals.exit_initial_state = false := t.1
  rw [hev] at s1 a1
  rw [hset, hx] at g1
  exact ⟨r, hr, ⟨ev, hdel, s1, a1⟩, g1⟩

/-- C22. Hangover invariant: every run of `ProcessCapture` calls on a freshly
constructed remover (blocks that pass the checks) returns, and the gain-change
hangover counter, 0 at construction, is in {0, 1, 2} after every call; a
reported gain change is acted on (forwarded with `gain_change = true`) exactly
when the counter is 0 on entry; hence any two calls that act on a gain change
are at least 3 calls apart, and when every call reports a gain change it is
acted on exactly on every third call, starting with the first. Forwarded means:
the subtractor and the AEC state that a call leaves in the remover are the ones
of the remover on entry after `HandleEchoPathChange` with the forwarded event,
and the ones on entry when no event is forwarded (`CallsReachCollaborators`). -/
theorem hangover_invariant {C : Aec3} (hC : C.ArraySizes)
    (config : C.EchoCanceller3Config) (rate : Int) (nr nc : Nat) (st0 : EchoRemoverImpl C)
    (hcreate : EchoRemoverImpl.Create C config rate nr nc = .ok st0)
    (calls : List (CaptureCall C))
    (hgeo : ∀ c ∈ calls, CheckedGeometry st0 c.render_buffer c.capture) :
    st0.gain_change_hangover_ = 0 ∧
    ∃ rs, ProcessCaptureCalls st0 calls = .ok rs ∧ rs.length = calls.length ∧
      (∀ r ∈ rs, r.remover.gain_change_hangover_ = 0 ∨ r.remover.gain_change_hangover_ = 1 ∨
        r.remover.gain_change_hangover_ = 2) ∧
      (∀ r ∈ rs, r.gain_change_acted_on = true ↔
        ∃ e, r.locals.forwarded = some e ∧ e.gain_change = true) ∧
      (∀ (c : CaptureCall C) (r : Processed C), calls[0]? = some c → rs[0]? = some r →
        CallsReachCollaborators st0 c.capture_signal_saturation c.external_delay
          c.render_buffer c.capture r) ∧
      (∀ (i : Nat) (p : Processed C) (c : CaptureCall C) (r : Processed C),
        rs[i]? = some p → calls[i + 1]? = some c → rs[i + 1]? = some r →
        CallsReachCollaborators p.remover c.capture_signal_saturation c.external_delay
          c.render_buffer c.capture r) ∧
      (∀ c r, calls[0]? = some c → rs[0]? = some r →
        (r.gain_change_acted_on = true ↔
          (c.echo_path_variability.gain_change = true ∧ st0.gain_change_hangover_ = 0))) ∧
      (∀ i p c r, rs[i]? = some p → calls[i + 1]? = some c → rs[i + 1]? = some r →
        (r.gain_change_acted_on = true ↔
          (c.echo_path_variability.gain_change = true ∧
            p.remover.gain_change_hangover_ = 0))) ∧
      (∀ (i j : Nat) (ri rj : Processed C), i < j → rs[i]? = some ri → rs[j]? = some rj →
        ri.gain_change_acted_on = true → rj.gain_change_acted_on = true → i + 3 ≤ j) ∧
      ((∀ c ∈ calls, c.echo_path_variability.gain_change = true) →
        ∀ (i : Nat) (r : Processed C), rs[i]? = some r →
          (r.gain_change_acted_on = true ↔ i % 3 = 0)) := by
  have h0 : st0.gain_change_hangover_ = 0 := by
    unfold EchoRemoverImpl.Create at hcreate
    split_ifs at hcreate
    cases hcreate
    rfl
  obtain ⟨rs, hrun, hlen⟩ := ProcessCaptureCalls_returns hC calls st0 hgeo
  have hinv : 0 ≤ st0.gain_change_hangover_ ∧ st0.gain_change_hangover_ ≤ 2 := by
    rw [h0]
    constructor <;> norm_num
  obtain ⟨hfirst, hnext⟩ := acted_iff_counter_zero calls st0 rs hrun
  obtain ⟨t0, tn⟩ := run_reaches_collaborators calls st0 rs hrun
  refine ⟨h0, rs, hrun, hlen, ?_, ?_, t0, tn, hfirst, hnext,
    acted_three_apart calls st0 rs hrun, ?_⟩
  · intro r hr
    have := hangover_stays_bounded calls st0 rs hrun hinv r hr
    omega
  · intro r _
    unfold Processed.gain_change_acted_on
    cases r.locals.forwarded <;> simp
  · intro hall i r hr
    rw [acted_every_third calls st0 rs hrun hinv hall i r hr, h0]
    omega

/-- Witness of C22: four gain-change reports on a fresh mono remover whose
subtractor records the events it is handed: the gain change is acted on on the
first and on the fourth call. -/
theorem hangover_invariant_witness :
    ∃ rs, ProcessCaptureCalls (recordingRemover false)
        [recordedCall gainChange, recordedCall gainChange, recordedCall gainChange,
          recordedCall gainChange] = .ok rs ∧ rs.length = 4 ∧
      (∀ (i : Nat) (r : Processed recording), rs[i]? = some r →
        (r.gain_change_acted_on = true ↔ i % 3 = 0)) ∧
      ∀ r, rs[0]? = some r →
        ∃ ev, ev.gain_change = true ∧ r.remover.subtractor_ = [ev] := by
  obtain ⟨_, rs, hrun, hlen, _, hact, t0, _, _, _, _, hthird⟩ :=
    hangover_invariant recording_arraySizes false 16000 1 1
      (recordingRemover false) (recordingRemover_eq_create false)
      [recordedCall gainChange, recordedCall gainChange, recordedCall gainChange,
        recordedCall gainChange]
      (by
        intro c hc
        simp only [List.mem_cons, List.mem_singleton, List.not_mem_nil, or_false,
          or_self] at hc
        rw [hc]
        exact recordedCall_geometry _ _)
  have hall : ∀ c ∈ [recordedCall gainChange, recordedCall gainChange,
      recordedCall gainChange, recordedCall gainChange],
      c.echo_path_variability.gain_change = true := by
    intro c hc
    simp only [List.mem_cons, List.mem_singleton, List.not_mem_nil, or_false, or_self] at hc
    rw [hc]
    rfl
  refine ⟨rs, hrun, hlen, hthird hall, ?_⟩
  intro r hr
  have hmem : r ∈ rs := List.mem_iff_getElem?.2 ⟨0, hr⟩
  obtain ⟨ev, hev, hg⟩ := (hact r hmem).1 ((hthird hall 0 r hr).2 rfl)
  obtain ⟨s1, _⟩ := recording_logs _ _ _ _ _ _ (t0 _ r rfl hr)
  rw [hev] at s1
  exact ⟨ev, hg, s1⟩

/-! ### Binary32 arithmetic -/

namespace binary32

theorem roundHalfEven_near (num den : Nat) (hd : 0 < den) :
    2 * (roundHalfEven num den * den) ≤ 2 * num + den ∧
    2 * num ≤ 2 * (roundHalfEven num den * den) + den := by
  have hdm := Nat.div_add_mod num den
  have hlt := Nat.mod_lt num hd
  rw [Nat.mul_comm] at hdm
  unfold roundHalfEven
  generalize num / den = q at *
  generalize num % den = r at *
  split_ifs <;> (try simp only [add_mul, one_mul]) <;>
    generalize q * den = t at * <;> constructor <;> omega

theorem gridExponent_ge (num den : Nat) (fuel : Nat) :
    ∀ k, gridExponent num den fuel k = k ∨
      den * 2 ^ (gridExponent num den fuel k - 1) * 2 ^ 24 ≤ num := by
  induction fuel with
  | zero =>
    intro k
    left
    rfl
  | succ fuel ih =>
    intro k
    unfold gridExponent
    split_ifs with h
    · left
      rfl
    · right
      rcases ih (k + 1) with h1 | h1
      · rw [h1]
        simpa using Nat.le_of_not_lt h
      · exact h1

theorem roundMagnitude_error (a den : Nat) (hd : 0 < den) :
    |((roundHalfEven a (den * 2 ^ gridExponent a den 254 0)
        * 2 ^ gridExponent a den 254 0 : Nat) : ℚ) - (a : ℚ) / den|
      ≤ (a : ℚ) / den / 2 ^ 24 + 1 / 2 := by
  have hD : 0 < den * 2 ^ gridExponent a den 254 0 := by positivity
  obtain ⟨h1, h2⟩ := roundHalfEven_near a (den * 2 ^ gridExponent a den 254 0) hD
  have hge := gridExponent_ge a den 254 0
  generalize gridExponent a den 254 0 = K at *
  generalize roundHalfEven a (den * 2 ^ K) = n at *
  have h1q : 2 * ((n : ℚ) * ((den : ℚ) * 2 ^ K)) ≤ 2 * (a : ℚ) + (den : ℚ) * 2 ^ K := by
    exact_mod_cast h1
  have h2q : 2 * (a : ℚ) ≤ 2 * ((n : ℚ) * ((den : ℚ) * 2 ^ K)) + (den : ℚ) * 2 ^ K := by
    exact_mod_cast h2
  have hdq : (0 : ℚ) < den := by exact_mod_cast hd
  have hp : (0 : ℚ) < 2 ^ K := by positivity
  have ha0 : (0 : ℚ) ≤ (a : ℚ) / den := by positivity
  have hstep : (2 : ℚ) ^ K / 2 ≤ (a : ℚ) / den / 2 ^ 24 + 1 / 2 := by
    cases K with
    | zero =>
      have : (0 : ℚ) ≤ (a : ℚ) / den / 2 ^ 24 := by positivity
      simpa using this
    | succ K =>
      have hle : den * 2 ^ K * 2 ^ 24 ≤ a := by
        rcases hge with h | h
        · exact absurd h (by omega)
        · simpa using h
      have hleq : (den : ℚ) * 2 ^ K * 2 ^ 24 ≤ (a : ℚ) := by exact_mod_cast hle
      have h3 : (2 : ℚ) ^ K ≤ (a : ℚ) / den / 2 ^ 24 := by
        rw [le_div_iff₀ (by positivity), le_div_iff₀ hdq]
        nlinarith
      rw [pow_succ]
      linarith
  have hcast : ((n * 2 ^ K : Nat) : ℚ) = (n : ℚ) * 2 ^ K := by push_cast; ring
  rw [hcast]
  have habs : |(n : ℚ) * 2 ^ K - (a : ℚ) / den| ≤ 2 ^ K / 2 := by
    rw [abs_le]
    constructor
    · rw [neg_le_sub_iff_le_add, div_le_iff₀ hdq]
      nlinarith
    · rw [sub_le_iff_le_add, ← sub_le_iff_le_add', le_div_iff₀ hdq]
      nlinarith
  exact habs.trans hstep

theorem roundHalfEven_zero (den : Nat) : roundHalfEven 0 den = 0 := by
  unfold roundHalfEven
  rcases Nat.eq_zero_or_pos den with h | h <;> simp [h]

theorem roundUnits_zero (den : Nat) : roundUnits 0 den = .finite 0 := by
  simp [roundUnits, roundHalfEven_zero]

theorem roundUnits_sign (num : Int) (den : Nat) (u : Int)
    (h : roundUnits num den = .finite u) : (0 ≤ num → 0 ≤ u) ∧ (num ≤ 0 → u ≤ 0) := by
  unfold roundUnits at h
  simp only at h
  split_ifs at h with hov hneg
  · cases h
    constructor
    · intro h0
      omega
    · intro _
      simp
  · cases h
    constructor
    · intro _
      positivity
    · intro h0
      have hz : num = 0 := by omega
      simp [hz, roundHalfEven_zero]

theorem roundUnits_inf (num : Int) (den : Nat) (s : Bool)
    (h : roundUnits num den = .inf s) : s = decide (num < 0) := by
  unfold roundUnits at h
  simp only at h
  split_ifs at h
  · cases h
    rfl

/-- Rounding error of one binary32 operation: a finite result differs from the
exact value by at most `2^-24` of its magnitude plus half a unit. -/
theorem roundUnits_error (num : Int) (den : Nat) (hd : 0 < den) (u : Int)
    (h : roundUnits num den = .finite u) :
    |(u : ℚ) - (num : ℚ) / den| ≤ |(num : ℚ) / den| / 2 ^ 24 + 1 / 2 := by
  have hmag := roundMagnitude_error num.natAbs den hd
  have hdq : (0 : ℚ) < den := by exact_mod_cast hd
  have hnat : ((num.natAbs : Nat) : ℚ) = |(num : ℚ)| := by
    rw [Nat.cast_natAbs, Int.cast_abs]
  rw [hnat] at hmag
  have habsdiv : |(num : ℚ) / den| = |(num : ℚ)| / den := by
    rw [abs_div, abs_of_pos hdq]
  rw [habsdiv]
  unfold roundUnits at h
  simp only at h
  split_ifs at h with hov hneg
  · cases h
    have hq : (num : ℚ) < 0 := by exact_mod_cast hneg
    rw [abs_of_neg hq] at hmag ⊢
    have : ((-((roundHalfEven num.natAbs (den * 2 ^ gridExponent num.natAbs den 254 0)
        * 2 ^ gridExponent num.natAbs den 254 0 : Nat) : Int) : Int) : ℚ) - (num : ℚ) / den
        = -(((roundHalfEven num.natAbs (den * 2 ^ gridExponent num.natAbs den 254 0)
        * 2 ^ gridExponent num.natAbs den 254 0 : Nat) : ℚ) - -(num : ℚ) / den) := by
      push_cast
      ring
    rw [this, abs_neg]
    exact hmag
  · cases h
    have hq : (0 : ℚ) ≤ num := by exact_mod_cast (not_lt.1 hneg)
    rw [abs_of_nonneg hq] at hmag ⊢
    exact_mod_cast hmag

set_option maxRecDepth 100000 in
/-- The 30 weights of the ramp and their complements `1.f - a`, as binary32
computes them. -/
theorem transitionWeight_values (k : Nat) (hk : k < kTransitionSize) :
    ∃ a b : Int, transitionWeight k = .finite a ∧
      F32.sub F32.one (transitionWeight k) = .finite b ∧
      0 < a ∧ a < 2 ^ 149 ∧ 0 < b ∧ b < 2 ^ 149 ∧
      -(31 * 2 ^ 125) ≤ 31 * a - ((k : Int) + 1) * 2 ^ 149 ∧
      31 * a - ((k : Int) + 1) * 2 ^ 149 ≤ 31 * 2 ^ 125 ∧
      -(2 ^ 124) ≤ a + b - 2 ^ 149 ∧ a + b - 2 ^ 149 ≤ 2 ^ 124 := by
  unfold kTransitionSize at hk
  interval_cases k <;> exact ⟨_, _, rfl, rfl, by decide⟩

theorem toRat_eq_some (x : F32) (q : ℚ) (h : x.toRat = some q) :
    ∃ u : Int, x = .finite u ∧ q = (u : ℚ) / 2 ^ 149 := by
  cases x with
  | nan => simp [F32.toRat] at h
  | inf s => simp [F32.toRat] at h
  | finite u =>
    simp only [F32.toRat, Option.some.injEq] at h
    exact ⟨u, rfl, h.symm⟩

theorem add_eq_finite (x y : F32) (o : Int) (h : F32.add x y = .finite o) :
    ∃ p q : Int, x = .finite p ∧ y = .finite q ∧ roundUnits (p + q) 1 = .finite o := by
  cases x <;> cases y <;> simp only [F32.add] at h
  all_goals first
    | exact ⟨_, _, rfl, rfl, h⟩
    | cases h
    | split_ifs at h

theorem transitionWeight_rat (k : Nat) (hk : k < kTransitionSize) :
    ∃ a b : ℚ, (transitionWeight k).toRat = some a ∧
      (F32.sub F32.one (transitionWeight k)).toRat = some b ∧
      0 < a ∧ a < 1 ∧ 0 < b ∧ b < 1 ∧
      |a - ((k : ℚ) + 1) / 31| ≤ 1 / 2 ^ 24 ∧ |a + b - 1| ≤ 1 / 2 ^ 25 := by
  obtain ⟨a, b, ha, hb, a0, a1, b0, b1, c1, c2, d1, d2⟩ := transitionWeight_values k hk
  have a0q : (0 : ℚ) < (a : ℚ) := by exact_mod_cast a0
  have a1q : (a : ℚ) < 2 ^ 149 := by exact_mod_cast a1
  have b0q : (0 : ℚ) < (b : ℚ) := by exact_mod_cast b0
  have b1q : (b : ℚ) < 2 ^ 149 := by exact_mod_cast b1
  have c1q : -(31 * 2 ^ 125 : ℚ) ≤ 31 * (a : ℚ) - ((k : ℚ) + 1) * 2 ^ 149 := by
    exact_mod_cast c1
  have c2q : 31 * (a : ℚ) - ((k : ℚ) + 1) * 2 ^ 149 ≤ 31 * 2 ^ 125 := by exact_mod_cast c2
  have d1q : -(2 ^ 124 : ℚ) ≤ (a : ℚ) + b - 2 ^ 149 := by exact_mod_cast d1
  have d2q : (a : ℚ) + b - 2 ^ 149 ≤ 2 ^ 124 := by exact_mod_cast d2
  have hU : (0 : ℚ) < 2 ^ 149 := by positivity
  have haa : (a : ℚ) = (a : ℚ) / 2 ^ 149 * 2 ^ 149 := by field_simp
  have hbb : (b : ℚ) = (b : ℚ) / 2 ^ 149 * 2 ^ 149 := by field_simp
  refine ⟨(a : ℚ) / 2 ^ 149, (b : ℚ) / 2 ^ 149, by simp only [ha, F32.toRat],
    by simp only [hb, F32.toRat],
    div_pos a0q hU, by rw [div_lt_one hU]; exact a1q, div_pos b0q hU,
    by rw [div_lt_one hU]; exact b1q, ?_, ?_⟩
  · generalize (a : ℚ) / 2 ^ 149 = x at haa
    rw [haa] at c1q c2q
    rw [abs_le]
    constructor <;> linarith
  · generalize (a : ℚ) / 2 ^ 149 = x at haa
    generalize (b : ℚ) / 2 ^ 149 = y at hbb
    rw [haa, hbb] at d1q d2q
    rw [abs_le]
    constructor <;> linarith

/-- Rounding error of one ramp sample: when the two input samples and the
output sample are finite, the output differs from the exact linear ramp value
`w * to[k] + (1 - w) * from[k]`, `w = (k + 1) / 31`, by at most `2^-21` of the
larger input magnitude plus `2^-148`. -/
theorem transitionSample_error (from_ to_ : List F32) (k : Nat) (hk : k < kTransitionSize)
    (f t o : ℚ) (hf : (from_.getD k F32.zero).toRat = some f)
    (ht : (to_.getD k F32.zero).toRat = some t)
    (ho : (transitionSample from_ to_ k).toRat = some o) :
    |o - (((k : ℚ) + 1) / 31 * t + (1 - ((k : ℚ) + 1) / 31) * f)|
      ≤ max |f| |t| / 2 ^ 21 + 1 / 2 ^ 148 := by
  obtain ⟨x, y, hx, hy, x0, x1, y0, y1, hxw, hxy⟩ := transitionWeight_rat k hk
  obtain ⟨a, ha, rfl⟩ := toRat_eq_some _ _ hx
  obtain ⟨b, hb, rfl⟩ := toRat_eq_some _ _ hy
  obtain ⟨F, hF, rfl⟩ := toRat_eq_some _ _ hf
  obtain ⟨T, hT, rfl⟩ := toRat_eq_some _ _ ht
  obtain ⟨O, hO, rfl⟩ := toRat_eq_some _ _ ho
  unfold transitionSample at hO
  rw [hb, ha, hF, hT] at hO
  obtain ⟨P, Q, hP, hQ, hsum⟩ := add_eq_finite _ _ _ hO
  have hP' : roundUnits (a * T) (2 ^ 149) = .finite P := hP
  have hQ' : roundUnits (b * F) (2 ^ 149) = .finite Q := hQ
  have hU : (0 : ℚ) < 2 ^ 149 := by positivity
  have e1 : |(P : ℚ) - (a : ℚ) / 2 ^ 149 * T|
      ≤ |(a : ℚ) / 2 ^ 149 * T| / 2 ^ 24 + 1 / 2 := by
    have h := roundUnits_error _ _ (by positivity) _ hP'
    have hc : ((a * T : Int) : ℚ) / ((2 ^ 149 : Nat) : ℚ) = (a : ℚ) / 2 ^ 149 * T := by
      push_cast
      ring
    rw [hc] at h
    exact h
  have e2 : |(Q : ℚ) - (b : ℚ) / 2 ^ 149 * F|
      ≤ |(b : ℚ) / 2 ^ 149 * F| / 2 ^ 24 + 1 / 2 := by
    have h := roundUnits_error _ _ (by positivity) _ hQ'
    have hc : ((b * F : Int) : ℚ) / ((2 ^ 149 : Nat) : ℚ) = (b : ℚ) / 2 ^ 149 * F := by
      push_cast
      ring
    rw [hc] at h
    exact h
  have e3 : |(O : ℚ) - ((P : ℚ) + Q)| ≤ |(P : ℚ) + Q| / 2 ^ 24 + 1 / 2 := by
    have h := roundUnits_error _ _ (by norm_num) _ hsum
    have hc : ((P + Q : Int) : ℚ) / ((1 : Nat) : ℚ) = (P : ℚ) + Q := by
      push_cast
      ring
    rw [hc] at h
    exact h
  generalize (a : ℚ) / 2 ^ 149 = x at *
  generalize (b : ℚ) / 2 ^ 149 = y at *
  generalize hw : ((k : ℚ) + 1) / 31 = w at *
  have hM0 : (0 : ℚ) ≤ max |(F : ℚ)| |(T : ℚ)| := le_max_of_le_left (abs_nonneg _)
  have hFM : |(F : ℚ)| ≤ max |(F : ℚ)| |(T : ℚ)| := le_max_left _ _
  have hTM : |(T : ℚ)| ≤ max |(F : ℚ)| |(T : ℚ)| := le_max_right _ _
  have key : |(O : ℚ) - (w * T + (1 - w) * F)| ≤ max |(F : ℚ)| |(T : ℚ)| / 2 ^ 21 + 2 := by
    generalize max |(F : ℚ)| |(T : ℚ)| = M at *
    have hxT : |x * (T : ℚ)| ≤ M := by
      rw [abs_mul, abs_of_pos x0]
      calc x * |(T : ℚ)| ≤ 1 * |(T : ℚ)| :=
            mul_le_mul_of_nonneg_right x1.le (abs_nonneg _)
        _ ≤ M := by rw [one_mul]; exact hTM
    have hyF : |y * (F : ℚ)| ≤ M := by
      rw [abs_mul, abs_of_pos y0]
      calc y * |(F : ℚ)| ≤ 1 * |(F : ℚ)| :=
            mul_le_mul_of_nonneg_right y1.le (abs_nonneg _)
        _ ≤ M := by rw [one_mul]; exact hFM
    have hD : |(x - w) * (T : ℚ)| ≤ 1 / 2 ^ 24 * M := by
      rw [abs_mul]
      exact mul_le_mul hxw hTM (abs_nonneg _) (by positivity)
    have hyw : |y - (1 - w)| ≤ 1 / 2 ^ 25 + 1 / 2 ^ 24 := by
      have : y - (1 - w) = (x + y - 1) - (x - w) := by ring
      rw [this]
      exact (abs_sub _ _).trans (add_le_add hxy hxw)
    have hE : |(y - (1 - w)) * (F : ℚ)| ≤ (1 / 2 ^ 25 + 1 / 2 ^ 24) * M := by
      rw [abs_mul]
      exact mul_le_mul hyw hFM (abs_nonneg _) (by positivity)
    have hA : |(P : ℚ) - x * T| ≤ M / 2 ^ 24 + 1 / 2 := by
      refine e1.trans ?_
      have := div_le_div_of_nonneg_right hxT (by positivity : (0 : ℚ) ≤ 2 ^ 24)
      linarith
    have hB : |(Q : ℚ) - y * F| ≤ M / 2 ^ 24 + 1 / 2 := by
      refine e2.trans ?_
      have := div_le_div_of_nonneg_right hyF (by positivity : (0 : ℚ) ≤ 2 ^ 24)
      linarith
    have hPQ : |(P : ℚ) + Q| ≤ 2 * M + 2 * (M / 2 ^ 24 + 1 / 2) := by
      rw [abs_le] at hA hB hxT hyF ⊢
      constructor <;> linarith [hA.1, hA.2, hB.1, hB.2, hxT.1, hxT.2, hyF.1, hyF.2]
    have hC : |(O : ℚ) - (P + Q)| ≤ (2 * M + 2 * (M / 2 ^ 24 + 1 / 2)) / 2 ^ 24 + 1 / 2 := by
      refine e3.trans ?_
      have := div_le_div_of_nonneg_right hPQ (by positivity : (0 : ℚ) ≤ 2 ^ 24)
      linarith
    rw [abs_le] at hA hB hC hD hE ⊢
    constructor <;>
      linarith [hA.1, hA.2, hB.1, hB.2, hC.1, hC.2, hD.1, hD.2, hE.1, hE.2]
  have hscale : (O : ℚ) / 2 ^ 149 - (w * ((T : ℚ) / 2 ^ 149) + (1 - w) * ((F : ℚ) / 2 ^ 149))
      = ((O : ℚ) - (w * T + (1 - w) * F)) / 2 ^ 149 := by ring
  have hmax : max |(F : ℚ) / 2 ^ 149| |(T : ℚ) / 2 ^ 149|
      = max |(F : ℚ)| |(T : ℚ)| / 2 ^ 149 := by
    rw [abs_div, abs_div, abs_of_pos hU, max_div_div_right hU.le]
  rw [hscale, hmax, abs_div, abs_of_pos hU]
  have := div_le_div_of_nonneg_right key hU.le
  have h148 : (2 : ℚ) / 2 ^ 149 = 1 / 2 ^ 148 := by norm_num
  calc |(O : ℚ) - (w * T + (1 - w) * F)| / 2 ^ 149
      ≤ (max |(F : ℚ)| |(T : ℚ)| / 2 ^ 21 + 2) / 2 ^ 149 := this
    _ = max |(F : ℚ)| |(T : ℚ)| / 2 ^ 149 / 2 ^ 21 + 1 / 2 ^ 148 := by
        rw [add_div, h148]
        ring


theorem ramp_ok (from_ to_ out : List F32) (h1 : from_.length = to_.length)
    (h2 : from_.length = out.length) (h3 : kTransitionSize ≤ out.length) :
    SignalTransition from_ to_ out = .ok (transitionOutput from_ to_) := by
  have h4 : to_.length = out.length := h1.symm.trans h2
  simp [SignalTransition, h1, h4, h3]

theorem ramp_getD_lt (from_ to_ : List F32) (k : Nat) (hk : k < kTransitionSize) :
    (transitionOutput from_ to_).getD k F32.zero = transitionSample from_ to_ k := by
  have hlen : k < ((List.range kTransitionSize).map (transitionSample from_ to_)).length := by
    simpa using hk
  unfold transitionOutput
  rw [List.getD_append _ _ _ _ hlen]
  simp [List.getD_eq_getElem?_getD, hk]

theorem ramp_getD_ge (from_ to_ : List F32) (k : Nat) (hk : kTransitionSize ≤ k) :
    (transitionOutput from_ to_).getD k F32.zero = to_.getD k F32.zero := by
  have hlen : ((List.range kTransitionSize).map (transitionSample from_ to_)).length ≤ k := by
    simpa using hk
  unfold transitionOutput
  rw [List.getD_append_right _ _ _ _ hlen]
  simp only [List.length_map, List.length_range, List.getD_eq_getElem?_getD, List.getElem?_drop]
  congr 2
  omega

theorem ramp_length (from_ to_ : List F32) (h : kTransitionSize ≤ to_.length) :
    (transitionOutput from_ to_).length = to_.length := by
  simp [transitionOutput]
  omega

/-- The ramp weights increase strictly with the sample index. -/
theorem transitionWeight_increasing (j k : Nat) (hjk : j < k) (hk : k < kTransitionSize) :
    F32.lt (transitionWeight j) (transitionWeight k) = true := by
  obtain ⟨a, _, ha, _, _, _, _, _, a1, a2, _, _⟩ := transitionWeight_values j (hjk.trans hk)
  obtain ⟨c, _, hc, _, _, _, _, _, c1, c2, _, _⟩ := transitionWeight_values k hk
  rw [ha, hc]
  simp only [F32.lt, decide_eq_true_eq]
  have hjk' : (j : Int) + 1 ≤ (k : Int) := by exact_mod_cast hjk
  have hU : (2 : Int) ^ 149 = 2 ^ 125 * 16777216 := by norm_num
  have hp0 : (0 : Int) < 2 ^ 125 := by positivity
  rw [hU] at a1 a2 c1 c2
  generalize (2 : Int) ^ 125 = p at *
  have hp := mul_nonneg (sub_nonneg.2 hjk') hp0.le
  nlinarith

set_option maxRecDepth 100000 in
/-- C15, the claim as stated fails: fading from a block of ones to a block of
threes, the first output sample is `8929809 / 8388608`, not the value
`(1/31) * 3 + (30/31) * 1 = 33/31` of the ramp with `a_0 = 1/31`; the weight that
the code uses for sample 0 is the binary32 value `1082401 / 33554432`. -/
theorem ramp_weight_is_rounded :
    ∃ r, SignalTransition (constantBlock 64 F32.one) (constantBlock 64 (F32.ofNat 3))
        (constantBlock 64 F32.zero) = .ok r ∧
      (r.getD 0 F32.zero).toRat = some (8929809 / 8388608) ∧
      ¬ ((8929809 / 8388608 : ℚ) = 1 / 31 * 3 + (1 - 1 / 31) * 1) ∧
      (transitionWeight 0).toRat = some (1082401 / 33554432) ∧
      ¬ ((1082401 / 33554432 : ℚ) = 1 / 31) := by
  have hs : transitionSample (constantBlock 64 F32.one) (constantBlock 64 (F32.ofNat 3)) 0
      = .finite (8929809 * 2 ^ 126) := by decide
  have hw : transitionWeight 0 = .finite (1082401 * 2 ^ 124) := by decide
  refine ⟨_, ramp_ok _ _ _ rfl rfl (by decide), ?_, by norm_num, ?_, by norm_num⟩
  · rw [ramp_getD_lt _ _ 0 (by decide), hs]
    simp only [F32.toRat, Option.some.injEq]
    norm_num
  · rw [hw]
    simp only [F32.toRat, Option.some.injEq]
    norm_num

set_option maxRecDepth 100000 in
/-- C15, amended. The cross-fade is a fixed 30-sample ramp computed in binary32:
for signals `from` and `to` of equal length at least 30 (and an output buffer of
that length) `SignalTransition` returns a signal of that length, and for every
index `k < 30` the output sample is `a_k * to[k] + (1.f - a_k) * from[k]`, each
operation rounded to binary32, with `a_k = (k + 1) * (1.f / 31)` rounded as
well. The weight `a_k` is a binary32 value within `2^-24` of `(k + 1) / 31`, it
lies strictly between 0 and 1 and increases strictly with `k`, from
`1082401 / 33554432` at `k = 0` to `16236015 / 16777216` at `k = 29`; the second
weight `1.f - a_k` lies strictly between 0 and 1, and the two weights sum to 1
up to `2^-25`. -/
theorem SignalTransition_rounded_ramp (from_ to_ out : List F32)
    (h1 : from_.length = to_.length) (h2 : from_.length = out.length)
    (h3 : kTransitionSize ≤ out.length) :
    ∃ r, SignalTransition from_ to_ out = .ok r ∧ r.length = to_.length ∧
      (∀ k, k < 30 → r.getD k F32.zero =
        F32.add (F32.mul (transitionWeight k) (to_.getD k F32.zero))
          (F32.mul (F32.sub F32.one (transitionWeight k)) (from_.getD k F32.zero))) ∧
      (∀ k, k < 30 → transitionWeight k =
        F32.mul (F32.ofNat (k + 1)) (F32.div F32.one (F32.ofNat 31))) ∧
      (∀ k, k < 30 → ∃ a b : ℚ, (transitionWeight k).toRat = some a ∧
        (F32.sub F32.one (transitionWeight k)).toRat = some b ∧
        0 < a ∧ a < 1 ∧ 0 < b ∧ b < 1 ∧
        |a - ((k : ℚ) + 1) / 31| ≤ 1 / 2 ^ 24 ∧ |a + b - 1| ≤ 1 / 2 ^ 25) ∧
      (∀ j k, j < k → k < 30 → F32.lt (transitionWeight j) (transitionWeight k) = true) ∧
      (transitionWeight 0).toRat = some (1082401 / 33554432) ∧
      (transitionWeight 29).toRat = some (16236015 / 16777216) := by
  have hw0 : transitionWeight 0 = .finite (1082401 * 2 ^ 124) := by decide
  have hw29 : transitionWeight 29 = .finite (16236015 * 2 ^ 125) := by decide
  refine ⟨_, ramp_ok from_ to_ out h1 h2 h3,
    ramp_length from_ to_ (by rw [← h1, h2]; exact h3), ?_, ?_, ?_, ?_, ?_, ?_⟩
  · intro k hk
    rw [ramp_getD_lt from_ to_ k hk]
    rfl
  · intro k _
    rfl
  · intro k hk
    exact transitionWeight_rat k hk
  · intro j k hjk hk
    exact transitionWeight_increasing j k hjk hk
  · rw [hw0]
    simp only [F32.toRat, Option.some.injEq]
    norm_num
  · rw [hw29]
    simp only [F32.toRat, Option.some.injEq]
    norm_num

/-- Witness of C15: a fade from a block of ones to a block of threes. -/
theorem SignalTransition_rounded_ramp_witness :
    ∃ r, SignalTransition (constantBlock 64 F32.one) (constantBlock 64 (F32.ofNat 3))
        (constantBlock 64 F32.zero) = .ok r ∧ r.length = 64 ∧
      r.getD 0 F32.zero =
        F32.add (F32.mul (transitionWeight 0) (F32.ofNat 3))
          (F32.mul (F32.sub F32.one (transitionWeight 0)) F32.one) := by
  obtain ⟨r, hr, hlen, hramp, _⟩ :=
    SignalTransition_rounded_ramp (constantBlock 64 F32.one) (constantBlock 64 (F32.ofNat 3))
      (constantBlock 64 F32.zero) (by simp [constantBlock]) (by simp [constantBlock])
      (by simp [constantBlock, kTransitionSize])
  exact ⟨r, hr, by simpa [constantBlock] using hlen,
    by simpa [constantBlock] using hramp 0 (by norm_num)⟩

/-- A ramp sample of finite inputs lies between them up to the rounding error,
and strictly between them when they are further apart than 31 times that
error. -/
theorem transitionSample_between_rounded (from_ to_ : List F32) (k : Nat)
    (hk : k < kTransitionSize) (f t o : ℚ)
    (hf : (from_.getD k F32.zero).toRat = some f)
    (ht : (to_.getD k F32.zero).toRat = some t)
    (ho : (transitionSample from_ to_ k).toRat = some o) :
    min f t - (max |f| |t| / 2 ^ 21 + 1 / 2 ^ 148) ≤ o ∧
    o ≤ max f t + (max |f| |t| / 2 ^ 21 + 1 / 2 ^ 148) ∧
    (31 * (max |f| |t| / 2 ^ 21 + 1 / 2 ^ 148) < |t - f| → min f t < o ∧ o < max f t) := by
  have herr := transitionSample_error from_ to_ k hk f t o hf ht ho
  have hk' : (k : ℚ) + 1 ≤ 30 := by
    have : k + 1 ≤ 30 := hk
    exact_mod_cast this
  have hk0 : (0 : ℚ) ≤ (k : ℚ) := Nat.cast_nonneg k
  have hw1 : (1 : ℚ) / 31 ≤ ((k : ℚ) + 1) / 31 := by
    apply div_le_div_of_nonneg_right _ (by norm_num)
    linarith
  have hw2 : ((k : ℚ) + 1) / 31 ≤ 30 / 31 := by
    apply div_le_div_of_nonneg_right hk' (by norm_num)
  generalize ((k : ℚ) + 1) / 31 = w at *
  generalize max |f| |t| / 2 ^ 21 + 1 / 2 ^ 148 = δ at *
  rw [abs_le] at herr
  rcases le_total f t with h | h
  · rw [min_eq_left h, max_eq_right h, abs_of_nonneg (sub_nonneg.2 h)]
    have m1 : 1 / 31 * (t - f) ≤ w * (t - f) :=
      mul_le_mul_of_nonneg_right hw1 (sub_nonneg.2 h)
    have m2 : w * (t - f) ≤ 30 / 31 * (t - f) :=
      mul_le_mul_of_nonneg_right hw2 (sub_nonneg.2 h)
    refine ⟨by nlinarith, by nlinarith, fun hsep => ⟨by nlinarith, by nlinarith⟩⟩
  · rw [min_eq_right h, max_eq_left h, abs_of_nonpos (sub_nonpos.2 h)]
    have m1 : 1 / 31 * (f - t) ≤ w * (f - t) :=
      mul_le_mul_of_nonneg_right hw1 (sub_nonneg.2 h)
    have m2 : w * (f - t) ≤ 30 / 31 * (f - t) :=
      mul_le_mul_of_nonneg_right hw2 (sub_nonneg.2 h)
    refine ⟨by nlinarith, by nlinarith, fun hsep => ⟨by nlinarith, by nlinarith⟩⟩

set_option maxRecDepth 100000 in
/-- C3, the claim as stated fails: fading from a block of ones to a block of
the next binary32 value above one, no output sample of the first 30 is strictly
between the two input samples, although these differ. -/
theorem SignalTransition_not_strictly_between :
    ∃ r, SignalTransition (constantBlock 64 F32.one) (constantBlock 64 nextAboveOne)
        (constantBlock 64 F32.zero) = .ok r ∧
      F32.lt F32.one nextAboveOne = true ∧
      ∀ k, k < 30 →
        ¬ (F32.lt ((constantBlock 64 F32.one).getD k F32.zero) (r.getD k F32.zero) = true ∧
          F32.lt (r.getD k F32.zero) ((constantBlock 64 nextAboveOne).getD k F32.zero) = true) := by
  refine ⟨_, ramp_ok _ _ _ rfl rfl (by decide), by decide, ?_⟩
  intro k hk
  rw [ramp_getD_lt _ _ k hk]
  interval_cases k <;> decide

/-- C3, amended. For signals `from` and `to` of equal length at least 30 (and
an output buffer of that length) `SignalTransition` returns; for every index
`k >= 30` the output sample equals `to[k]` exactly; for every index `k < 30`
with finite samples the output sample lies between `from[k]` and `to[k]` up to
the rounding error of the binary32 operations, at most
`2^-21 * max(|from[k]|, |to[k]|) + 2^-148`, and strictly between them when they
are further apart than 31 times that bound. -/
theorem SignalTransition_between_rounded (from_ to_ out : List F32)
    (h1 : from_.length = to_.length) (h2 : from_.length = out.length)
    (h3 : kTransitionSize ≤ out.length) :
    ∃ r, SignalTransition from_ to_ out = .ok r ∧
      (∀ k, 30 ≤ k → r.getD k F32.zero = to_.getD k F32.zero) ∧
      (∀ k, k < 30 → ∀ f t o : ℚ, (from_.getD k F32.zero).toRat = some f →
        (to_.getD k F32.zero).toRat = some t → (r.getD k F32.zero).toRat = some o →
        min f t - (max |f| |t| / 2 ^ 21 + 1 / 2 ^ 148) ≤ o ∧
        o ≤ max f t + (max |f| |t| / 2 ^ 21 + 1 / 2 ^ 148) ∧
        (31 * (max |f| |t| / 2 ^ 21 + 1 / 2 ^ 148) < |t - f| → min f t < o ∧ o < max f t)) := by
  refine ⟨_, ramp_ok from_ to_ out h1 h2 h3, ?_, ?_⟩
  · intro k hk
    exact ramp_getD_ge from_ to_ k hk
  · intro k hk f t o hf ht ho
    rw [ramp_getD_lt from_ to_ k hk] at ho
    exact transitionSample_between_rounded from_ to_ k hk f t o hf ht ho

set_option maxRecDepth 100000 in
/-- Witness of C3: a fade from a block of ones to a block of threes; the first
output sample lies strictly between 1 and 3. -/
theorem SignalTransition_between_rounded_witness :
    ∃ r, SignalTransition (constantBlock 64 F32.one) (constantBlock 64 (F32.ofNat 3))
        (constantBlock 64 F32.zero) = .ok r ∧
      r.getD 40 F32.zero = F32.ofNat 3 ∧
      ∃ o : ℚ, (r.getD 0 F32.zero).toRat = some o ∧ 1 < o ∧ o < 3 := by
  obtain ⟨r, hr, hge, hlt⟩ :=
    SignalTransition_between_rounded (constantBlock 64 F32.one)
      (constantBlock 64 (F32.ofNat 3)) (constantBlock 64 F32.zero) rfl rfl (by decide)
  have hone : ((constantBlock 64 F32.one).getD 0 F32.zero).toRat = some 1 := by
    have h : (constantBlock 64 F32.one).getD 0 F32.zero = .finite (2 ^ 149) := by decide
    rw [h]
    simp only [F32.toRat, Option.some.injEq]
    norm_num
  have hthree : ((constantBlock 64 (F32.ofNat 3)).getD 0 F32.zero).toRat = some 3 := by
    have h : (constantBlock 64 (F32.ofNat 3)).getD 0 F32.zero = .finite (3 * 2 ^ 149) := by
      decide
    rw [h]
    simp only [F32.toRat, Option.some.injEq]
    norm_num
  have hr0 : r = transitionOutput (constantBlock 64 F32.one) (constantBlock 64 (F32.ofNat 3)) :=
    (Except.ok.inj (hr.symm.trans (ramp_ok _ _ _ rfl rfl (by decide))))
  have hs : transitionSample (constantBlock 64 F32.one) (constantBlock 64 (F32.ofNat 3)) 0
      = .finite (8929809 * 2 ^ 126) := by decide
  have ho : (r.getD 0 F32.zero).toRat = some (8929809 / 8388608) := by
    rw [hr0, ramp_getD_lt _ _ 0 (by decide), hs]
    simp only [F32.toRat, Option.some.injEq]
    norm_num
  obtain ⟨_, _, hstrict⟩ := hlt 0 (by norm_num) 1 3 (8929809 / 8388608) hone hthree ho
  have hsep := hstrict (by norm_num [abs_of_pos])
  refine ⟨r, hr, ?_, 8929809 / 8388608, ho, ?_, ?_⟩
  · rw [hge 40 (by norm_num)]
    decide
  · simpa using hsep.1
  · simpa using hsep.2

theorem mul_finite_zero (a : Int) : F32.mul (.finite a) F32.zero = F32.zero := by
  simp [F32.mul, F32.zero, roundUnits_zero]

theorem add_zero_zero : F32.add F32.zero F32.zero = F32.zero := by
  simp [F32.add, F32.zero, roundUnits_zero]

theorem sub_self_finite (u : Int) : F32.sub (.finite u) (.finite u) = F32.zero := by
  simp [F32.sub, F32.neg, F32.add, F32.zero, roundUnits_zero]

/-- A ramp sample of two zero samples is zero. -/
theorem transitionSample_zero (from_ to_ : List F32) (k : Nat) (hk : k < kTransitionSize)
    (hf : from_.getD k F32.zero = F32.zero) (ht : to_.getD k F32.zero = F32.zero) :
    transitionSample from_ to_ k = F32.zero := by
  obtain ⟨a, b, ha, hb, _⟩ := transitionWeight_values k hk
  unfold transitionSample
  rw [hb, ha, hf, ht, mul_finite_zero, mul_finite_zero, add_zero_zero]

theorem getD_replicate_zero (n k : Nat) :
    (List.replicate n F32.zero).getD k F32.zero = F32.zero := by
  rw [List.getD_eq_getElem?_getD, List.getElem?_replicate]
  split_ifs <;> rfl

set_option maxRecDepth 100000 in
/-- C24, the claim as stated fails: cross-fading a block of threes into itself
does not return it unchanged: output sample 2 is `12582911 / 4194304`, the
binary32 value next below 3, which lies outside the closed interval between the
two inputs. -/
theorem self_crossfade_changes_signal :
    ∃ r, SignalTransition (constantBlock 64 (F32.ofNat 3)) (constantBlock 64 (F32.ofNat 3))
        (constantBlock 64 F32.zero) = .ok r ∧
      (r.getD 2 F32.zero).toRat = some (12582911 / 4194304) ∧
      ((constantBlock 64 (F32.ofNat 3)).getD 2 F32.zero).toRat = some 3 ∧
      F32.lt (r.getD 2 F32.zero) ((constantBlock 64 (F32.ofNat 3)).getD 2 F32.zero) = true ∧
      r ≠ constantBlock 64 (F32.ofNat 3) := by
  have hs : transitionSample (constantBlock 64 (F32.ofNat 3)) (constantBlock 64 (F32.ofNat 3)) 2
      = .finite (12582911 * 2 ^ 127) := by decide
  have h3 : (constantBlock 64 (F32.ofNat 3)).getD 2 F32.zero = .finite (3 * 2 ^ 149) := by
    decide
  have hr2 : (transitionOutput (constantBlock 64 (F32.ofNat 3))
      (constantBlock 64 (F32.ofNat 3))).getD 2 F32.zero = .finite (12582911 * 2 ^ 127) := by
    rw [ramp_getD_lt _ _ 2 (by decide), hs]
  refine ⟨_, ramp_ok _ _ _ (by simp [constantBlock]) (by simp [constantBlock])
    (by simp [constantBlock, kTransitionSize]), ?_, ?_, ?_, ?_⟩
  · rw [hr2]
    simp only [F32.toRat, Option.some.injEq]
    norm_num
  · rw [h3]
    simp only [F32.toRat, Option.some.injEq]
    norm_num
  · rw [hr2, h3]
    decide
  · intro h
    have h2 := congrArg (fun l => l.getD 2 F32.zero) h
    simp only [hr2, h3] at h2
    revert h2
    decide

/-- C24, amended. For signals `from` and `to` of equal length at least 30 (and
an output buffer of that length) `SignalTransition` returns a signal of the same
length; every output sample with `k >= 30` equals `to[k]`, and every output
sample with `k < 30` and finite input samples lies in the closed interval
between `from[k]` and `to[k]` up to the rounding error of the binary32
operations, at most `2^-21 * max(|from[k]|, |to[k]|) + 2^-148`. Cross-fading a
signal with itself returns its samples from index 30 on unchanged and its first
30 samples up to that rounding error; two all-zero inputs give an all-zero
output. -/
theorem SignalTransition_interval_rounded (from_ to_ out : List F32)
    (h1 : from_.length = to_.length) (h2 : from_.length = out.length)
    (h3 : kTransitionSize ≤ out.length) :
    ∃ r, SignalTransition from_ to_ out = .ok r ∧ r.length = to_.length ∧
      (∀ k, 30 ≤ k → r.getD k F32.zero = to_.getD k F32.zero) ∧
      (∀ k, k < 30 → ∀ f t o : ℚ, (from_.getD k F32.zero).toRat = some f →
        (to_.getD k F32.zero).toRat = some t → (r.getD k F32.zero).toRat = some o →
        min f t - (max |f| |t| / 2 ^ 21 + 1 / 2 ^ 148) ≤ o ∧
        o ≤ max f t + (max |f| |t| / 2 ^ 21 + 1 / 2 ^ 148)) ∧
      (from_ = to_ → ∀ k, k < 30 → ∀ s o : ℚ, (to_.getD k F32.zero).toRat = some s →
        (r.getD k F32.zero).toRat = some o → |o - s| ≤ |s| / 2 ^ 21 + 1 / 2 ^ 148) ∧
      (from_ = List.replicate from_.length F32.zero →
        to_ = List.replicate to_.length F32.zero → r = to_) := by
  have hlen : (transitionOutput from_ to_).length = to_.length :=
    ramp_length from_ to_ (by rw [← h1, h2]; exact h3)
  refine ⟨_, ramp_ok from_ to_ out h1 h2 h3, hlen, ?_, ?_, ?_, ?_⟩
  · intro k hk
    exact ramp_getD_ge from_ to_ k hk
  · intro k hk f t o hf ht ho
    rw [ramp_getD_lt from_ to_ k hk] at ho
    obtain ⟨hlo, hhi, _⟩ := transitionSample_between_rounded from_ to_ k hk f t o hf ht ho
    exact ⟨hlo, hhi⟩
  · intro hsame k hk s o hs ho
    rw [ramp_getD_lt from_ to_ k hk] at ho
    have herr := transitionSample_error from_ to_ k hk s s o (by rw [hsame]; exact hs) hs ho
    have he : ((k : ℚ) + 1) / 31 * s + (1 - ((k : ℚ) + 1) / 31) * s = s := by ring
    rw [he, max_self] at herr
    exact herr
  · intro hf ht
    apply List.ext_getElem (by rw [hlen])
    intro k hk1 hk2
    have hk : (transitionOutput from_ to_)[k] = (transitionOutput from_ to_).getD k F32.zero := by
      rw [List.getD_eq_getElem _ _ hk1]
    have hk' : to_[k] = to_.getD k F32.zero := by
      rw [List.getD_eq_getElem _ _ hk2]
    have hto : to_.getD k F32.zero = F32.zero := by
      rw [ht]
      exact getD_replicate_zero _ _
    rw [hk, hk', hto]
    by_cases h30 : k < kTransitionSize
    · rw [ramp_getD_lt from_ to_ k h30]
      apply transitionSample_zero from_ to_ k h30 _ hto
      rw [hf]
      exact getD_replicate_zero _ _
    · rw [ramp_getD_ge from_ to_ k (not_lt.1 h30)]
      exact hto

/-- Witness of C24: cross-fading silence into silence gives silence. -/
theorem SignalTransition_interval_rounded_witness :
    SignalTransition (constantBlock 64 F32.zero) (constantBlock 64 F32.zero)
      (constantBlock 64 F32.zero) = .ok (constantBlock 64 F32.zero) := by
  obtain ⟨r, hr, _, _, _, _, hz⟩ :=
    SignalTransition_interval_rounded (constantBlock 64 F32.zero) (constantBlock 64 F32.zero)
      (constantBlock 64 F32.zero) rfl rfl (by simp [constantBlock, kTransitionSize])
  rw [hr, hz (by simp [constantBlock]) (by simp [constantBlock])]

theorem mul_self_not_negative (x : F32) :
    F32.mul x x = .nan ∨ F32.mul x x = .inf false ∨
      ∃ u : Int, 0 ≤ u ∧ F32.mul x x = .finite u := by
  cases x with
  | nan => exact Or.inl rfl
  | inf s =>
    right
    left
    simp [F32.mul]
  | finite v =>
    simp only [F32.mul]
    cases h : roundUnits (v * v) (2 ^ 149) with
    | nan => exact Or.inl rfl
    | inf s =>
      right
      left
      have hs := roundUnits_inf _ _ _ h
      rw [hs]
      simp [not_lt.2 (mul_self_nonneg v)]
    | finite u =>
      right
      right
      exact ⟨u, (roundUnits_sign _ _ _ h).1 (mul_self_nonneg v), rfl⟩

theorem add_not_negative (x y : F32)
    (hx : x = .nan ∨ x = .inf false ∨ ∃ u : Int, 0 ≤ u ∧ x = .finite u)
    (hy : y = .nan ∨ y = .inf false ∨ ∃ u : Int, 0 ≤ u ∧ y = .finite u) :
    F32.add x y = .nan ∨ F32.add x y = .inf false ∨
      ∃ u : Int, 0 ≤ u ∧ F32.add x y = .finite u := by
  rcases hx with rfl | rfl | ⟨u, hu, rfl⟩
  · exact Or.inl (by cases y <;> rfl)
  · rcases hy with rfl | rfl | ⟨v, _, rfl⟩
    · exact Or.inl rfl
    · right
      left
      simp [F32.add]
    · right
      left
      simp [F32.add]
  · rcases hy with rfl | rfl | ⟨v, hv, rfl⟩
    · exact Or.inl rfl
    · right
      left
      simp [F32.add]
    · simp only [F32.add]
      cases h : roundUnits (u + v) 1 with
      | nan => exact Or.inl rfl
      | inf s =>
        right
        left
        have hs := roundUnits_inf _ _ _ h
        rw [hs]
        simp [not_lt.2 (add_nonneg hu hv)]
      | finite w =>
        right
        right
        exact ⟨w, (roundUnits_sign _ _ _ h).1 (add_nonneg hu hv), rfl⟩

theorem not_negative_lt_zero (x : F32)
    (hx : x = .nan ∨ x = .inf false ∨ ∃ u : Int, 0 ≤ u ∧ x = .finite u) :
    F32.lt x F32.zero = false := by
  rcases hx with rfl | rfl | ⟨u, hu, rfl⟩
  · rfl
  · rfl
  · simp only [F32.lt, F32.zero, decide_eq_false_iff_not, not_lt]
    exact hu

theorem LinearEchoPower_bin (E Y : FftData) (k : Nat) (hk : k < E.re.length) :
    (LinearEchoPower E Y).getD k F32.zero =
      F32.add
        (F32.mul (F32.sub (Y.re.getD k F32.zero) (E.re.getD k F32.zero))
          (F32.sub (Y.re.getD k F32.zero) (E.re.getD k F32.zero)))
        (F32.mul (F32.sub (Y.im.getD k F32.zero) (E.im.getD k F32.zero))
          (F32.sub (Y.im.getD k F32.zero) (E.im.getD k F32.zero))) := by
  unfold LinearEchoPower
  simp [List.getD_eq_getElem?_getD, hk]

set_option maxRecDepth 100000 in
/-- C16, the claim as stated fails: with `Y.re[0]` the float `1e-30f`, `E.re[0]`
zero and both imaginary parts zero, the spectra differ at bin 0 and yet
`S2[0]` is zero: the square of the difference rounds to zero in binary32. -/
theorem LinearEchoPower_underflow :
    (LinearEchoPower (realSpectrum F32.zero)
      (realSpectrum (F32.ofRatio 1 (10 ^ 30)))).getD 0 F32.one = F32.zero ∧
    ((realSpectrum (F32.ofRatio 1 (10 ^ 30))).re.getD 0 F32.zero).toRat
      = some (332307 / 2 ^ 118) ∧
    ((realSpectrum F32.zero).re.getD 0 F32.zero).toRat = some 0 ∧
    (realSpectrum (F32.ofRatio 1 (10 ^ 30))).re.getD 0 F32.zero
      ≠ (realSpectrum F32.zero).re.getD 0 F32.zero := by
  have hy : (realSpectrum (F32.ofRatio 1 (10 ^ 30))).re.getD 0 F32.zero
      = .finite (332307 * 2 ^ 31) := by decide
  have he : (realSpectrum F32.zero).re.getD 0 F32.zero = .finite 0 := by decide
  refine ⟨by decide, ?_, ?_, ?_⟩
  · rw [hy]
    simp only [F32.toRat, Option.some.injEq]
    norm_num
  · rw [he]
    simp [F32.toRat]
  · rw [hy, he]
    decide

/-- C16, amended. For spectra `E` (linear output) and `Y` (capture),
`LinearEchoPower` writes one value per bin of `E`, and for every bin `k` it
writes `S2[k] = (Y.re[k] - E.re[k]) * (Y.re[k] - E.re[k]) + (Y.im[k] - E.im[k]) *
(Y.im[k] - E.im[k])` with every operation rounded to binary32. `S2[k]` is never
negative (it is NaN, plus infinity or a finite value that is not below zero),
and it is zero when `Y` and `E` hold the same finite values at bin `k`; it can
be zero when they differ. -/
theorem LinearEchoPower_rounded_power (E Y : FftData) :
    (LinearEchoPower E Y).length = E.re.length ∧
    ∀ k, k < E.re.length →
      (LinearEchoPower E Y).getD k F32.zero =
        F32.add
          (F32.mul (F32.sub (Y.re.getD k F32.zero) (E.re.getD k F32.zero))
            (F32.sub (Y.re.getD k F32.zero) (E.re.getD k F32.zero)))
          (F32.mul (F32.sub (Y.im.getD k F32.zero) (E.im.getD k F32.zero))
            (F32.sub (Y.im.getD k F32.zero) (E.im.getD k F32.zero))) ∧
      F32.lt ((LinearEchoPower E Y).getD k F32.zero) F32.zero = false ∧
      ((LinearEchoPower E Y).getD k F32.zero = .nan ∨
        (LinearEchoPower E Y).getD k F32.zero = .inf false ∨
        ∃ u : Int, 0 ≤ u ∧ (LinearEchoPower E Y).getD k F32.zero = .finite u) ∧
      (∀ re im : Int, Y.re.getD k F32.zero = .finite re → E.re.getD k F32.zero = .finite re →
        Y.im.getD k F32.zero = .finite im → E.im.getD k F32.zero = .finite im →
        (LinearEchoPower E Y).getD k F32.zero = F32.zero) := by
  refine ⟨by simp [LinearEchoPower], ?_⟩
  intro k hk
  have hbin := LinearEchoPower_bin E Y k hk
  have hnn := add_not_negative _ _
    (mul_self_not_negative (F32.sub (Y.re.getD k F32.zero) (E.re.getD k F32.zero)))
    (mul_self_not_negative (F32.sub (Y.im.getD k F32.zero) (E.im.getD k F32.zero)))
  rw [← hbin] at hnn
  refine ⟨hbin, not_negative_lt_zero _ hnn, hnn, ?_⟩
  intro re im h1 h2 h3 h4
  rw [hbin, h1, h2, h3, h4, sub_self_finite, sub_self_finite]
  have hz : F32.mul F32.zero F32.zero = F32.zero := mul_finite_zero 0
  rw [hz, add_zero_zero]

set_option maxRecDepth 100000 in
/-- Witness of C16: a spectrum against itself gives zero power at bin 3. -/
theorem LinearEchoPower_rounded_power_witness :
    (LinearEchoPower (realSpectrum F32.one) (realSpectrum F32.one)).getD 3 F32.one
      = F32.zero := by
  have h := (LinearEchoPower_rounded_power (realSpectrum F32.one) (realSpectrum F32.one)).2 3
    (by simp [realSpectrum, constantBlock])
  have hb := h.2.2.2 (2 ^ 149) 0 (by decide) (by decide) (by decide) (by decide)
  have hlen : 3 < (LinearEchoPower (realSpectrum F32.one) (realSpectrum F32.one)).length := by
    simp [LinearEchoPower, realSpectrum, constantBlock]
  rw [List.getD_eq_getElem _ _ hlen] at hb ⊢
  exact hb

/-- When its checks pass, `FormLinearFilterOutput` returns and stores the
choice `use_main_output`. -/
theorem FormLinearFilterOutput_returns {C : Aec3} (st : EchoRemoverImpl C)
    (o : SubtractorOutput) (output : List F32)
    (hm : o.e_main.length = output.length) (hs : o.e_shadow.length = output.length)
    (h30 : kTransitionSize ≤ output.length) :
    ∃ out, FormLinearFilterOutput st o output =
      .ok ({ st with main_filter_output_last_selected_ :=
                use_main_output C st.use_shadow_filter_output_ o }, out) := by
  have hsm : o.e_shadow.length = o.e_main.length := hs.trans hm.symm
  unfold FormLinearFilterOutput
  rw [if_neg (by simp [hm]), if_neg (by simp [hs])]
  cases hu : use_main_output C st.use_shadow_filter_output_ o <;>
    cases hl : st.main_filter_output_last_selected_ <;>
    simp [ramp_ok, hm, hs, hsm, hsm.symm, h30]

theorem use_main_output_eq_false_iff (C : Aec3) (o : SubtractorOutput) :
    use_main_output C true o = false ↔
      ((F32.lt o.e2_shadow (F32.mul (F32.ofRatio 9 10) o.e2_main) = true ∧
          F32.lt (F32.mul (F32.mul (F32.ofNat 30) (F32.ofNat 30)) (F32.ofNat C.kBlockSize))
            o.y2 = true ∧
          (F32.lt (F32.mul (F32.mul (F32.ofNat 60) (F32.ofNat 60)) (F32.ofNat C.kBlockSize))
              o.s2_main = true ∨
            F32.lt (F32.mul (F32.mul (F32.ofNat 60) (F32.ofNat 60)) (F32.ofNat C.kBlockSize))
              o.s2_shadow = true)) ∨
        (F32.lt o.e2_shadow o.e2_main = true ∧ F32.lt o.y2 o.e2_main = true)) := by
  unfold use_main_output
  simp only [if_true, Bool.and_eq_true, Bool.or_eq_true]
  split_ifs with h1 h2
  · simp [h1]
  · simp [h2]
  · simp only [Bool.true_eq_false, false_iff, not_or]
    exact ⟨fun h => h1 ⟨⟨h.1, h.2.1⟩, h.2.2⟩, h2⟩

set_option maxRecDepth 100000 in
/-- The margin `0.9f * e2_main` of the first shadow condition: `0.9f` is the
binary32 value `7549747 / 8388608`, and a finite product is within
`2^-23 * |e2_main| + 2^-150` of `0.9 * e2_main`. -/
theorem shadow_margin_error (e2_main : F32) :
    (F32.ofRatio 9 10).toRat = some (7549747 / 8388608) ∧
    ∀ x m : ℚ, e2_main.toRat = some x →
      (F32.mul (F32.ofRatio 9 10) e2_main).toRat = some m →
      |m - 9 / 10 * x| ≤ |x| / 2 ^ 23 + 1 / 2 ^ 150 := by
  have hc : F32.ofRatio 9 10 = .finite (7549747 * 2 ^ 126) := by decide
  constructor
  · rw [hc]
    simp only [F32.toRat, Option.some.injEq]
    norm_num
  · intro x m hx hm
    obtain ⟨X, hX, rfl⟩ := toRat_eq_some _ _ hx
    obtain ⟨M, hM, rfl⟩ := toRat_eq_some _ _ hm
    rw [hc, hX] at hM
    have hM' : roundUnits (7549747 * 2 ^ 126 * X) (2 ^ 149) = .finite M := hM
    have hU : (0 : ℚ) < 2 ^ 149 := by positivity
    have e1 : |(M : ℚ) - 7549747 / 8388608 * X|
        ≤ |7549747 / 8388608 * (X : ℚ)| / 2 ^ 24 + 1 / 2 := by
      have h := roundUnits_error _ _ (by positivity) _ hM'
      have hcast : ((7549747 * 2 ^ 126 * X : Int) : ℚ) / ((2 ^ 149 : Nat) : ℚ)
          = 7549747 / 8388608 * X := by
        push_cast
        ring
      rw [hcast] at h
      exact h
    have habs : |7549747 / 8388608 * (X : ℚ)| = 7549747 / 8388608 * |(X : ℚ)| := by
      rw [abs_mul, abs_of_pos (by norm_num : (0 : ℚ) < 7549747 / 8388608)]
    rw [habs] at e1
    have hd : |(7549747 / 8388608 - 9 / 10) * (X : ℚ)| = 1 / 41943040 * |(X : ℚ)| := by
      rw [abs_mul]
      norm_num [abs_of_neg]
    have hscale : (M : ℚ) / 2 ^ 149 - 9 / 10 * ((X : ℚ) / 2 ^ 149)
        = ((M : ℚ) - 9 / 10 * X) / 2 ^ 149 := by ring
    rw [hscale, abs_div, abs_div, abs_of_pos hU]
    have key : |(M : ℚ) - 9 / 10 * X| ≤ |(X : ℚ)| / 2 ^ 23 + 1 / 2 := by
      have hx0 := abs_nonneg (X : ℚ)
      generalize |(X : ℚ)| = A at *
      rw [abs_le] at e1 ⊢
      have hd' := hd
      rw [abs_eq (by positivity)] at hd'
      constructor <;> rcases hd' with h | h <;> nlinarith [e1.1, e1.2]
    have := div_le_div_of_nonneg_right key hU.le
    have h150 : (1 : ℚ) / 2 / 2 ^ 149 = 1 / 2 ^ 150 := by norm_num
    calc |(M : ℚ) - 9 / 10 * X| / 2 ^ 149 ≤ (|(X : ℚ)| / 2 ^ 23 + 1 / 2) / 2 ^ 149 := this
      _ = |(X : ℚ)| / 2 ^ 149 / 2 ^ 23 + 1 / 2 ^ 150 := by
          rw [add_div, h150]
          ring

set_option maxRecDepth 100000 in
/-- C1, the claim as stated fails: with `e2_shadow` the float `0.9f`,
`e2_main = 1`, `y2 = 60000` and `s2_main = 300000` (64-sample blocks) the
condition of the claim holds, as `0.9f < 0.9`, but `FormLinearFilterOutput`
selects the main filter: the product `0.9f * e2_main` is `0.9f`, which
`e2_shadow` is not below. -/
theorem shadow_margin_is_rounded :
    ∃ st' out, FormLinearFilterOutput (unitGainRemover true 16000 1 1) marginOutput
        (constantBlock 64 F32.zero) = .ok (st', out) ∧
      (unitGainRemover true 16000 1 1).use_shadow_filter_output_ = true ∧
      st'.main_filter_output_last_selected_ = true ∧
      ∃ e2_shadow e2_main y2 s2_main : ℚ,
        marginOutput.e2_shadow.toRat = some e2_shadow ∧
        marginOutput.e2_main.toRat = some e2_main ∧
        marginOutput.y2.toRat = some y2 ∧
        marginOutput.s2_main.toRat = some s2_main ∧
        e2_shadow < 9 / 10 * e2_main ∧ y2 > 30 * 30 * (unitGain.kBlockSize : ℚ) ∧
        s2_main > 60 * 60 * (unitGain.kBlockSize : ℚ) := by
  obtain ⟨out, h⟩ := FormLinearFilterOutput_returns (unitGainRemover true 16000 1 1)
    marginOutput (constantBlock 64 F32.zero) (by simp [marginOutput, constantBlock])
    (by simp [marginOutput, constantBlock]) (by simp [constantBlock, kTransitionSize])
  have hflag : use_main_output unitGain true marginOutput = true := by decide
  have h1 : marginOutput.e2_shadow = .finite (7549747 * 2 ^ 126) := by decide
  have h2 : marginOutput.e2_main = .finite (2 ^ 149) := by decide
  have h3 : marginOutput.y2 = .finite (60000 * 2 ^ 149) := by decide
  have h4 : marginOutput.s2_main = .finite (300000 * 2 ^ 149) := by decide
  refine ⟨_, out, h, rfl, hflag, 7549747 / 8388608, 1, 60000, 300000, ?_, ?_, ?_, ?_,
    by norm_num, by norm_num [unitGain], by norm_num [unitGain]⟩
  · rw [h1]
    simp only [F32.toRat, Option.some.injEq]
    norm_num
  · rw [h2]
    simp only [F32.toRat, Option.some.injEq]
    norm_num
  · rw [h3]
    simp only [F32.toRat, Option.some.injEq]
    norm_num
  · rw [h4]
    simp only [F32.toRat, Option.some.injEq]
    norm_num

set_option maxRecDepth 100000 in
/-- C1, amended. With shadow-output usage enabled, `FormLinearFilterOutput`
returns, and the selection it stores in `main_filter_output_last_selected_` is
the shadow filter (flag false) exactly when
`(e2_shadow < m AND y2 > t30 AND (s2_main > t60 OR s2_shadow > t60)) OR
(e2_shadow < e2_main AND y2 < e2_main)`, and the main filter (flag true) in
every other case. Here `m` is the binary32 product `0.9f * e2_main`, with
`0.9f = 7549747 / 8388608`; a finite `m` is within `2^-23 * |e2_main| + 2^-150`
of `0.9 * e2_main`. `t30` and `t60` are the binary32 products
`30.f * 30.f * kBlockSize` and `60.f * 60.f * kBlockSize`, which are
`30 * 30 * 64` and `60 * 60 * 64` for blocks of 64 samples. The comparisons are
those of binary32: exact on finite values, false when a side is NaN. -/
theorem FormLinearFilterOutput_selects_shadow_iff {C : Aec3} (st : EchoRemoverImpl C)
    (o : SubtractorOutput) (output : List F32)
    (huse : st.use_shadow_filter_output_ = true)
    (hm : o.e_main.length = output.length) (hs : o.e_shadow.length = output.length)
    (h30 : kTransitionSize ≤ output.length) :
    ∃ st' out, FormLinearFilterOutput st o output = .ok (st', out) ∧
      (st'.main_filter_output_last_selected_ = false ↔
        ((F32.lt o.e2_shadow (F32.mul (F32.ofRatio 9 10) o.e2_main) = true ∧
            F32.lt (F32.mul (F32.mul (F32.ofNat 30) (F32.ofNat 30)) (F32.ofNat C.kBlockSize))
              o.y2 = true ∧
            (F32.lt (F32.mul (F32.mul (F32.ofNat 60) (F32.ofNat 60)) (F32.ofNat C.kBlockSize))
                o.s2_main = true ∨
              F32.lt (F32.mul (F32.mul (F32.ofNat 60) (F32.ofNat 60)) (F32.ofNat C.kBlockSize))
                o.s2_shadow = true)) ∨
          (F32.lt o.e2_shadow o.e2_main = true ∧ F32.lt o.y2 o.e2_main = true))) ∧
      (st'.main_filter_output_last_selected_ = true ↔
        ¬ ((F32.lt o.e2_shadow (F32.mul (F32.ofRatio 9 10) o.e2_main) = true ∧
            F32.lt (F32.mul (F32.mul (F32.ofNat 30) (F32.ofNat 30)) (F32.ofNat C.kBlockSize))
              o.y2 = true ∧
            (F32.lt (F32.mul (F32.mul (F32.ofNat 60) (F32.ofNat 60)) (F32.ofNat C.kBlockSize))
                o.s2_main = true ∨
              F32.lt (F32.mul (F32.mul (F32.ofNat 60) (F32.ofNat 60)) (F32.ofNat C.kBlockSize))
                o.s2_shadow = true)) ∨
          (F32.lt o.e2_shadow o.e2_main = true ∧ F32.lt o.y2 o.e2_main = true))) ∧
      (F32.ofRatio 9 10).toRat = some (7549747 / 8388608) ∧
      (∀ x m : ℚ, o.e2_main.toRat = some x →
        (F32.mul (F32.ofRatio 9 10) o.e2_main).toRat = some m →
        |m - 9 / 10 * x| ≤ |x| / 2 ^ 23 + 1 / 2 ^ 150) ∧
      (C.kBlockSize = 64 →
        (F32.mul (F32.mul (F32.ofNat 30) (F32.ofNat 30)) (F32.ofNat C.kBlockSize)).toRat
          = some (30 * 30 * 64) ∧
        (F32.mul (F32.mul (F32.ofNat 60) (F32.ofNat 60)) (F32.ofNat C.kBlockSize)).toRat
          = some (60 * 60 * 64)) ∧
      (∀ u v : Int, F32.lt (.finite u) (.finite v) = true ↔ u < v) ∧
      (∀ x : F32, F32.lt .nan x = false ∧ F32.lt x .nan = false) := by
  obtain ⟨out, h⟩ := FormLinearFilterOutput_returns st o output hm hs h30
  have hiff := use_main_output_eq_false_iff C o
  have h30v : F32.mul (F32.mul (F32.ofNat 30) (F32.ofNat 30)) (F32.ofNat 64)
      = .finite (57600 * 2 ^ 149) := by decide
  have h60v : F32.mul (F32.mul (F32.ofNat 60) (F32.ofNat 60)) (F32.ofNat 64)
      = .finite (230400 * 2 ^ 149) := by decide
  refine ⟨_, out, h, ?_, ?_, (shadow_margin_error o.e2_main).1,
    (shadow_margin_error o.e2_main).2, ?_, ?_, ?_⟩
  · simpa [huse] using hiff
  · simp only [huse]
    rw [← Bool.not_eq_false]
    exact not_congr hiff
  · intro h64
    rw [h64, h30v, h60v]
    simp only [F32.toRat, Option.some.injEq]
    constructor <;> norm_num
  · intro u v
    simp [F32.lt]
  · intro x
    constructor
    · cases x <;> rfl
    · cases x <;> rfl

set_option maxRecDepth 100000 in
/-- Witness of C1: a shadow filter with the clearly smaller error energy is
selected. -/
theorem FormLinearFilterOutput_selects_shadow_iff_witness :
    ∃ st' out, FormLinearFilterOutput (unitGainRemover true 16000 1 1) shadowWins
        (constantBlock 64 F32.zero) = .ok (st', out) ∧
      st'.main_filter_output_last_selected_ = false := by
  obtain ⟨st', out, h, hiff, _⟩ :=
    FormLinearFilterOutput_selects_shadow_iff (unitGainRemover true 16000 1 1) shadowWins
      (constantBlock 64 F32.zero) rfl (by simp [shadowWins, constantBlock])
      (by simp [shadowWins, constantBlock]) (by simp [constantBlock, kTransitionSize])
  exact ⟨st', out, h, hiff.mpr (Or.inl ⟨by decide, by decide, Or.inl (by decide)⟩)⟩

end binary32

end webrtc
